import Mathlib

/-! # Dave asset browser: a verification development

Shallow embedding of the scan worker (`src/workers/folder_scanner_worker.js`),
the folder-pick consumer, the tile lifecycle observer and the full-view code
(`src/core/asset_loading.js`, `src/core/ui.js`), the memory manager
(`src/utils/memoryManager.js`), the FBX viewer's lifecycle flags
(`src/viewers/viewer_fbx.js`), the handler registry
(`src/handlers/AssetHandlerFactory.js`), the file type detector
(`src/utils/fileTypeDetector.js`), the grid's lists, pages and key handling
(`src/core/asset_loading.js`, `src/core/ui.js`, `src/core/main.js`,
`src/utils/keyboardShortcuts.js`) and `debounce` (`src/utils/debounce.js`).

Modelling conventions
* JavaScript strings are Lean strings; `toLowerCase` is modelled on the ASCII
  letters (other code points are left unchanged).
* JavaScript numbers that only count levels are exact integers; `Infinity`
  is a separate constructor.
* A function that posts messages or performs effects returns the list of
  messages or effects in the order in which the source performs them.
* Asynchronous callbacks (timers, promise reactions, worker messages) are
  events of a step function; the order of events is the order in which the
  single-threaded event loop runs the callbacks.
-/

namespace Dave

/-! ## `folder_scanner_worker.js`: file type detection -/

/-- The value stored for an extension in `FILE_TYPE_MAPPINGS`. -/
structure TypeInfo where
  type : String
  subtype : String
deriving DecidableEq, Repr

/-- The table `FILE_TYPE_MAPPINGS` of the worker, in source order. -/
def FILE_TYPE_MAPPINGS : List (String × TypeInfo) :=
  [ (".glb", ⟨"3d", "glb"⟩), (".gltf", ⟨"3d", "gltf"⟩), (".fbx", ⟨"3d", "fbx"⟩),
    (".obj", ⟨"3d", "obj"⟩), (".dae", ⟨"3d", "dae"⟩), (".stl", ⟨"3d", "stl"⟩),
    (".ply", ⟨"3d", "ply"⟩), (".3ds", ⟨"3d", "3ds"⟩),
    (".mp4", ⟨"video", "mp4"⟩), (".webm", ⟨"video", "webm"⟩), (".ogv", ⟨"video", "ogg"⟩),
    (".mov", ⟨"video", "mov"⟩), (".avi", ⟨"video", "avi"⟩), (".mkv", ⟨"video", "mkv"⟩),
    (".mp3", ⟨"audio", "mp3"⟩), (".wav", ⟨"audio", "wav"⟩), (".ogg", ⟨"audio", "ogg"⟩),
    (".oga", ⟨"audio", "ogg"⟩), (".flac", ⟨"audio", "flac"⟩), (".m4a", ⟨"audio", "m4a"⟩),
    (".jpg", ⟨"image", "jpg"⟩), (".jpeg", ⟨"image", "jpg"⟩), (".png", ⟨"image", "png"⟩),
    (".gif", ⟨"image", "gif"⟩), (".webp", ⟨"image", "webp"⟩), (".svg", ⟨"image", "svg"⟩),
    (".bmp", ⟨"image", "bmp"⟩), (".tiff", ⟨"image", "tiff"⟩), (".tif", ⟨"image", "tiff"⟩),
    (".ico", ⟨"image", "ico"⟩),
    (".ttf", ⟨"font", "ttf"⟩), (".otf", ⟨"font", "otf"⟩), (".woff", ⟨"font", "woff"⟩),
    (".woff2", ⟨"font", "woff2"⟩),
    (".pdf", ⟨"document", "pdf"⟩) ]

/-- Property lookup `FILE_TYPE_MAPPINGS[extension]`: the keys are distinct, so
the first pair with the key is the property's value. -/
def lookupExtension (extension : String) : Option TypeInfo :=
  (FILE_TYPE_MAPPINGS.find? (fun p => p.1 == extension)).map Prod.snd

/-- `String.prototype.toLowerCase`, on the ASCII letters: the method itself on
strings of ASCII characters (for the method on all strings see
`LowerCases`). -/
def toLowerCase (s : String) : String :=
  String.mk (s.data.map Char.toLower)

/-- Index of the last occurrence of `c`, as `lastIndexOf` gives it
(`none` for `-1`). -/
def lastIndexOf (c : Char) : List Char → Option Nat
  | [] => none
  | x :: xs =>
    match lastIndexOf c xs with
    | some i => some (i + 1)
    | none => if x = c then some 0 else none

/-- The function `detectFileType` inlined in the worker. -/
def detectFileType (filename : String) : Option TypeInfo :=
  if filename = "" then none
  else
    let lowerFilename := toLowerCase filename
    match lastIndexOf '.' lowerFilename.data with
    | none => none
    | some lastDotIndex =>
      let extension := String.mk (lowerFilename.data.drop lastDotIndex)
      lookupExtension extension

/-! ## `folder_scanner_worker.js`: the directory walk -/

/-- The `File` object a file handle resolves to. -/
structure JsFile where
  name : String
  size : Nat
  lastModified : Nat
deriving DecidableEq, Repr

/-- The `fileEntry` payload of a `fileFound` message. -/
structure FileEntry where
  name : String
  file : JsFile
  type : String
  subtype : String
  fullPath : String
deriving DecidableEq, Repr

/-- A message posted by the worker with `self.postMessage`. -/
inductive WorkerMsg where
  | fileFound (fileEntry : FileEntry)
  | scanError (error : String)
  | scanComplete
deriving DecidableEq, Repr

mutual
/-- A file system handle: `kind === 'file'` with the outcome of `getFile()`
(the file, or the message of the error it rejects with), or
`kind === 'directory'` with the async iterator `entries()`. -/
inductive Handle where
  | file (getFile : Except String JsFile)
  | directory (entries : Entries)
/-- The async iterator `dirHandle.entries()`: it is exhausted, it yields a
pair `[name, handle]` and goes on, or it throws an error with a message. -/
inductive Entries where
  | done
  | yield (name : String) (handle : Handle) (rest : Entries)
  | throw (message : String)
end

/-- The recursion bound `maxRecursiveDepth`: a number or `Infinity`. -/
inductive JsDepth where
  | finite (n : Int)
  | infinity
deriving DecidableEq, Repr

/-- The comparison `currentRecursiveDepth < maxDepth`. -/
def JsDepth.above (maxDepth : JsDepth) (currentRecursiveDepth : Nat) : Bool :=
  match maxDepth with
  | .finite n => decide ((currentRecursiveDepth : Int) < n)
  | .infinity => true

/-- The `catch (dirError)` block of `scanDirectory`, applied to the outcome of
its `try` block: an error is posted as a `scanError` for the directory and
thrown again. -/
def catchDirError (pathPrefix : String) (tryBlock : List WorkerMsg × Except String Unit) :
    List WorkerMsg × Except String Unit :=
  match tryBlock with
  | (posted, .ok u) => (posted, .ok u)
  | (posted, .error dirError) =>
    (posted ++ [WorkerMsg.scanError
      ("Error scanning directory " ++ pathPrefix ++ ": " ++ dirError)], .error dirError)

/-- What the loop body posts for an entry of kind `file`. -/
def scanFile (name : String) (getFile : Except String JsFile) (pathPrefix : String) :
    List WorkerMsg :=
  match getFile with
  | .ok file =>
    match detectFileType file.name with
    | some typeInfo =>
      [WorkerMsg.fileFound
        { name := file.name, file := file, type := typeInfo.type,
          subtype := typeInfo.subtype, fullPath := pathPrefix ++ file.name }]
    | none => []
  | .error fileError =>
    [WorkerMsg.scanError
      ("Error processing file " ++ pathPrefix ++ name ++ ": " ++ fileError)]

/-- The `for await` loop of `scanDirectory` inside its `try` block: the
messages posted, and whether the loop ends (`ok`) or an error leaves it
(`error`). The recursive call `await scanDirectory(handle, ...)` is the loop
of the subdirectory under its `catch` block. -/
def scanLoop (it : Entries) (currentRecursiveDepth : Nat) (maxDepth : JsDepth)
    (pathPrefix : String) : List WorkerMsg × Except String Unit :=
  match it with
  | .done => ([], .ok ())
  | .throw message => ([], .error message)
  | .yield name (.file getFile) rest =>
    let r := scanLoop rest currentRecursiveDepth maxDepth pathPrefix
    (scanFile name getFile pathPrefix ++ r.1, r.2)
  | .yield name (.directory sub) rest =>
    if maxDepth.above currentRecursiveDepth then
      match catchDirError (pathPrefix ++ name ++ "/")
          (scanLoop sub (currentRecursiveDepth + 1) maxDepth (pathPrefix ++ name ++ "/")) with
      | (posted, .ok _) =>
        let r := scanLoop rest currentRecursiveDepth maxDepth pathPrefix
        (posted ++ r.1, r.2)
      | (posted, .error e) => (posted, .error e)
    else scanLoop rest currentRecursiveDepth maxDepth pathPrefix
termination_by structural it

/-- The function `scanDirectory`: the messages it posts, and whether it
returns (`ok`) or throws the directory error again (`error`). -/
def scanDirectory (dirHandle : Entries) (currentRecursiveDepth : Nat) (maxDepth : JsDepth)
    (pathPrefix : String) : List WorkerMsg × Except String Unit :=
  catchDirError pathPrefix (scanLoop dirHandle currentRecursiveDepth maxDepth pathPrefix)

/-! ## `folder_scanner_worker.js`: the message handler -/

/-- The code points `parseInt` skips at the start of its input
(`StrWhiteSpaceChar`: white space and line terminators). -/
def isStrWhiteSpaceChar (c : Char) : Bool :=
  let n := c.toNat
  n == 9 || n == 10 || n == 11 || n == 12 || n == 13 || n == 32 || n == 160 ||
  n == 0x1680 || (0x2000 ≤ n && n ≤ 0x200A) || n == 0x2028 || n == 0x2029 ||
  n == 0x202F || n == 0x205F || n == 0x3000 || n == 0xFEFF

/-- The value of a radix-10 digit. -/
def digitValue (c : Char) : Nat := c.toNat - '0'.toNat

/-- The number written by a list of radix-10 digits. -/
def digitsValue (ds : List Char) : Nat :=
  ds.foldl (fun acc c => acc * 10 + digitValue c) 0

/-- The call `parseInt(s, 10)`: leading white space is skipped, one sign is
read, then the longest prefix of decimal digits; `none` is `NaN` (no digit). -/
def parseInt (s : String) : Option Int :=
  let trimmed := s.data.dropWhile isStrWhiteSpaceChar
  let signed : Bool × List Char :=
    match trimmed with
    | [] => (false, [])
    | c :: rest =>
      if c = '-' then (true, rest) else if c = '+' then (false, rest) else (false, c :: rest)
  let digits := signed.2.takeWhile Char.isDigit
  if digits.isEmpty then none
  else if signed.1 then some (-(digitsValue digits : Int)) else some (digitsValue digits : Int)

/-- The data of a scan request: `event.data`. -/
structure ScanRequest where
  dirHandle : Option Entries
  maxDepth : String
  currentPath : String

/-- The computation of `maxRecursiveDepth` from `inputMaxDepth`. -/
def maxRecursiveDepthOf (inputMaxDepth : String) : JsDepth :=
  if inputMaxDepth = "all" then JsDepth.infinity
  else if inputMaxDepth ≠ "off" then
    match parseInt inputMaxDepth with
    | some n => JsDepth.finite n
    | none => JsDepth.finite 0
  else JsDepth.finite 0

/-- The handler `self.onmessage`: all messages the worker posts for one
request, in order. -/
def onmessage (data : ScanRequest) : List WorkerMsg :=
  match data.dirHandle with
  | none => [WorkerMsg.scanError "Directory handle not provided."]
  | some dirHandle =>
    match scanDirectory dirHandle 0 (maxRecursiveDepthOf data.maxDepth) data.currentPath with
    | (posted, .ok _) => posted ++ [WorkerMsg.scanComplete]
    | (posted, .error _) => posted

/-! ## The scan worker: what a scan is expected to report -/

/-- No read fails anywhere in the tree: no `getFile()` rejects and no
directory iterator throws. -/
def Entries.readable : Entries → Bool
  | .done => true
  | .throw _ => false
  | .yield _ (.file (.ok _)) rest => rest.readable
  | .yield _ (.file (.error _)) _ => false
  | .yield _ (.directory sub) rest => sub.readable && rest.readable
termination_by structural it => it

/-- Every file of the tree in iteration order (depth first), each with the
number of directory levels between it and the root and with the path prefix
of its directory. Files directly in the root are at level `level`. -/
def Entries.filesWithLevel (level : Nat) (pathPrefix : String) :
    Entries → List (Nat × String × JsFile)
  | .done => []
  | .throw _ => []
  | .yield _ (.file (.ok file)) rest =>
    (level, pathPrefix, file) :: rest.filesWithLevel level pathPrefix
  | .yield _ (.file (.error _)) rest => rest.filesWithLevel level pathPrefix
  | .yield name (.directory sub) rest =>
    sub.filesWithLevel (level + 1) (pathPrefix ++ name ++ "/") ++
      rest.filesWithLevel level pathPrefix
termination_by structural it => it

/-- A level is within the depth `d` (`none` is the unbounded depth). -/
def withinDepth (d : Option Nat) (level : Nat) : Bool :=
  match d with
  | none => true
  | some k => decide (level ≤ k)

/-- The `fileFound` message of a file in a directory with a path prefix, when
`detectFileType` recognises its name. -/
def foundMessage (pathPrefix : String) (file : JsFile) : Option WorkerMsg :=
  (detectFileType file.name).map fun typeInfo =>
    WorkerMsg.fileFound
      { name := file.name, file := file, type := typeInfo.type,
        subtype := typeInfo.subtype, fullPath := pathPrefix ++ file.name }

/-- The messages expected for a list of files with levels: one `fileFound`
for each recognised file within the depth, in order. -/
def expectedFound (d : Option Nat) (files : List (Nat × String × JsFile)) : List WorkerMsg :=
  files.filterMap fun x => if withinDepth d x.1 then foundMessage x.2.1 x.2.2 else none

/-- The meaning of a configured depth string: `off` is 0, `all` is unbounded,
a string of decimal digits is its value, a string `parseInt` cannot read
is 0. -/
inductive ConfiguredDepth : String → Option Nat → Prop where
  | off : ConfiguredDepth "off" (some 0)
  | all : ConfiguredDepth "all" none
  | decimal (ds : List Char) (hne : ds ≠ []) (hdigits : ∀ c ∈ ds, c.isDigit = true) :
      ConfiguredDepth (String.mk ds) (some (digitsValue ds))
  | unparsable (s : String) (hnan : parseInt s = none) (hall : s ≠ "all") :
      ConfiguredDepth s (some 0)

/-- The number of directory levels a recursion bound lets the walk descend. -/
def JsDepth.toLevels : JsDepth → Option Nat
  | .finite n => some n.toNat
  | .infinity => none

/-- The comparison of the walk against a bound agrees with a number of levels. -/
def DepthAgrees (maxDepth : JsDepth) (d : Option Nat) : Prop :=
  ∀ level : Nat, maxDepth.above level = true ↔ withinDepth d (level + 1) = true

/-! ## `asset_loading.js`: `handleFolderPick` and its worker callbacks -/

/-- The closure state of one call of `handleFolderPick`: the variables
`newModelFiles` and `scanErrorOccurred`, and whether `worker.terminate()` has
been called. -/
structure ScanWorker where
  newModelFiles : List FileEntry
  scanErrorOccurred : Bool
  terminated : Bool
deriving DecidableEq, Repr

/-- The module variable `modelFiles` and the workers created so far, in the
order of the calls of `handleFolderPick`. -/
structure PickState where
  modelFiles : List FileEntry
  workers : List ScanWorker
deriving DecidableEq, Repr

/-- The callbacks that run on the main thread for folder scans. -/
inductive PickEvent where
  | handleFolderPick (workerCreated : Bool)
  | message (worker : Nat) (data : WorkerMsg)
  | error (worker : Nat)
deriving DecidableEq, Repr

/-- The call `list.sort((a, b) => a.name.localeCompare(b.name))`: a stable
sort by the comparison `localeCompare`, which the platform supplies. -/
def sortByName (localeCompare : String → String → Int) (list : List FileEntry) :
    List FileEntry :=
  list.insertionSort (fun a b => localeCompare a.name b.name ≤ 0)

/-- The function `handleFolderPick`, as far as `modelFiles` and the worker are
concerned: `modelFiles = []`, then `new Worker(...)`, which creates the worker
or throws into the `catch` block. -/
def handleFolderPick (s : PickState) (workerCreated : Bool) : PickState :=
  let cleared : PickState := { s with modelFiles := [] }
  if workerCreated then
    { cleared with
      workers := cleared.workers ++
        [{ newModelFiles := [], scanErrorOccurred := false, terminated := false }] }
  else cleared

/-- The handler `worker.onmessage` of the worker with index `i`. A terminated
worker delivers nothing. -/
def workerOnmessage (localeCompare : String → String → Int) (s : PickState) (i : Nat)
    (data : WorkerMsg) : PickState :=
  match s.workers[i]? with
  | none => s
  | some wk =>
    if wk.terminated then s
    else
      match data with
      | .fileFound fileEntry =>
        { s with
          workers := s.workers.set i
            { wk with newModelFiles := wk.newModelFiles ++ [fileEntry] } }
      | .scanComplete =>
        let sorted := sortByName localeCompare wk.newModelFiles
        { modelFiles := sorted,
          workers := s.workers.set i { wk with newModelFiles := sorted, terminated := true } }
      | .scanError _ =>
        { s with workers := s.workers.set i { wk with scanErrorOccurred := true } }

/-- The handler `worker.onerror` of the worker with index `i`. -/
def workerOnerror (s : PickState) (i : Nat) : PickState :=
  match s.workers[i]? with
  | none => s
  | some wk => { s with workers := s.workers.set i { wk with terminated := true } }

/-- One callback on the main thread. -/
def pickStep (localeCompare : String → String → Int) (s : PickState) : PickEvent → PickState
  | .handleFolderPick workerCreated => handleFolderPick s workerCreated
  | .message i data => workerOnmessage localeCompare s i data
  | .error i => workerOnerror s i

/-- A sequence of callbacks, in the order the event loop runs them. -/
def pickRun (localeCompare : String → String → Int) (s : PickState) (events : List PickEvent) :
    PickState :=
  events.foldl (pickStep localeCompare) s

/-- A `fileFound` or `scanError` message of some worker. -/
def PickEvent.isFoundOrError : PickEvent → Bool
  | .message _ (.fileFound _) => true
  | .message _ (.scanError _) => true
  | _ => false

/-- A comparison for the examples: every two names compare equal. -/
def constantCompare (_ _ : String) : Int := 0

/-- The entry reported for `a.fbx` in the examples. -/
def entryA : FileEntry :=
  { name := "a.fbx", file := { name := "a.fbx", size := 1, lastModified := 0 },
    type := "3d", subtype := "fbx", fullPath := "first/a.fbx" }

/-- Two folder picks; the first scan reports `a.fbx` before the second pick
and completes after it. -/
def supersededScanEvents : List PickEvent :=
  [ .handleFolderPick true, .message 0 (.fileFound entryA), .handleFolderPick true,
    .message 0 .scanComplete ]

/-! ## The page: tiles, FBX viewers, the memory manager's viewer set, timers

Objects are numbered: a tile, an asset record (`model`) and an FBX viewer are
each known by a natural number, and a table gives the current fields of each
object. A reference to a viewer that was never constructed names no object:
calling a method through it does nothing. -/

/-- The values kept in the `WeakMap` `tileLoadingStates`. -/
inductive LoadingState where
  | unloaded
  | loading
  | loaded
  | error
deriving DecidableEq, Repr

/-- An asset record: an element of `modelFiles`, with the fields that the
lifecycle code reads and writes. -/
structure Model where
  name : String
  fullPath : String
  type : String
  subtype : String
  blobUrl : Option String
  blobData : Option String
  thumbnailDataUrl : Option String
deriving DecidableEq, Repr

/-- The lifecycle fields of an `FBXViewer`, and the tile whose `onError`
option closes over it (`none` when the viewer was constructed without
`onError`). -/
structure FbxViewer where
  isLoading : Bool
  isDisposed : Bool
  onErrorTile : Option Nat
deriving DecidableEq, Repr

/-- The fields of a tile element: `tile.model` and `tile.fbxViewerInstance`. -/
structure Tile where
  model : Option Nat
  fbxViewerInstance : Option Nat
deriving DecidableEq, Repr

/-- A timer set by `setTimeout` in the observer and not yet fired or cleared:
its handle and the `tile` and `model` its callback closes over. -/
structure PendingTimer where
  handle : Nat
  tile : Nat
  model : Nat
deriving DecidableEq, Repr

/-- The promise returned by `loadTileContent(tile)` while its reactions have
not run: the function has finished (and the promise is fulfilled or rejected),
or it is suspended at one of its `await`s. -/
inductive PendingLoad where
  | settled (rejected : Bool)
  | awaitScript
  | awaitThumbnail (model : Nat)
  | awaitFont
deriving DecidableEq, Repr

/-- The closure stored in the `cleanup` field of `currentFullscreenViewer`. -/
inductive Cleanup where
  | revokeUrl (fileUrl : String)
  | fbx (viewer : Nat) (fileUrl : String)
  | audio (fileUrl : String)
  | font (fileUrl : String)
deriving DecidableEq, Repr

/-- The object stored in `currentFullscreenViewer`: its `type` field (absent
for 3D models and images), `fileName` and `cleanup`. -/
structure FullscreenViewer where
  type : Option String
  fileName : String
  cleanup : Option Cleanup
deriving DecidableEq, Repr

/-- What the page does to the platform and to its resources, in order. -/
inductive Effect where
  | loadTileContent (tile : Nat)
  | createObjectURL (url : String)
  | revokeObjectURL (url : String)
  | newFbxViewer (viewer : Nat)
  | disposeCalled (viewer : Nat)
  | disposeRan (viewer : Nat)
  | setTimeout (handle : Nat)
  | clearTimeout (handle : Nat)
  | teardownRan (handle : Nat)
  | reportAssetError (name : String)
  | cleanupCalled (fileName : String)
deriving DecidableEq, Repr

/-- The state of the page. -/
structure World where
  models : Nat → Model
  tiles : Nat → Tile
  nextTile : Nat
  container : List Nat
  viewers : Nat → Option FbxViewer
  nextViewer : Nat
  activeFbxViewers : List Nat
  blobUrls : List (String × String)
  tileLoadingStates : Nat → Option LoadingState
  tileCleanupTimeouts : Nat → Option Nat
  timers : List PendingTimer
  lastTimer : Nat
  loads : Nat → Option PendingLoad
  currentFullscreenViewer : Option FullscreenViewer
  log : List Effect

/-- The table `f` with the entry for `i` replaced. -/
def update {α : Type} (f : Nat → α) (i : Nat) (x : α) : Nat → α :=
  fun j => if j = i then x else f j

/-- The page after module load: no tile, no viewer, no timer. -/
def World.initial (models : Nat → Model) : World :=
  { models := models, tiles := fun _ => ⟨none, none⟩, nextTile := 0, container := [],
    viewers := fun _ => none, nextViewer := 0, activeFbxViewers := [], blobUrls := [],
    tileLoadingStates := fun _ => none, tileCleanupTimeouts := fun _ => none, timers := [],
    lastTimer := 0, loads := fun _ => none, currentFullscreenViewer := none, log := [] }

/-- Record an effect. -/
def World.emit (w : World) (e : Effect) : World :=
  { w with log := w.log ++ [e] }

/-- Assign fields of an asset record. -/
def World.setModel (w : World) (m : Nat) (model : Model) : World :=
  { w with models := update w.models m model }

/-- Set `tile.fbxViewerInstance`. -/
def World.setTileViewer (w : World) (t : Nat) (v : Option Nat) : World :=
  { w with tiles := update w.tiles t { w.tiles t with fbxViewerInstance := v } }

/-- Set `tile.model`. -/
def World.setTileModel (w : World) (t : Nat) (m : Option Nat) : World :=
  { w with tiles := update w.tiles t { w.tiles t with model := m } }

/-- The calls `tileLoadingStates.set(tile, state)` (`some state`) and
`tileLoadingStates.delete(tile)` (`none`). -/
def World.setLoadingState (w : World) (t : Nat) (state : Option LoadingState) : World :=
  { w with tileLoadingStates := update w.tileLoadingStates t state }

/-- Set the fields of a viewer. -/
def World.setViewer (w : World) (v : Nat) (viewer : FbxViewer) : World :=
  { w with viewers := update w.viewers v (some viewer) }

/-- Truthiness of a string field that may be `null` or `undefined`. -/
def truthy (s : Option String) : Bool :=
  match s with
  | some u => u != ""
  | none => false

/-! ### `viewer_fbx.js` -/

/-- The method `FBXViewer.dispose`: it returns at once when `isDisposed` is
set; otherwise it sets `isDisposed` and releases the viewer's resources
(`disposeRan`). -/
def fbxViewerDispose (w : World) (v : Nat) : World :=
  match w.viewers v with
  | none => w
  | some viewer =>
    if viewer.isDisposed then w.emit (.disposeCalled v)
    else
      ((w.emit (.disposeCalled v)).emit (.disposeRan v)).setViewer v
        { viewer with isDisposed := true }

/-- The method `FBXViewer.loadModel`, up to the start of the load. -/
def fbxViewerLoadModel (w : World) (v : Nat) : World :=
  match w.viewers v with
  | none => w
  | some viewer =>
    if viewer.isDisposed then w
    else w.setViewer v { viewer with isLoading := true }

/-- The expression `new FBXViewer(container, options)`: the page with the new
viewer in it. The new viewer's number is `w.nextViewer`. -/
def newFbxViewer (w : World) (onErrorTile : Option Nat) : World :=
  { (w.emit (.newFbxViewer w.nextViewer)).setViewer w.nextViewer
      { isLoading := false, isDisposed := false, onErrorTile := onErrorTile } with
    nextViewer := w.nextViewer + 1 }

/-! ### `memoryManager.js` -/

/-- The method `registerFbxViewer`: `activeFbxViewers.add(viewer)`. -/
def registerFbxViewer (w : World) (v : Nat) : World :=
  if v ∈ w.activeFbxViewers then w
  else { w with activeFbxViewers := w.activeFbxViewers ++ [v] }

/-- The statement `this.activeFbxViewers.delete(viewer)`. -/
def World.deleteActiveFbxViewer (w : World) (v : Nat) : World :=
  { w with activeFbxViewers := w.activeFbxViewers.filter (fun x => x != v) }

/-- The method `disposeFbxViewer`. -/
def disposeFbxViewer (w : World) (v : Nat) : World :=
  if v ∈ w.activeFbxViewers then (fbxViewerDispose w v).deleteActiveFbxViewer v
  else w

/-- The method `disposeAllFbxViewers`: `disposeFbxViewer` for each element of
a copy of the set. -/
def disposeAllFbxViewers (w : World) : World :=
  w.activeFbxViewers.foldl disposeFbxViewer w

/-- The statement `this.blobUrls.delete(modelId)`. -/
def World.deleteBlobUrl (w : World) (modelId : String) : World :=
  { w with blobUrls := w.blobUrls.filter (fun p => p.1 != modelId) }

/-- The method `revokeBlobUrl`. -/
def revokeBlobUrl (w : World) (modelId : String) : World :=
  match w.blobUrls.lookup modelId with
  | some url =>
    if url != "" then (w.emit (.revokeObjectURL url)).deleteBlobUrl modelId
    else w
  | none => w

/-- The first block of `cleanupModel`: with `model.blobUrl` set, the URL
tracked for the model is revoked and `blobUrl` and `blobData` are cleared. -/
def cleanupModelBlob (w : World) (m : Nat) : World :=
  if truthy (w.models m).blobUrl then
    (revokeBlobUrl w
        (if (w.models m).fullPath != "" then (w.models m).fullPath else (w.models m).name)).setModel
      m { w.models m with blobUrl := none, blobData := none }
  else w

/-- The statement `if (model.thumbnailDataUrl) model.thumbnailDataUrl = null`,
of `cleanupModel` and of the teardown callback. -/
def clearThumbnail (w : World) (m : Nat) : World :=
  if truthy (w.models m).thumbnailDataUrl then
    w.setModel m { w.models m with thumbnailDataUrl := none }
  else w

/-- The method `cleanupModel`. -/
def cleanupModel (w : World) (m : Nat) : World :=
  clearThumbnail (cleanupModelBlob w m) m

/-- The first block of `cleanupTile`: a viewer on the tile is disposed through
`disposeFbxViewer` and `tile.fbxViewerInstance` is cleared. -/
def cleanupTileViewer (w : World) (t : Nat) : World :=
  match (w.tiles t).fbxViewerInstance with
  | some v => (disposeFbxViewer w v).setTileViewer t none
  | none => w

/-- The last block of `cleanupTile`: the tile's model is cleaned up and
`tile.model` is cleared. -/
def cleanupTileModel (w : World) (t : Nat) : World :=
  match (w.tiles t).model with
  | some m => (cleanupModel w m).setTileModel t none
  | none => w

/-- The method `cleanupTile`. No `model-viewer` element is ever registered
with the manager, so the `disposeModelViewer` call removes nothing. -/
def cleanupTile (w : World) (t : Nat) : World :=
  cleanupTileModel (cleanupTileViewer w t) t

/-! ### `asset_loading.js`: `loadTileContent` -/

/-- What the platform answers during the synchronous part of one call of
`loadTileContent`: the URL `URL.createObjectURL(model.file)` returns or the
message of the error it throws, and whether the custom element
`model-viewer` is already defined. -/
structure LoadEnv where
  createObjectURL : Except String String
  modelViewerDefined : Bool
deriving Repr

/-- The first block of `loadTileContent`: a viewer left on the tile is
disposed, directly and then through the memory manager, and
`tile.fbxViewerInstance` is cleared. -/
def disposePreviousViewer (w : World) (t : Nat) : World :=
  match (w.tiles t).fbxViewerInstance with
  | some old => (disposeFbxViewer (fbxViewerDispose w old) old).setTileViewer t none
  | none => w

/-- The `fbx` branch of `loadTileContent`: a viewer is constructed with an
`onError` option for the tile, stored on the tile, registered with the memory
manager, and `loadModel` is called. -/
def startTileFbxViewer (w : World) (t : Nat) : World :=
  fbxViewerLoadModel
    (registerFbxViewer ((newFbxViewer w (some t)).setTileViewer t (some w.nextViewer))
      w.nextViewer)
    w.nextViewer

/-- The `try` block of `loadTileContent` after `URL.createObjectURL` has
returned `fileUrl`, up to the first `await` or the end. -/
def loadByType (w : World) (t m : Nat) (modelViewerDefined : Bool) : World × PendingLoad :=
  if (w.models m).subtype = "glb" then
    (w, if modelViewerDefined then .settled false else .awaitScript)
  else if (w.models m).subtype = "fbx" then (startTileFbxViewer w t, .settled false)
  else if (w.models m).type = "video" then (w, .settled false)
  else if (w.models m).type = "audio" then (w, .settled false)
  else if (w.models m).type = "image" then
    (w, if truthy (w.models m).thumbnailDataUrl then .settled false else .awaitThumbnail m)
  else if (w.models m).type = "font" then (w, .awaitFont)
  else (w, .settled false)

/-- The function `loadTileContent(tile)` up to its first `await` or its end:
the page afterwards and the state of the returned promise.

With `tile.model` null the first read of a field of `model` throws outside of
any handler that could finish, and the promise rejects. Otherwise a viewer
left on the tile is disposed and the `try` block runs; an error thrown in it
(by `URL.createObjectURL`) is caught by the `catch` block, which reports it
and returns normally. -/
def loadTileContent (w : World) (t : Nat) (env : LoadEnv) : World × PendingLoad :=
  match (w.tiles t).model with
  | none => (w.emit (.loadTileContent t), .settled true)
  | some m =>
    match env.createObjectURL with
    | .error _ =>
      ((disposePreviousViewer (w.emit (.loadTileContent t)) t).emit
        (.reportAssetError (w.models m).name), .settled false)
    | .ok fileUrl =>
      loadByType
        ((disposePreviousViewer (w.emit (.loadTileContent t)) t).emit (.createObjectURL fileUrl))
        t m env.modelViewerDefined

/-- The rest of `loadTileContent` after the awaited promise has settled with
`awaited` (the thumbnail's data URL, or an error): the page afterwards and
whether the promise of `loadTileContent` rejects. A failed thumbnail falls
back to the full image and a failed font load shows an error placeholder,
both inside their own `try`/`catch`: the function returns normally. -/
def loadTileContentResume (w : World) (p : PendingLoad) (awaited : Except String String) :
    World × Bool :=
  match p with
  | .settled rejected => (w, rejected)
  | .awaitScript => (w, false)
  | .awaitThumbnail m =>
    match awaited with
    | .ok dataUrl => (w.setModel m { w.models m with thumbnailDataUrl := some dataUrl }, false)
    | .error _ => (w, false)
  | .awaitFont => (w, false)

/-- Record or forget the unsettled promise of `loadTileContent(tile)`. -/
def World.setLoad (w : World) (t : Nat) (p : Option PendingLoad) : World :=
  { w with loads := update w.loads t p }

/-- The promise of `loadTileContent(tile)` settles: a suspended call first
runs to its end with the result of the awaited promise, then the reaction
`.then(() => set(tile, 'loaded'))` or `.catch(() => set(tile, 'error'))`
runs. -/
def loadSettled (w : World) (t : Nat) (awaited : Except String String) : World :=
  match w.loads t with
  | none => w
  | some p =>
    ((loadTileContentResume w p awaited).1.setLoad t none).setLoadingState t
      (some (if (loadTileContentResume w p awaited).2 then LoadingState.error
        else LoadingState.loaded))

/-! ### `asset_loading.js`: the callback of `tileObserver` -/

/-- The call `clearTimeout(handle)`. -/
def clearTimeout (w : World) (handle : Nat) : World :=
  { w.emit (.clearTimeout handle) with timers := w.timers.filter (fun tm => tm.handle != handle) }

/-- The statement `tileCleanupTimeouts.delete(tile)`. -/
def World.deleteCleanupTimeout (w : World) (t : Nat) : World :=
  { w with tileCleanupTimeouts := update w.tileCleanupTimeouts t none }

/-- The block "Cancel any pending cleanup" of the enter branch. Timer handles
are positive, so a stored handle is truthy unless it is 0. -/
def cancelPendingCleanup (w : World) (t : Nat) : World :=
  match w.tileCleanupTimeouts t with
  | some cleanupTimeout =>
    if cleanupTimeout != 0 then (clearTimeout w cleanupTimeout).deleteCleanupTimeout t
    else w
  | none => w

/-- The body of `if (!loadingState || loadingState === 'unloaded')`: the state
becomes `'loading'` and `loadTileContent(tile)` is called. -/
def startLoad (w : World) (t : Nat) (env : LoadEnv) : World :=
  (loadTileContent (w.setLoadingState t (some LoadingState.loading)) t env).1.setLoad t
    (some (loadTileContent (w.setLoadingState t (some LoadingState.loading)) t env).2)

/-- The branch `entry.isIntersecting` of the observer callback for one tile. -/
def observeEnter (w : World) (t : Nat) (env : LoadEnv) : World :=
  match (cancelPendingCleanup w t).tileLoadingStates t with
  | none => startLoad (cancelPendingCleanup w t) t env
  | some .unloaded => startLoad (cancelPendingCleanup w t) t env
  | some .loading => cancelPendingCleanup w t
  | some .loaded => cancelPendingCleanup w t
  | some .error => cancelPendingCleanup w t

/-- The `else` branch of the observer callback for one tile: a tile with a
model and the state `'loaded'` gets a 500 ms timer whose handle replaces the
tile's entry of `tileCleanupTimeouts`. `setTimeout` returns a fresh positive
handle. -/
def observeExit (w : World) (t : Nat) : World :=
  match (w.tiles t).model, w.tileLoadingStates t with
  | some m, some .loaded =>
    { w.emit (.setTimeout (w.lastTimer + 1)) with
      timers := w.timers ++ [{ handle := w.lastTimer + 1, tile := t, model := m }],
      lastTimer := w.lastTimer + 1,
      tileCleanupTimeouts := update w.tileCleanupTimeouts t (some (w.lastTimer + 1)) }
  | _, _ => w

/-- The block "Revoke blob URL if it exists" of the teardown callback. -/
def teardownBlob (w : World) (m : Nat) : World :=
  match (w.models m).blobUrl with
  | some url =>
    if url != "" then
      (w.emit (.revokeObjectURL url)).setModel m
        { w.models m with blobUrl := none, blobData := none }
    else w
  | none => w

/-- The block "Dispose FBXViewer if it exists for this tile and is not
loading" of the teardown callback: a viewer that is neither loading nor
disposed is disposed, directly and then through the memory manager, and
`tile.fbxViewerInstance` is cleared. -/
def teardownViewer (w : World) (t : Nat) : World :=
  match (w.tiles t).fbxViewerInstance with
  | some v =>
    match w.viewers v with
    | some viewer =>
      if !viewer.isLoading && !viewer.isDisposed then
        (disposeFbxViewer (fbxViewerDispose w v) v).setTileViewer t none
      else w
    | none => w
  | none => w

/-- The callback passed to `setTimeout`, for the `tile` and `model` it closes
over. (The test `model.type === "glb"` and the changes to the tile's child
elements touch no field of the state.) -/
def teardown (w : World) (tm : PendingTimer) : World :=
  (clearThumbnail
      (teardownViewer (teardownBlob (w.emit (.teardownRan tm.handle)) tm.model) tm.tile)
      tm.model).setLoadingState
    tm.tile (some LoadingState.unloaded)

/-- The timer leaves the list of pending timers. -/
def World.dropTimer (w : World) (handle : Nat) : World :=
  { w with timers := w.timers.filter (fun x => x.handle != handle) }

/-- A pending timer fires: it leaves the list of pending timers and its
callback runs. A handle that is not pending fires nothing. -/
def timerFired (w : World) (handle : Nat) : World :=
  match w.timers.find? (fun tm => tm.handle == handle) with
  | some tm => teardown (w.dropTimer handle) tm
  | none => w

/-- The block "Clean up the failed viewer" of the `onError` option. -/
def onErrorCleanup (w : World) (t : Nat) : World :=
  match (w.tiles t).fbxViewerInstance with
  | some v => (disposeFbxViewer w v).setTileViewer t none
  | none => w

/-- The name reported by the `onError` option: `model.name`. -/
def tileModelName (w : World) (t : Nat) : String :=
  match (w.tiles t).model with
  | some m => (w.models m).name
  | none => ""

/-- The `onError` option passed to the tile's `FBXViewer`. -/
def tileViewerOnError (w : World) (t : Nat) : World :=
  (onErrorCleanup (w.emit (.reportAssetError (tileModelName w t))) t).setLoadingState t
    (some LoadingState.error)

/-- The call `this.onError(error)` when `this.onError` is set. -/
def callOnError (w : World) (onErrorTile : Option Nat) : World :=
  match onErrorTile with
  | some t => tileViewerOnError w t
  | none => w

/-- The callbacks that `loadModel` passes to the loader, for a load in
flight: both return at once on a disposed viewer; otherwise `isLoading` is
cleared and, when the load failed or processing the loaded object throws,
`this.onError` is called if it is set. -/
def fbxLoadFinished (w : World) (v : Nat) (failed : Bool) : World :=
  match w.viewers v with
  | none => w
  | some viewer =>
    if !viewer.isLoading || viewer.isDisposed then w
    else if failed then
      callOnError (w.setViewer v { viewer with isLoading := false }) viewer.onErrorTile
    else w.setViewer v { viewer with isLoading := false }

/-! ### `asset_loading.js`: `renderPage` and the start of `handleFolderPick` -/

/-- The loop of `renderPage` over the tiles in the container, for one tile:
`memoryManager.cleanupTile(tileElement)` and
`tileLoadingStates.delete(tileElement)`. -/
def cleanupRenderedTile (w : World) (t : Nat) : World :=
  (cleanupTile w t).setLoadingState t none

/-- The body of `pageItems.forEach` in `renderPage`: a new tile for the model
is appended to the container (and observed). -/
def appendTile (w : World) (m : Nat) : World :=
  { w with
    tiles := update w.tiles w.nextTile { model := some m, fbxViewerInstance := none },
    container := w.container ++ [w.nextTile],
    nextTile := w.nextTile + 1 }

/-- The statement `viewerContainer.innerHTML = ""`. -/
def World.clearContainer (w : World) : World :=
  { w with container := [] }

/-- The function `renderPage`, for the page items it slices from
`filteredModelFiles`: every tile in the container is cleaned up through the
memory manager and loses its loading state, the container is emptied, and one
new tile is appended for each page item. -/
def renderPage (w : World) (pageItems : List Nat) : World :=
  pageItems.foldl appendTile (w.container.foldl cleanupRenderedTile w).clearContainer

/-- The first statements of `handleFolderPick` that touch the page:
`memoryManager.disposeAllFbxViewers()` and the replacement of the container's
content by the scanning notice. -/
def folderPickStart (w : World) : World :=
  (disposeAllFbxViewers w).clearContainer

/-! ### `asset_loading.js` and `ui.js`: the full view -/

/-- What the platform answers during one call of `showFullscreen`: the result
of `URL.createObjectURL(model.file)` and whether `loadFont` succeeds. -/
structure FullscreenEnv where
  createObjectURL : Except String String
  fontLoads : Bool
deriving Repr

/-- The assignment `currentFullscreenViewer = { type, fileName, cleanup }`. -/
def World.setFullscreenViewer (w : World) (type : Option String) (fileName : String)
    (cleanup : Cleanup) : World :=
  { w with currentFullscreenViewer := some ⟨type, fileName, some cleanup⟩ }

/-- The `fbx` branch of `showFullscreen`: a viewer is constructed without an
`onError` option and registered with the memory manager, and `loadModel` is
called. The new viewer's number is `w.nextViewer`. -/
def startFullscreenFbxViewer (w : World) : World :=
  fbxViewerLoadModel (registerFbxViewer (newFbxViewer w none) w.nextViewer) w.nextViewer

/-- The `try` block of `showFullscreen` after `URL.createObjectURL` has
returned `fileUrl`. -/
def showByType (w : World) (m : Nat) (fileUrl : String) (fontLoads : Bool) : World :=
  if (w.models m).subtype = "glb" then
    w.setFullscreenViewer none (w.models m).name (.revokeUrl fileUrl)
  else if (w.models m).subtype = "fbx" then
    (startFullscreenFbxViewer w).setFullscreenViewer none (w.models m).name
      (.fbx w.nextViewer fileUrl)
  else if (w.models m).type = "video" then
    w.setFullscreenViewer (some "video") (w.models m).name (.revokeUrl fileUrl)
  else if (w.models m).type = "image" then
    w.setFullscreenViewer none (w.models m).name (.revokeUrl fileUrl)
  else if (w.models m).type = "audio" then
    w.setFullscreenViewer (some "audio") (w.models m).name (.audio fileUrl)
  else if (w.models m).type = "font" then
    if fontLoads then w.setFullscreenViewer (some "font") (w.models m).name (.font fileUrl)
    else w
  else w

/-- The function `showFullscreen(model)`, run to its end (its two `await`s,
for the `model-viewer` script and for the font, are not interleaved with other
callbacks). An error of `URL.createObjectURL` and a failed font load are
caught and shown; neither assigns `currentFullscreenViewer`. The function
never reads `currentFullscreenViewer`. -/
def showFullscreen (w : World) (m : Nat) (env : FullscreenEnv) : World :=
  match env.createObjectURL with
  | .error _ => w
  | .ok fileUrl => showByType (w.emit (.createObjectURL fileUrl)) m fileUrl env.fontLoads

/-- The statement `if (fileUrl) URL.revokeObjectURL(fileUrl)` of the `cleanup`
closures. -/
def revokeIfSet (w : World) (fileUrl : String) : World :=
  if fileUrl != "" then w.emit (.revokeObjectURL fileUrl) else w

/-- A call of a `cleanup` closure of `showFullscreen`. -/
def runCleanup (w : World) : Cleanup → World
  | .revokeUrl fileUrl => revokeIfSet w fileUrl
  | .fbx v fileUrl => revokeIfSet (disposeFbxViewer w v) fileUrl
  | .audio fileUrl => revokeIfSet w fileUrl
  | .font fileUrl => revokeIfSet w fileUrl

/-- The function `exitFullscreen(currentFullscreenViewer)` of `ui.js`, on a
page that has the element `fullscreenVideo`: a video view is paused and its
`cleanup` is not called; any other view has its `cleanup` called when it has
one. The variable `currentFullscreenViewer` itself is not assigned. -/
def exitFullscreen (w : World) (viewer : Option FullscreenViewer) : World :=
  match viewer with
  | none => w
  | some d =>
    if d.type = some "video" then w
    else
      match d.cleanup with
      | some c => runCleanup (w.emit (.cleanupCalled d.fileName)) c
      | none => w

/-! ### The callbacks of the page as events -/

/-- A callback that the event loop runs on the page. -/
inductive Event where
  | enter (tile : Nat) (env : LoadEnv)
  | exit (tile : Nat)
  | timerFired (handle : Nat)
  | loadSettled (tile : Nat) (awaited : Except String String)
  | fbxLoadFinished (viewer : Nat) (failed : Bool)
  | renderPage (pageItems : List Nat)
  | folderPickStart
  | showFullscreen (model : Nat) (env : FullscreenEnv)
  | exitFullscreen

/-- The page after one callback. -/
def step (w : World) : Event → World
  | .enter t env => observeEnter w t env
  | .exit t => observeExit w t
  | .timerFired handle => timerFired w handle
  | .loadSettled t awaited => loadSettled w t awaited
  | .fbxLoadFinished v failed => fbxLoadFinished w v failed
  | .renderPage pageItems => renderPage w pageItems
  | .folderPickStart => folderPickStart w
  | .showFullscreen m env => showFullscreen w m env
  | .exitFullscreen => exitFullscreen w w.currentFullscreenViewer

/-- The page after a sequence of callbacks. -/
def run (w : World) (events : List Event) : World :=
  events.foldl step w

/-! ### Relations between a page and a later page -/

/-- The step from `w` to `w'` sets, clears and fires no timer, leaves
`tileCleanupTimeouts` alone and runs no teardown callback. -/
def Quiet (w w' : World) : Prop :=
  w'.timers = w.timers ∧ w'.lastTimer = w.lastTimer ∧
    w'.tileCleanupTimeouts = w.tileCleanupTimeouts ∧
    ∀ h, w'.log.count (Effect.teardownRan h) = w.log.count (Effect.teardownRan h)

/-- The timer with handle `h` has been handed out and is not pending. -/
def Cancelled (h : Nat) (w : World) : Prop :=
  (∀ tm ∈ w.timers, tm.handle ≠ h) ∧ h ≤ w.lastTimer

/-- The timer with the positive handle `h` has been handed out, and it is not
pending or it is still the handle stored for tile `t` in
`tileCleanupTimeouts`, where the next enter event of the tile finds it. -/
def Cancellable (h t : Nat) (w : World) : Prop :=
  h ≠ 0 ∧ h ≤ w.lastTimer ∧
    ((∀ tm ∈ w.timers, tm.handle ≠ h) ∨ w.tileCleanupTimeouts t = some h)

/-- The event is neither an exit event of tile `t` nor the firing of the
timer with handle `h`. -/
def Event.keepsTimer (t h : Nat) : Event → Bool
  | .exit t' => t' != t
  | .timerFired h' => h' != h
  | _ => true

/-! ### Sample pages -/

/-- The asset table of the examples: 0 is the FBX model `a.fbx`, 1 the image
`b.png`, 2 the font `c.ttf`, every other number the image `d.jpg`. -/
def sampleModels : Nat → Model := fun i =>
  if i = 0 then ⟨"a.fbx", "root/a.fbx", "3d", "fbx", none, none, none⟩
  else if i = 1 then ⟨"b.png", "root/b.png", "image", "png", none, none, none⟩
  else if i = 2 then ⟨"c.ttf", "root/c.ttf", "font", "ttf", none, none, none⟩
  else ⟨"d.jpg", "root/d.jpg", "image", "jpg", none, none, none⟩

/-- A platform on which `URL.createObjectURL` returns the given URL. -/
def envOk (url : String) : LoadEnv :=
  { createObjectURL := .ok url, modelViewerDefined := true }

/-- A platform on which `URL.createObjectURL` throws. -/
def envThrows : LoadEnv :=
  { createObjectURL := .error "TypeError", modelViewerDefined := true }

/-- The sample page with one tile for each of the assets 0, 1 and 2. -/
def samplePage : World :=
  renderPage (World.initial sampleModels) [0, 1, 2]

/-- The sample page after tile 1 (the image) has entered the viewport: its
load is in flight. -/
def loadingPage : World :=
  run samplePage [.enter 1 (envOk "blob:1")]

/-- The sample page after the load of tile 1 has settled: the tile is
`'loaded'` and its model holds a thumbnail. -/
def loadedPage : World :=
  run samplePage [.enter 1 (envOk "blob:1"), .loadSettled 1 (.ok "data:thumb")]

/-- How often the body of `dispose()` has run for a viewer of the table: once
for a disposed viewer, never for any other. -/
def disposedCount : Option FbxViewer → Nat
  | some viewer => if viewer.isDisposed then 1 else 0
  | none => 0

/-- The log agrees with the viewers' flags: no viewer with a number from
`nextViewer` on has been constructed, and for every viewer the body of
`dispose()` has run as often as `disposedCount` says. -/
def DisposalConsistent (w : World) : Prop :=
  (∀ v, w.nextViewer ≤ v → w.viewers v = none) ∧
    ∀ v, w.log.count (Effect.disposeRan v) = disposedCount (w.viewers v)

/-- The FBX tile 0 of the sample page is shown, its model loads, the tile
leaves the viewport and its teardown timer fires. -/
def fbxTeardownEvents : List Event :=
  [ .enter 0 (envOk "blob:1"), .loadSettled 0 (.ok ""), .fbxLoadFinished 0 false, .exit 0,
    .timerFired 1 ]

/-- An effect that creates a resource of a view: an object URL or an FBX
viewer. -/
def Effect.isCreation : Effect → Bool
  | .createObjectURL _ => true
  | .newFbxViewer _ => true
  | _ => false

/-- The step from `w` to `w'` appends effects to the log, all of them with the
property `p`. -/
def LogAppends (p : Effect → Bool) (w w' : World) : Prop :=
  ∃ suffix, w'.log = w.log ++ suffix ∧ ∀ e ∈ suffix, p e = true

/-- A platform for `showFullscreen` on which `URL.createObjectURL` returns the
given URL and fonts load. -/
def fullscreenEnvOk (url : String) : FullscreenEnv :=
  { createObjectURL := .ok url, fontLoads := true }

/-- The full view of the FBX model 0 is opened, then the full view of the
image 1, with no dismissal between them. -/
def twoFullViews : List Event :=
  [ .showFullscreen 0 (fullscreenEnvOk "blob:a"), .showFullscreen 1 (fullscreenEnvOk "blob:b") ]

/-! ### Sample directory trees -/

/-- A file handle whose `getFile()` resolves to a file of the given name. -/
def fileNamed (name : String) : Handle :=
  .file (.ok { name := name, size := 1, lastModified := 0 })

/-- A readable tree: `a.fbx` and `notes.xyz` in the root, `b.PNG` in `sub/`,
`c.jpg` in `sub/deep/`. -/
def sampleTree : Entries :=
  .yield "a.fbx" (fileNamed "a.fbx")
    (.yield "sub"
      (.directory
        (.yield "b.PNG" (fileNamed "b.PNG")
          (.yield "deep" (.directory (.yield "c.jpg" (fileNamed "c.jpg") .done)) .done)))
      (.yield "notes.xyz" (fileNamed "notes.xyz") .done))

/-- A tree whose subdirectory `sub` cannot be read; the file `a.fbx` is
iterated after it. -/
def unreadableSubdirTree : Entries :=
  .yield "sub" (.directory (.throw "NotReadableError"))
    (.yield "a.fbx" (fileNamed "a.fbx") .done)

/-- A tree whose file `a.fbx` is iterated before the subdirectory `sub`
that cannot be read. -/
def lateUnreadableTree : Entries :=
  .yield "a.fbx" (fileNamed "a.fbx")
    (.yield "sub" (.directory (.throw "NotReadableError")) .done)

/-! ### More sample pages -/

/-- The sample page after the FBX tile 0 has entered the viewport, its promise
has settled and the loader has then reported a failure: the tile's `onError`
option has recorded the state `'error'`. -/
def errorPage : World :=
  run samplePage
    [.enter 0 (envOk "blob:1"), .loadSettled 0 (.ok ""), .fbxLoadFinished 0 true]

/-! ## `handlers/*.js`: the asset handler registry -/

/-- The six handler objects that the constructor of `AssetHandlerFactory`
creates, each named by its class. -/
inductive Handler where
  | Model3DHandler
  | ImageHandler
  | DocumentHandler
  | VideoHandler
  | AudioHandler
  | FontHandler
deriving DecidableEq, Repr

/-- The field `supportedTypes` that each handler's constructor sets. -/
def Handler.supportedTypes : Handler → List String
  | .Model3DHandler => ["glb", "gltf", "fbx", "obj", "dae", "stl", "ply", "3ds"]
  | .ImageHandler => ["jpg", "jpeg", "png", "gif", "webp", "svg", "bmp", "tiff", "ico"]
  | .DocumentHandler => ["pdf"]
  | .VideoHandler => ["mp4", "webm", "ogv", "mov", "avi", "mkv"]
  | .AudioHandler => ["mp3", "wav", "ogg", "oga", "flac", "m4a"]
  | .FontHandler => ["ttf", "otf", "woff", "woff2"]

/-- The method `canHandle(fileType)`, the same in all six classes:
`this.supportedTypes.includes(fileType)`. -/
def Handler.canHandle (handler : Handler) (fileType : String) : Bool :=
  handler.supportedTypes.contains fileType

/-- The field `handlers` of the factory, in the order of the constructor. -/
def AssetHandlerFactory.handlers : List Handler :=
  [ .Model3DHandler, .ImageHandler, .DocumentHandler, .VideoHandler, .AudioHandler,
    .FontHandler ]

/-- The loop of `getHandler` over a list of handlers: the first handler whose
`canHandle(fileType)` is true is returned, `null` (`none`) after the loop. -/
def getHandlerLoop (fileType : String) : List Handler → Option Handler
  | [] => none
  | handler :: rest =>
    if handler.canHandle fileType then some handler else getHandlerLoop fileType rest

/-- The method `AssetHandlerFactory.getHandler`. -/
def AssetHandlerFactory.getHandler (fileType : String) : Option Handler :=
  getHandlerLoop fileType AssetHandlerFactory.handlers

/-- The method `AssetHandlerFactory.isSupported`:
`this.getHandler(fileType) !== null`. -/
def AssetHandlerFactory.isSupported (fileType : String) : Bool :=
  match AssetHandlerFactory.getHandler fileType with
  | some _ => true
  | none => false

/-- A settled promise: fulfilled with a value or rejected with the message of
an error. -/
inductive Settled (α : Type) where
  | fulfilled (value : α)
  | rejected (message : String)
deriving DecidableEq, Repr

/-- The expression `model.subtype || model.type` (an absent or empty
`subtype` is falsy). -/
def Model.fileType (model : Model) : String :=
  if model.subtype != "" then model.subtype else model.type

/-- The method `AssetHandlerFactory.loadThumbnail`, an `async` function: the
promise it returns. Without a handler it throws
`new Error('No handler found for type: ...')`, which rejects the promise;
otherwise `return await handler.loadThumbnail(...)` settles the promise as the
handler's promise settles. The handlers' own `loadThumbnail` methods are given
by `handlerLoad`. -/
def AssetHandlerFactory.loadThumbnail (handlerLoad : Handler → Model → Settled Unit)
    (model : Model) : Settled Unit :=
  match AssetHandlerFactory.getHandler model.fileType with
  | none => .rejected ("No handler found for type: " ++ model.fileType)
  | some handler =>
    match handlerLoad handler model with
    | .fulfilled value => .fulfilled value
    | .rejected message => .rejected message

/-- The method `AssetHandlerFactory.loadFullscreen`, an `async` function with
the same shape as `loadThumbnail`; the handlers' `loadFullscreen` methods,
which fulfil with cleanup information, are given by `handlerLoad`. -/
def AssetHandlerFactory.loadFullscreen {α : Type} (handlerLoad : Handler → Model → Settled α)
    (model : Model) : Settled α :=
  match AssetHandlerFactory.getHandler model.fileType with
  | none => .rejected ("No handler found for type: " ++ model.fileType)
  | some handler =>
    match handlerLoad handler model with
    | .fulfilled value => .fulfilled value
    | .rejected message => .rejected message

/-- An asset record of a type that no handler claims. -/
def unclaimedModel : Model :=
  ⟨"notes.xyz", "root/notes.xyz", "unknown", "xyz", none, none, none⟩

/-- Handlers whose loads all succeed. -/
def handlersSucceed : Handler → Model → Settled Unit :=
  fun _ _ => .fulfilled ()

/-- Handlers whose loads all fail, as when `URL.createObjectURL` throws in
`getFileUrl`. -/
def handlersFail : Handler → Model → Settled Unit :=
  fun _ _ => .rejected "TypeError"

/-! ## `memoryManager.js` on its own: the class `MemoryManager`

The class is modelled with its four collections and with the calls it makes
on the platform and on the objects it tracks. A call of `viewer.dispose()` or
`element.remove()` may throw; `throws` says for which calls. A method returns
the manager afterwards, the calls made, and whether an exception left it. -/

/-- The `item` of a disposal queue entry: a model id, an FBX viewer or a
`model-viewer` element. -/
inductive QueueItem where
  | modelId (id : String)
  | viewer (v : Nat)
  | element (e : Nat)
deriving DecidableEq, Repr

/-- An entry `{ item, type, timestamp }` of `disposalQueue`. -/
structure QueueEntry where
  item : QueueItem
  type : String
  timestamp : Int
deriving DecidableEq, Repr

/-- The fields of a `MemoryManager`: the `Map` `blobUrls` (model id to URL, in
insertion order), the `Set`s `activeFbxViewers` and `activeModelViewers` (in
insertion order) and the array `disposalQueue`. -/
structure MemoryManager where
  blobUrls : List (String × String)
  activeFbxViewers : List Nat
  activeModelViewers : List Nat
  disposalQueue : List QueueEntry
deriving DecidableEq, Repr

/-- What the manager calls: the platform (`URL.revokeObjectURL`,
`clearInterval`), the tracked objects (`viewer.dispose()`,
`element.remove()`), and, from the sweep of the disposal queue, its own
dispose methods. -/
inductive ManagerCall where
  | revokeObjectURL (url : String)
  | viewerDispose (v : Nat)
  | elementRemove (e : Nat)
  | clearInterval
  | revokeBlobUrl (item : QueueItem)
  | disposeFbxViewer (item : QueueItem)
  | disposeModelViewer (item : QueueItem)
deriving DecidableEq, Repr

/-- The result of running a method: the manager afterwards, the calls made in
order, and whether an exception left the method. -/
structure Ran where
  manager : MemoryManager
  calls : List ManagerCall
  threw : Bool
deriving DecidableEq, Repr

/-- A step that does nothing. -/
def Ran.skip (m : MemoryManager) : Ran :=
  { manager := m, calls := [], threw := false }

/-- Sequencing of statements: the next statement runs unless an exception has
left the previous one. -/
def Ran.andThen (r : Ran) (next : MemoryManager → Ran) : Ran :=
  if r.threw then r
  else
    { manager := (next r.manager).manager, calls := r.calls ++ (next r.manager).calls,
      threw := (next r.manager).threw }

/-- One call on the platform or on a tracked object: it is recorded, and it
throws when `throws` says so. -/
def platformCall (throws : ManagerCall → Bool) (m : MemoryManager) (c : ManagerCall) : Ran :=
  { manager := m, calls := [c], threw := throws c }

/-- The call `map.set(key, value)` of a `Map`: the value of an existing key is
replaced in place, a new key is appended. -/
def mapSet (map : List (String × String)) (key value : String) : List (String × String) :=
  if (map.lookup key).isSome then map.map (fun p => if p.1 == key then (key, value) else p)
  else map ++ [(key, value)]

/-- The call `map.delete(key)` of a `Map`. -/
def mapDelete (map : List (String × String)) (key : String) : List (String × String) :=
  map.filter (fun p => p.1 != key)

/-- The method `revokeBlobUrl(modelId)`. -/
def MemoryManager.revokeBlobUrl (m : MemoryManager) (modelId : String) : Ran :=
  match m.blobUrls.lookup modelId with
  | some url =>
    if url != "" then
      { manager := { m with blobUrls := mapDelete m.blobUrls modelId },
        calls := [.revokeObjectURL url], threw := false }
    else Ran.skip m
  | none => Ran.skip m

/-- The method `registerBlobUrl(modelId, blobUrl)`. -/
def MemoryManager.registerBlobUrl (m : MemoryManager) (modelId blobUrl : String) : Ran :=
  (if (m.blobUrls.lookup modelId).isSome then m.revokeBlobUrl modelId else Ran.skip m).andThen
    fun m1 => Ran.skip { m1 with blobUrls := mapSet m1.blobUrls modelId blobUrl }

/-- The loop of `revokeAllBlobUrls` and the `clear()` after it. -/
def MemoryManager.revokeAllBlobUrls (m : MemoryManager) : Ran :=
  { manager := { m with blobUrls := [] },
    calls := m.blobUrls.map (fun p => ManagerCall.revokeObjectURL p.2), threw := false }

/-- The method `registerFbxViewer(viewer)`. -/
def MemoryManager.registerFbxViewer (m : MemoryManager) (v : Nat) : MemoryManager :=
  if v ∈ m.activeFbxViewers then m else { m with activeFbxViewers := m.activeFbxViewers ++ [v] }

/-- The method `disposeFbxViewer(viewer)`: for a registered viewer,
`viewer.dispose()` and then the removal from the set. -/
def MemoryManager.disposeFbxViewer (throws : ManagerCall → Bool) (m : MemoryManager) (v : Nat) :
    Ran :=
  if v ∈ m.activeFbxViewers then
    (platformCall throws m (.viewerDispose v)).andThen fun m1 =>
      Ran.skip { m1 with activeFbxViewers := m1.activeFbxViewers.filter (fun x => x != v) }
  else Ran.skip m

/-- The `for` loop of `disposeAllFbxViewers` over the copied set. -/
def disposeViewersLoop (throws : ManagerCall → Bool) (m : MemoryManager) : List Nat → Ran
  | [] => Ran.skip m
  | v :: rest =>
    (m.disposeFbxViewer throws v).andThen fun m1 => disposeViewersLoop throws m1 rest

/-- The method `disposeAllFbxViewers()`. -/
def MemoryManager.disposeAllFbxViewers (throws : ManagerCall → Bool) (m : MemoryManager) : Ran :=
  disposeViewersLoop throws m m.activeFbxViewers

/-- The method `registerModelViewer(element)`. -/
def MemoryManager.registerModelViewer (m : MemoryManager) (e : Nat) : MemoryManager :=
  if e ∈ m.activeModelViewers then m
  else { m with activeModelViewers := m.activeModelViewers ++ [e] }

/-- The method `disposeModelViewer(element)`. -/
def MemoryManager.disposeModelViewer (throws : ManagerCall → Bool) (m : MemoryManager)
    (e : Nat) : Ran :=
  if e ∈ m.activeModelViewers then
    (platformCall throws m (.elementRemove e)).andThen fun m1 =>
      Ran.skip { m1 with activeModelViewers := m1.activeModelViewers.filter (fun x => x != e) }
  else Ran.skip m

/-- The method `queueForDisposal(item, type)` at the time `now`. -/
def MemoryManager.queueForDisposal (m : MemoryManager) (item : QueueItem) (type : String)
    (now : Int) : MemoryManager :=
  { m with disposalQueue := m.disposalQueue ++ [{ item := item, type := type, timestamp := now }] }

/-- The test `now - entry.timestamp > 10000` of `processDisposalQueue`. -/
def QueueEntry.due (now : Int) (entry : QueueEntry) : Bool :=
  decide (now - entry.timestamp > 10000)

/-- A statement that makes one call and cannot throw. -/
def Ran.call (m : MemoryManager) (c : ManagerCall) : Ran :=
  { manager := m, calls := [c], threw := false }

/-- The `switch (entry.type)` of `processDisposalQueue`: the dispose method of
the entry's type is called with the item; an entry of any other type falls
through the `switch`. A method called with an item it does not track (a model
id that is no key of `blobUrls`, or an item of another kind) does nothing. -/
def disposeEntry (throws : ManagerCall → Bool) (m : MemoryManager) (entry : QueueEntry) : Ran :=
  if entry.type = "blobUrl" then
    (Ran.call m (.revokeBlobUrl entry.item)).andThen fun m1 =>
      match entry.item with
      | .modelId id => m1.revokeBlobUrl id
      | _ => Ran.skip m1
  else if entry.type = "fbxViewer" then
    (Ran.call m (.disposeFbxViewer entry.item)).andThen fun m1 =>
      match entry.item with
      | .viewer v => m1.disposeFbxViewer throws v
      | _ => Ran.skip m1
  else if entry.type = "modelViewer" then
    (Ran.call m (.disposeModelViewer entry.item)).andThen fun m1 =>
      match entry.item with
      | .element e => m1.disposeModelViewer throws e
      | _ => Ran.skip m1
  else Ran.skip m

/-- The statement `this.disposalQueue.push(entry)`. -/
def MemoryManager.requeue (m : MemoryManager) (entry : QueueEntry) : MemoryManager :=
  { m with disposalQueue := m.disposalQueue ++ [entry] }

/-- The `for` loop of `processDisposalQueue` over `oldQueue`. -/
def processQueueLoop (throws : ManagerCall → Bool) (now : Int) (m : MemoryManager) :
    List QueueEntry → Ran
  | [] => Ran.skip m
  | entry :: rest =>
    (if entry.due now then disposeEntry throws m entry else Ran.skip (m.requeue entry)).andThen
      fun m1 => processQueueLoop throws now m1 rest

/-- The method `processDisposalQueue()` when `Date.now()` returns `now`: the
queue is replaced by an empty array before the loop over the old queue. -/
def MemoryManager.processDisposalQueue (throws : ManagerCall → Bool) (m : MemoryManager)
    (now : Int) : Ran :=
  processQueueLoop throws now { m with disposalQueue := [] } m.disposalQueue

/-- The loop `for (const element of this.activeModelViewers) element.remove()`
of `destroy`. -/
def removeElementsLoop (throws : ManagerCall → Bool) (m : MemoryManager) : List Nat → Ran
  | [] => Ran.skip m
  | e :: rest =>
    (platformCall throws m (.elementRemove e)).andThen fun m1 => removeElementsLoop throws m1 rest

/-- The last two statements of `destroy`: `this.activeModelViewers.clear()` and
`this.disposalQueue = []`. -/
def MemoryManager.clearRest (m : MemoryManager) : MemoryManager :=
  { m with activeModelViewers := [], disposalQueue := [] }

/-- The method `destroy()`. -/
def MemoryManager.destroy (throws : ManagerCall → Bool) (m : MemoryManager) : Ran :=
  (Ran.call m .clearInterval).andThen fun m1 =>
    (m1.disposeAllFbxViewers throws).andThen fun m2 =>
      m2.revokeAllBlobUrls.andThen fun m3 =>
        (removeElementsLoop throws m3 m3.activeModelViewers).andThen fun m4 =>
          Ran.skip m4.clearRest

/-- No call throws. -/
def neverThrows : ManagerCall → Bool := fun _ => false

/-- A dispose operation of the sweep: one of the manager's own methods
`revokeBlobUrl`, `disposeFbxViewer`, `disposeModelViewer`. -/
def ManagerCall.isDisposeOp : ManagerCall → Bool
  | .revokeBlobUrl _ => true
  | .disposeFbxViewer _ => true
  | .disposeModelViewer _ => true
  | _ => false

/-- The dispose operation of an entry's type, for the three types that have
one. -/
def QueueEntry.disposeOp (entry : QueueEntry) : Option ManagerCall :=
  if entry.type = "blobUrl" then some (.revokeBlobUrl entry.item)
  else if entry.type = "fbxViewer" then some (.disposeFbxViewer entry.item)
  else if entry.type = "modelViewer" then some (.disposeModelViewer entry.item)
  else none

/-- A manager tracking the viewers 1 and 2, the URL `blob:a` for the model
`a`, and the element 7; its queue holds the two viewers, queued at time 0,
and the model `a`, queued at time 20000. -/
def sampleManager : MemoryManager :=
  { blobUrls := [("a", "blob:a")], activeFbxViewers := [1, 2], activeModelViewers := [7],
    disposalQueue :=
      [ ⟨.viewer 1, "fbxViewer", 0⟩, ⟨.viewer 2, "fbxViewer", 0⟩,
        ⟨.modelId "a", "blobUrl", 20000⟩ ] }

/-- The `dispose()` of viewer 1 throws. -/
def viewerOneThrows : ManagerCall → Bool :=
  fun c => c == ManagerCall.viewerDispose 1

/-! ### Sample full views -/

/-- An asset table whose every entry is the video `v.mp4`. -/
def videoModels : Nat → Model := fun _ =>
  ⟨"v.mp4", "root/v.mp4", "video", "mp4", none, none, none⟩

/-- The full view of the video is opened and dismissed. -/
def videoViewDismissed : List Event :=
  [ .showFullscreen 0 (fullscreenEnvOk "blob:v"), .exitFullscreen ]

/-- The full view of the image 1 is opened and dismissed by a navigation to
the font 2, whose font fails to load, so that no view is opened; then the
overlay is dismissed. -/
def dismissedTwice : List Event :=
  [ .showFullscreen 1 (fullscreenEnvOk "blob:b"), .exitFullscreen,
    .showFullscreen 2 { createObjectURL := .ok "blob:c", fontLoads := false },
    .exitFullscreen ]

/-! ## `fileTypeDetector.js`: file type detection on the page -/

/-- A value of the table `FILE_TYPE_MAPPINGS` of `fileTypeDetector.js`. -/
structure TypeConfig where
  type : String
  subtype : String
  extensions : List String
deriving DecidableEq, Repr

/-- The object returned by `detectFileType` of `fileTypeDetector.js`. -/
structure DetectedType where
  type : String
  subtype : String
  extension : String
deriving DecidableEq, Repr

/-- The assignment `object[key] = value` on a plain object whose properties are
listed in insertion order. -/
def setProperty {α : Type} (object : List (String × α)) (key : String) (value : α) :
    List (String × α) :=
  if object.any (fun p => p.1 == key) then
    object.map (fun p => if p.1 == key then (key, value) else p)
  else object ++ [(key, value)]

/-- The property read `object[key]` for a key that starts with a dot, which no
inherited property does. -/
def getProperty {α : Type} (object : List (String × α)) (key : String) : Option α :=
  (object.find? (fun p => p.1 == key)).map Prod.snd

namespace fileTypeDetector

/-- The table `FILE_TYPE_MAPPINGS` of `fileTypeDetector.js`, in source order
(the order of `Object.entries`, no key being an array index). -/
def FILE_TYPE_MAPPINGS : List (String × TypeConfig) :=
  [ ("glb", ⟨"3d", "glb", [".glb"]⟩), ("gltf", ⟨"3d", "gltf", [".gltf"]⟩),
    ("fbx", ⟨"3d", "fbx", [".fbx"]⟩), ("obj", ⟨"3d", "obj", [".obj"]⟩),
    ("dae", ⟨"3d", "dae", [".dae"]⟩), ("stl", ⟨"3d", "stl", [".stl"]⟩),
    ("ply", ⟨"3d", "ply", [".ply"]⟩), ("3ds", ⟨"3d", "3ds", [".3ds"]⟩),
    ("mp4", ⟨"video", "mp4", [".mp4"]⟩), ("webm", ⟨"video", "webm", [".webm"]⟩),
    ("ogv", ⟨"video", "ogg", [".ogv"]⟩), ("mov", ⟨"video", "mov", [".mov"]⟩),
    ("avi", ⟨"video", "avi", [".avi"]⟩), ("mkv", ⟨"video", "mkv", [".mkv"]⟩),
    ("mp3", ⟨"audio", "mp3", [".mp3"]⟩), ("wav", ⟨"audio", "wav", [".wav"]⟩),
    ("ogg", ⟨"audio", "ogg", [".ogg"]⟩), ("oga", ⟨"audio", "ogg", [".oga"]⟩),
    ("flac", ⟨"audio", "flac", [".flac"]⟩), ("m4a", ⟨"audio", "m4a", [".m4a"]⟩),
    ("jpg", ⟨"image", "jpg", [".jpg", ".jpeg"]⟩), ("png", ⟨"image", "png", [".png"]⟩),
    ("gif", ⟨"image", "gif", [".gif"]⟩), ("webp", ⟨"image", "webp", [".webp"]⟩),
    ("svg", ⟨"image", "svg", [".svg"]⟩), ("bmp", ⟨"image", "bmp", [".bmp"]⟩),
    ("tiff", ⟨"image", "tiff", [".tiff", ".tif"]⟩), ("ico", ⟨"image", "ico", [".ico"]⟩),
    ("ttf", ⟨"font", "ttf", [".ttf"]⟩), ("otf", ⟨"font", "otf", [".otf"]⟩),
    ("woff", ⟨"font", "woff", [".woff"]⟩), ("woff2", ⟨"font", "woff2", [".woff2"]⟩),
    ("pdf", ⟨"document", "pdf", [".pdf"]⟩) ]

/-- The reverse lookup object `EXTENSION_TO_TYPE`, built at module load: for
each entry of `FILE_TYPE_MAPPINGS` and each of its extensions,
`EXTENSION_TO_TYPE[ext.toLowerCase()] = config`. -/
def EXTENSION_TO_TYPE : List (String × TypeConfig) :=
  FILE_TYPE_MAPPINGS.foldl
    (fun object entry =>
      entry.2.extensions.foldl (fun o ext => setProperty o (toLowerCase ext) entry.2) object)
    []

/-- The function `detectFileType` of `fileTypeDetector.js`. -/
def detectFileType (filename : String) : Option DetectedType :=
  if filename = "" then none
  else
    let lowerFilename := toLowerCase filename
    match lastIndexOf '.' lowerFilename.data with
    | none => none
    | some lastDotIndex =>
      let extension := String.mk (lowerFilename.data.drop lastDotIndex)
      match getProperty EXTENSION_TO_TYPE extension with
      | some typeInfo =>
        some { type := typeInfo.type, subtype := typeInfo.subtype, extension := extension }
      | none => none

/-- The function `isFileTypeSupported`. -/
def isFileTypeSupported (filename : String) : Bool :=
  (detectFileType filename).isSome

end fileTypeDetector

/-- The handler class that the category `type` of a detected file names. -/
def handlerOfCategory (type : String) : Option Handler :=
  if type = "3d" then some .Model3DHandler
  else if type = "image" then some .ImageHandler
  else if type = "video" then some .VideoHandler
  else if type = "audio" then some .AudioHandler
  else if type = "font" then some .FontHandler
  else if type = "document" then some .DocumentHandler
  else none

/-! ## `asset_loading.js`: the page of tiles -/

/-- The call `array.slice(start, end)` with integer arguments: a negative
argument counts from the end of the array, and both are clamped to the
array. -/
def slice {α : Type} (array : List α) (start end_ : Int) : List α :=
  let len : Int := array.length
  let k : Int := if start < 0 then max (len + start) 0 else min start len
  let final : Int := if end_ < 0 then max (len + end_) 0 else min end_ len
  (array.take final.toNat).drop k.toNat

/-- The function `renderPage(pageIndex)` on the page, when `getItemsPerPage()`
returns `itemsPerPage`: the tiles of the container are cleaned up, and one
tile is appended for each item of
`filteredModelFiles.slice(startIndex, startIndex + getItemsPerPage())`. -/
def renderPageAt (w : World) (filteredModelFiles : List Nat) (pageIndex : Int)
    (itemsPerPage : Nat) : World :=
  renderPage w
    (slice filteredModelFiles (pageIndex * itemsPerPage)
      (pageIndex * itemsPerPage + itemsPerPage))

/-! ## The grid: the asset lists, the current page and the page buttons

The module variables `modelFiles` and `filteredModelFiles` of
`asset_loading.js`, the variables `_currentPage`, `_itemsPerPage` and
`_searchTerm` of `ui.js`, the set `activeFilters`, the `disabled` flags of the
two page buttons, and the assets of the tiles in the container.
`itemsPerPage` is a positive number, as the options of the dropdown are. -/

/-- The state of the grid. -/
structure Grid where
  modelFiles : List FileEntry
  filteredModelFiles : List FileEntry
  activeFilters : List String
  searchTerm : String
  currentPage : Int
  itemsPerPage : Nat
  prevPageBtnDisabled : Bool
  nextPageBtnDisabled : Bool
  tiles : List FileEntry
deriving DecidableEq, Repr

/-- The call `text.split(' ')`. -/
def splitOnSpace : List Char → List (List Char)
  | [] => [[]]
  | c :: cs =>
    match splitOnSpace cs with
    | [] => [[]]
    | word :: words => if c = ' ' then [] :: word :: words else (c :: word) :: words

/-- The call `content.includes(term)`. -/
def includes (content term : List Char) : Bool :=
  content.tails.any (fun suffix => term.isPrefixOf suffix)

/-- The function `fileMatchesSearch` of `ui.js` for the search term
`_searchTerm`. -/
def fileMatchesSearch (searchTerm : String) (file : FileEntry) : Bool :=
  if searchTerm = "" then true
  else
    let searchTerms := (splitOnSpace searchTerm.data).filter (fun term => term.length > 0)
    if searchTerms.length = 0 then true
    else
      let searchableContent :=
        (toLowerCase file.name).data ++ ' ' :: (toLowerCase file.type).data ++
          ' ' :: (toLowerCase file.fullPath).data
      searchTerms.all (fun term => includes searchableContent term)

/-- The value `Math.ceil(filteredModelFiles.length / getItemsPerPage())`. -/
def pageCount (g : Grid) : Int :=
  ((g.filteredModelFiles.length + g.itemsPerPage - 1) / g.itemsPerPage : Nat)

/-- The function `setCurrentPage(page)`. -/
def setCurrentPage (g : Grid) (page : Int) : Grid :=
  { g with currentPage := page }

/-- The function `updatePagination(totalPages)`, as far as the buttons go:
`totalPages = Math.max(1, totalPages || 1)`, then the two `disabled` flags. -/
def updatePagination (g : Grid) (totalPages : Int) : Grid :=
  { g with
    prevPageBtnDisabled := decide (g.currentPage = 0),
    nextPageBtnDisabled := decide (g.currentPage ≥ max 1 totalPages - 1) }

/-- The function `renderPage(pageIndex)` on the grid: the container gets one
tile for each item of the slice, then `updatePagination` is called. -/
def Grid.renderPage (g : Grid) (pageIndex : Int) : Grid :=
  updatePagination
    { g with
      tiles := slice g.filteredModelFiles (pageIndex * g.itemsPerPage)
        (pageIndex * g.itemsPerPage + g.itemsPerPage) }
    (pageCount g)

/-- The function `updateFilteredModelFiles`. -/
def updateFilteredModelFiles (g : Grid) : Grid :=
  let filtered := g.modelFiles.filter (fun item =>
    (g.activeFilters.contains item.type || g.activeFilters.contains item.subtype) &&
      fileMatchesSearch g.searchTerm item)
  let g1 := { g with filteredModelFiles := filtered }
  if g.filteredModelFiles.length ≠ filtered.length then (setCurrentPage g1 0).renderPage 0
  else g1

/-- The entries that the loop of `handleDrop` pushes to `modelFiles`: one for
each dropped file that `detectFileType` recognises. -/
def droppedEntries (droppedFiles : List JsFile) : List FileEntry :=
  droppedFiles.filterMap fun file =>
    (fileTypeDetector.detectFileType file.name).map fun typeInfo =>
      { name := file.name, file := file, type := typeInfo.type, subtype := typeInfo.subtype,
        fullPath := file.name }

/-- The display of the files of a drop: the branch `modelFiles.length > 0` of
`handleDrop`. -/
def showDropped (localeCompare : String → String → Int) (g : Grid) : Grid :=
  let g1 := updateFilteredModelFiles
    { g with modelFiles := sortByName localeCompare g.modelFiles }
  let g2 := setCurrentPage g1 0
  (updatePagination g2 (pageCount g2)).renderPage 0

/-- The function `handleDrop` for a drop without a folder: `modelFiles` and
the container are emptied, the recognised files are pushed, and when there is
one they are sorted and shown; otherwise an alert is shown. -/
def handleDrop (localeCompare : String → String → Int) (g : Grid) (droppedFiles : List JsFile) :
    Grid :=
  let g1 := { g with modelFiles := droppedEntries droppedFiles, tiles := [] }
  if g1.modelFiles.length > 0 then showDropped localeCompare g1 else g1

/-- The click handler of the previous-page button. -/
def onPrevPageClick (g : Grid) : Grid :=
  if g.currentPage > 0 then
    let g1 := (setCurrentPage g (g.currentPage - 1))
    updatePagination (g1.renderPage g1.currentPage) (pageCount g1)
  else g

/-- The click handler of the next-page button. -/
def onNextPageClick (g : Grid) : Grid :=
  if g.currentPage < pageCount g - 1 then
    let g1 := (setCurrentPage g (g.currentPage + 1))
    updatePagination (g1.renderPage g1.currentPage) (pageCount g1)
  else g

/-- The keys that the two `keydown` listeners turn into page navigation. -/
inductive Key where
  | ArrowLeft
  | ArrowRight
  | PageUp
  | PageDown
  | Home
  | End
deriving DecidableEq, Repr

/-- The callbacks `nextPage`, `prevPage`, `firstPage` and `lastPage` of
`navigationCallbacks` in `main.js`. A `click()` on a button happens only when
the button is not disabled. -/
def navigationCallbacks.nextPage (g : Grid) : Grid :=
  if !g.nextPageBtnDisabled then onNextPageClick g else g

/-- The callback `prevPage`. -/
def navigationCallbacks.prevPage (g : Grid) : Grid :=
  if !g.prevPageBtnDisabled then onPrevPageClick g else g

/-- The callback `firstPage`. -/
def navigationCallbacks.firstPage (g : Grid) : Grid :=
  let g1 := (setCurrentPage g 0).renderPage 0
  updatePagination g1 (pageCount g1)

/-- The callback `lastPage`. -/
def navigationCallbacks.lastPage (g : Grid) : Grid :=
  let lastPageIndex := pageCount g - 1
  let g1 := (setCurrentPage g lastPageIndex).renderPage lastPageIndex
  updatePagination g1 (pageCount g1)

/-- The grid-view branch of the `keydown` listener that `initializeUI`
installs: the page moves when the button of the direction is not disabled. -/
def uiKeydown (g : Grid) : Key → Grid
  | .PageUp | .ArrowLeft =>
    if !g.prevPageBtnDisabled then
      let g1 := setCurrentPage g (g.currentPage - 1)
      g1.renderPage g1.currentPage
    else g
  | .PageDown | .ArrowRight =>
    if !g.nextPageBtnDisabled then
      let g1 := setCurrentPage g (g.currentPage + 1)
      g1.renderPage g1.currentPage
    else g
  | _ => g

/-- The method `handleKeydown` of the `KeyboardShortcutManager` for a key
without modifiers that is not typed into an input field, with the shortcuts
that `setupNavigationShortcuts` registers. -/
def handleKeydown (g : Grid) : Key → Grid
  | .ArrowRight | .PageDown => navigationCallbacks.nextPage g
  | .ArrowLeft | .PageUp => navigationCallbacks.prevPage g
  | .Home => navigationCallbacks.firstPage g
  | .End => navigationCallbacks.lastPage g

/-- One key press in grid view: the listeners run in the order in which they
were added to `document`, the one of `initializeUI` first. -/
def keydown (g : Grid) (key : Key) : Grid :=
  handleKeydown (uiKeydown g key) key

/-- The grid after module load and the first `renderPage(0)`: no file, page 0,
20 items per page, both page buttons disabled. -/
def Grid.initial : Grid :=
  { modelFiles := [], filteredModelFiles := [],
    activeFilters := ["fbx", "glb", "video", "mp3", "wav", "ogg", "image", "font"],
    searchTerm := "", currentPage := 0, itemsPerPage := 20, prevPageBtnDisabled := true,
    nextPageBtnDisabled := true, tiles := [] }

/-- A `File` of size 1 with the given name. -/
def fileOfName (name : String) : JsFile :=
  { name := name, size := 1, lastModified := 0 }

/-- The grid after `n` copies of `a.fbx` were dropped on the initial grid. -/
def gridOfFbx (n : Nat) : Grid :=
  handleDrop constantCompare Grid.initial (List.replicate n (fileOfName "a.fbx"))

/-- The click handler of an option of the items-per-page dropdown, whose
`data-value` parses to `value`. -/
def onItemsOptionClick (g : Grid) (value : Nat) : Grid :=
  let g1 := setCurrentPage { g with itemsPerPage := value } 0
  (updatePagination g1 (pageCount g1)).renderPage g1.currentPage

/-- The click handler of a filter option of the type `type`; `isActive` is the
result of `classList.toggle('active')`. -/
def onFilterOptionClick (g : Grid) (type : String) (isActive : Bool) : Grid :=
  updateFilteredModelFiles
    { g with
      activeFilters :=
        if isActive then
          if g.activeFilters.contains type then g.activeFilters else g.activeFilters ++ [type]
        else g.activeFilters.filter (fun t => t != type) }

/-- The function that the search input debounces, called with the value of
the input. -/
def onSearch (g : Grid) (value : String) : Grid :=
  let g1 := updateFilteredModelFiles (setCurrentPage { g with searchTerm := toLowerCase value } 0)
  g1.renderPage g1.currentPage

/-- The function `clearSearch`. -/
def clearSearch (g : Grid) : Grid :=
  let g1 := updateFilteredModelFiles (setCurrentPage { g with searchTerm := "" } 0)
  g1.renderPage g1.currentPage

/-- A page-navigation operation of the user: a click on a page button that is
not disabled, a key press in grid view, a choice of items per page, a filter
toggle, a search, a cleared search. -/
inductive PageOp where
  | prevButton
  | nextButton
  | key (key : Key)
  | itemsPerPage (value : Nat)
  | filter (type : String) (isActive : Bool)
  | search (value : String)
  | clearSearch
deriving DecidableEq, Repr

/-- The grid after a page-navigation operation. -/
def applyPageOp (g : Grid) : PageOp → Grid
  | .prevButton => if g.prevPageBtnDisabled then g else onPrevPageClick g
  | .nextButton => if g.nextPageBtnDisabled then g else onNextPageClick g
  | .key k => keydown g k
  | .itemsPerPage value => onItemsOptionClick g value
  | .filter type isActive => onFilterOptionClick g type isActive
  | .search value => onSearch g value
  | .clearSearch => clearSearch g

/-- The page index is within `0 .. max(0, pageCount - 1)`. -/
def PageInRange (g : Grid) : Prop :=
  0 ≤ g.currentPage ∧ g.currentPage ≤ max 0 (pageCount g - 1)

/-- The `disabled` flags of the page buttons are as `updatePagination` sets
them for the current page and page count. -/
def ButtonsCurrent (g : Grid) : Prop :=
  g.prevPageBtnDisabled = decide (g.currentPage = 0) ∧
    g.nextPageBtnDisabled = decide (g.currentPage ≥ max 1 (pageCount g) - 1)

/-- The operation is the press of the End key. -/
def PageOp.isEnd : PageOp → Bool
  | .key .End => true
  | _ => false

/-- The operation does not choose zero items per page. -/
def PageOp.positive : PageOp → Bool
  | .itemsPerPage value => decide (0 < value)
  | _ => true

/-! ## `debounce.js`: the function `debounce`

Time is counted in milliseconds. A timer set by `setTimeout(later, wait)` at
the time `now` is due at `now + wait`, and the event loop runs its callback at
that time unless it has been cleared. -/

/-- A timer that is set and not yet fired or cleared: its handle, the time at
which it is due, and the `args` that its callback `later` closes over. -/
structure DebounceTimer (α : Type) where
  handle : Nat
  due : Nat
  args : α
deriving DecidableEq, Repr

/-- The closure state of one function returned by `debounce`: the variable
`timeout` (`none` for `undefined` and `null`), the pending timers, the last
handle that `setTimeout` returned, and the calls `func.apply(this, args)` made
so far with their times. -/
structure Debounced (α : Type) where
  timeout : Option Nat
  timers : List (DebounceTimer α)
  lastHandle : Nat
  invoked : List (Nat × α)
deriving DecidableEq, Repr

/-- The state right after `debounce(func, wait, immediate)` returns. -/
def debounce (α : Type) : Debounced α :=
  { timeout := none, timers := [], lastHandle := 0, invoked := [] }

/-- The call `clearTimeout(timeout)`. -/
def Debounced.clearTimeout {α : Type} (s : Debounced α) : Debounced α :=
  match s.timeout with
  | none => s
  | some handle => { s with timers := s.timers.filter (fun t => t.handle != handle) }

/-- The function `executedFunction(...args)` called at the time `now`. -/
def executedFunction {α : Type} (wait : Nat) (immediate : Bool) (s : Debounced α) (now : Nat)
    (args : α) : Debounced α :=
  let callNow := immediate && s.timeout.isNone
  let s1 := s.clearTimeout
  let s2 : Debounced α :=
    { s1 with
      timeout := some (s1.lastHandle + 1),
      timers := s1.timers ++ [{ handle := s1.lastHandle + 1, due := now + wait, args := args }],
      lastHandle := s1.lastHandle + 1 }
  if callNow then { s2 with invoked := s2.invoked ++ [(now, args)] } else s2

/-- The callback `later` of a timer, run when the timer is due. -/
def later {α : Type} (immediate : Bool) (s : Debounced α) (timer : DebounceTimer α) :
    Debounced α :=
  let s1 : Debounced α :=
    { s with timeout := none, timers := s.timers.filter (fun t => t.handle != timer.handle) }
  if !immediate then { s1 with invoked := s1.invoked ++ [(timer.due, timer.args)] } else s1

/-- The event loop up to the time `now`: the timers due by then fire, in the
order in which they were set. -/
def advanceTo {α : Type} (immediate : Bool) (s : Debounced α) (now : Nat) : Debounced α :=
  (s.timers.filter (fun t => decide (t.due ≤ now))).foldl (later immediate) s

/-- A call of the debounced function at the time `call.1` with the arguments
`call.2`, after the timers due by then have fired. -/
def callAt {α : Type} (wait : Nat) (immediate : Bool) (s : Debounced α) (call : Nat × α) :
    Debounced α :=
  executedFunction wait immediate (advanceTo immediate s call.1) call.1 call.2

/-- The debounced function after the given calls, observed at the time
`finish`. -/
def debounceRun {α : Type} (wait : Nat) (immediate : Bool) (calls : List (Nat × α))
    (finish : Nat) : Debounced α :=
  advanceTo immediate (calls.foldl (callAt wait immediate) (debounce α)) finish

/-! ## `ui.js`: navigation in the full view -/

/-- The call `array.findIndex(predicate)` (`none` for `-1`). -/
def findIndex {α : Type} (predicate : α → Bool) : List α → Option Nat
  | [] => none
  | x :: xs => if predicate x then some 0 else (findIndex predicate xs).map (· + 1)

/-- The argument of `navigateFullscreen`. -/
inductive Direction where
  | prev
  | next
deriving DecidableEq, Repr

/-- The function `navigateFullscreen(direction)` for the list
`filteredModelFiles`; `env` is what the platform answers to the
`showFullscreen` that it may call. The current asset is looked up by
`file.name === currentFullscreenViewer?.fileName`. -/
def navigateFullscreen (w : World) (filteredModelFiles : List Nat) (direction : Direction)
    (env : FullscreenEnv) : World :=
  match findIndex
      (fun file => decide (some (w.models file).name =
        w.currentFullscreenViewer.map (fun viewer => viewer.fileName)))
      filteredModelFiles with
  | none => w
  | some currentIndex =>
    let newIndex : Int := if direction = .prev then (currentIndex : Int) - 1 else currentIndex + 1
    if newIndex ≥ 0 ∧ newIndex < filteredModelFiles.length then
      match filteredModelFiles[newIndex.toNat]? with
      | some nextFile => showFullscreen (exitFullscreen w w.currentFullscreenViewer) nextFile env
      | none => w
    else w

/-- An asset table with two images of the same file name in different
folders: 0 is `x/a.png`, 1 is `b.png`, every other number is `y/a.png`. -/
def duplicateNameModels : Nat → Model := fun i =>
  if i = 0 then ⟨"a.png", "x/a.png", "image", "png", none, none, none⟩
  else if i = 1 then ⟨"b.png", "b.png", "image", "png", none, none, none⟩
  else ⟨"a.png", "y/a.png", "image", "png", none, none, none⟩

/-- The page on which the full view of `y/a.png`, the asset at position 2 of
the filtered list `[0, 1, 2]`, is open. -/
def secondDuplicateShown : World :=
  showFullscreen (World.initial duplicateNameModels) 2 (fullscreenEnvOk "blob:2")

/-! ### `fileTypeDetector.js` with the platform's `toLowerCase`

`String.prototype.toLowerCase` lower-cases every cased character of Unicode,
not only the ASCII letters (the Kelvin sign U+212A becomes `k`). Here the
method is a parameter, as `localeCompare` is, and `LowerCases` says what is
used of it. `fileTypeDetector.detectFileType` is the instance at the
lower-casing of the ASCII letters. -/

/-- The object `EXTENSION_TO_TYPE` on a platform whose `toLowerCase` is the
given function. -/
def fileTypeDetector.extensionToTypeWith (toLowerCase : String → String) :
    List (String × TypeConfig) :=
  fileTypeDetector.FILE_TYPE_MAPPINGS.foldl
    (fun object entry =>
      entry.2.extensions.foldl (fun o ext => setProperty o (toLowerCase ext) entry.2) object)
    []

/-- The function `detectFileType` of `fileTypeDetector.js` on a platform whose
`toLowerCase` is the given function. -/
def fileTypeDetector.detectFileTypeWith (toLowerCase : String → String) (filename : String) :
    Option DetectedType :=
  if filename = "" then none
  else
    let lowerFilename := toLowerCase filename
    match lastIndexOf '.' lowerFilename.data with
    | none => none
    | some lastDotIndex =>
      let extension := String.mk (lowerFilename.data.drop lastDotIndex)
      match getProperty (fileTypeDetector.extensionToTypeWith toLowerCase) extension with
      | some typeInfo =>
        some { type := typeInfo.type, subtype := typeInfo.subtype, extension := extension }
      | none => none

/-- The function `isFileTypeSupported` on such a platform. -/
def fileTypeDetector.isFileTypeSupportedWith (toLowerCase : String → String)
    (filename : String) : Bool :=
  (fileTypeDetector.detectFileTypeWith toLowerCase filename).isSome

/-- What is used of the platform's `toLowerCase`: on a string of ASCII
characters it lower-cases the ASCII letters; two strings that differ only in
the case of ASCII letters have the same lower-casing; and a lower-cased string
contains a `.` only if the string does. -/
structure LowerCases (lower : String → String) : Prop where
  ascii : ∀ s : String, (∀ c ∈ s.data, c.toNat < 128) → lower s = toLowerCase s
  caseless : ∀ s : String, lower (toLowerCase s) = lower s
  dot : ∀ s : String, '.' ∈ (lower s).data → '.' ∈ s.data

/-- A lower-casing of characters that knows, beyond the ASCII letters, the
Kelvin sign U+212A (lower case `k`) and U+00C9 (lower case U+00E9). -/
def sampleLowerChar (c : Char) : Char :=
  if c = Char.ofNat 0x212A then 'k'
  else if c = Char.ofNat 0xC9 then Char.ofNat 0xE9
  else c.toLower

/-- The lower-casing of strings by `sampleLowerChar`. -/
def sampleToLowerCase (s : String) : String :=
  String.mk (s.data.map sampleLowerChar)

/-- The sample page after the FBX tile 0 has entered the viewport and its
model has loaded: the tile is `'loaded'` and holds its viewer. -/
def fbxLoadedPage : World :=
  run samplePage [.enter 0 (envOk "blob:1"), .loadSettled 0 (.ok ""), .fbxLoadFinished 0 false]

/-! # Theorems -/

/-! ## The scan worker -/

theorem filesWithLevel_level_le :
    ∀ (it : Entries) (level : Nat) (pathPrefix : String),
      ∀ x ∈ it.filesWithLevel level pathPrefix, level ≤ x.1
  | .done, _, _, x, h => by simp [Entries.filesWithLevel] at h
  | .throw _, _, _, x, h => by simp [Entries.filesWithLevel] at h
  | .yield _ (.file (.ok file)) rest, level, pathPrefix, x, h => by
    simp only [Entries.filesWithLevel, List.mem_cons] at h
    rcases h with h | h
    · subst h; exact Nat.le_refl _
    · exact filesWithLevel_level_le rest level pathPrefix x h
  | .yield _ (.file (.error _)) rest, level, pathPrefix, x, h => by
    simp only [Entries.filesWithLevel] at h
    exact filesWithLevel_level_le rest level pathPrefix x h
  | .yield name (.directory sub) rest, level, pathPrefix, x, h => by
    simp only [Entries.filesWithLevel, List.mem_append] at h
    rcases h with h | h
    · exact Nat.le_of_succ_le (filesWithLevel_level_le sub (level + 1) _ x h)
    · exact filesWithLevel_level_le rest level pathPrefix x h

theorem expectedFound_append (d : Option Nat) (xs ys : List (Nat × String × JsFile)) :
    expectedFound d (xs ++ ys) = expectedFound d xs ++ expectedFound d ys := by
  simp [expectedFound, List.filterMap_append]

theorem expectedFound_eq_nil_of_deeper (d : Option Nat) (files : List (Nat × String × JsFile))
    (h : ∀ x ∈ files, withinDepth d x.1 = false) : expectedFound d files = [] := by
  induction files with
  | nil => rfl
  | cons x xs ih =>
    have hx := h x (List.mem_cons_self _ _)
    have hxs := ih (fun y hy => h y (List.mem_cons_of_mem _ hy))
    simp only [expectedFound] at hxs ⊢
    simp [List.filterMap_cons, hx, hxs]

theorem depthAgrees_toLevels (maxDepth : JsDepth) : DepthAgrees maxDepth maxDepth.toLevels := by
  intro level
  cases maxDepth with
  | finite n =>
    simp only [JsDepth.above, JsDepth.toLevels, withinDepth, decide_eq_true_eq]
    omega
  | infinity => simp [JsDepth.above, JsDepth.toLevels, withinDepth]

theorem scanFile_ok (name : String) (file : JsFile) (pathPrefix : String) :
    scanFile name (.ok file) pathPrefix = (foundMessage pathPrefix file).toList := by
  simp only [scanFile, foundMessage]
  cases h : detectFileType file.name <;> simp

theorem scanLoop_readable (maxDepth : JsDepth) (d : Option Nat) (hd : DepthAgrees maxDepth d) :
    ∀ (it : Entries) (level : Nat) (pathPrefix : String),
      it.readable = true → withinDepth d level = true →
      scanLoop it level maxDepth pathPrefix =
        (expectedFound d (it.filesWithLevel level pathPrefix), .ok ())
  | .done, _, _, _, _ => by simp [scanLoop, Entries.filesWithLevel, expectedFound]
  | .throw _, _, _, hr, _ => by simp [Entries.readable] at hr
  | .yield name (.file (.ok file)) rest, level, pathPrefix, hr, hl => by
    simp only [Entries.readable] at hr
    have ih := scanLoop_readable maxDepth d hd rest level pathPrefix hr hl
    simp only [scanLoop, ih, Entries.filesWithLevel, scanFile_ok]
    simp only [expectedFound, List.filterMap_cons, hl, if_true]
    cases foundMessage pathPrefix file <;> rfl
  | .yield _ (.file (.error _)) rest, _, _, hr, _ => by simp [Entries.readable] at hr
  | .yield name (.directory sub) rest, level, pathPrefix, hr, hl => by
    simp only [Entries.readable, Bool.and_eq_true] at hr
    have ihr := scanLoop_readable maxDepth d hd rest level pathPrefix hr.2 hl
    simp only [scanLoop, Entries.filesWithLevel, expectedFound_append]
    by_cases hab : maxDepth.above level = true
    · have hl1 : withinDepth d (level + 1) = true := (hd level).1 hab
      have ihs := scanLoop_readable maxDepth d hd sub (level + 1) (pathPrefix ++ name ++ "/")
        hr.1 hl1
      simp only [hab, if_true, ihs, catchDirError, ihr]
    · have hl1 : withinDepth d (level + 1) = false := by
        cases h : withinDepth d (level + 1) with
        | false => rfl
        | true => exact absurd ((hd level).2 h) hab
      have hnil : expectedFound d (sub.filesWithLevel (level + 1) (pathPrefix ++ name ++ "/")) = [] := by
        apply expectedFound_eq_nil_of_deeper
        intro x hx
        have hle := filesWithLevel_level_le sub (level + 1) _ x hx
        cases d with
        | none => simp [withinDepth] at hl1
        | some k =>
          simp only [withinDepth, decide_eq_false_iff_not, decide_eq_true_eq] at hl1 ⊢
          omega
      simp only [hab, hnil, ihr, List.nil_append]
      simp

theorem isDigit_not_whiteSpace (c : Char) (h : c.isDigit = true) :
    isStrWhiteSpaceChar c = false := by
  simp only [Char.isDigit, Bool.and_eq_true, decide_eq_true_eq] at h
  have h1 : 48 ≤ c.toNat := by
    have h3 : (48 : UInt32) ≤ c.val := h.1
    have h4 := UInt32.le_def.1 h3
    exact h4
  have h2 : c.toNat ≤ 57 := by
    have h3 : c.val ≤ (57 : UInt32) := h.2
    have h4 := UInt32.le_def.1 h3
    exact h4
  simp only [isStrWhiteSpaceChar, Bool.or_eq_false_iff, beq_eq_false_iff_ne, ne_eq,
    Bool.and_eq_false_imp, decide_eq_true_eq, decide_eq_false_iff_not]
  omega

theorem isDigit_ne_sign (c : Char) (h : c.isDigit = true) : c ≠ '-' ∧ c ≠ '+' := by
  constructor <;> (intro hc; subst hc; revert h; decide)

theorem parseInt_digits (ds : List Char) (hne : ds ≠ [])
    (hdigits : ∀ c ∈ ds, c.isDigit = true) :
    parseInt (String.mk ds) = some (digitsValue ds : Int) := by
  cases ds with
  | nil => exact absurd rfl hne
  | cons c rest =>
    have hc := hdigits c (List.mem_cons_self _ _)
    have hws := isDigit_not_whiteSpace c hc
    have hsign := isDigit_ne_sign c hc
    have htake : (c :: rest).takeWhile Char.isDigit = c :: rest :=
      List.takeWhile_eq_self_iff.2 hdigits
    simp only [parseInt, List.dropWhile_cons, hws, Bool.false_eq_true, if_false, hsign.1, hsign.2,
      htake, List.isEmpty_cons]

theorem digits_ne_word (ds : List Char) (hne : ds ≠ [])
    (hdigits : ∀ c ∈ ds, c.isDigit = true) : String.mk ds ≠ "all" ∧ String.mk ds ≠ "off" := by
  cases ds with
  | nil => exact absurd rfl hne
  | cons c rest =>
    have hc := hdigits c (List.mem_cons_self _ _)
    constructor <;>
    · intro h
      have h2 := congrArg String.data h
      simp only [String.data, List.cons.injEq] at h2
      have h3 := h2.1
      subst h3
      revert hc
      decide

theorem configuredDepth_toLevels (s : String) (d : Option Nat) (h : ConfiguredDepth s d) :
    (maxRecursiveDepthOf s).toLevels = d := by
  cases h with
  | off => decide
  | all => decide
  | decimal ds hne hdigits =>
    have hw := digits_ne_word ds hne hdigits
    simp [maxRecursiveDepthOf, hw.1, hw.2, parseInt_digits ds hne hdigits, JsDepth.toLevels]
  | unparsable s hnan hall =>
    by_cases hoff : s = "off"
    · simp [maxRecursiveDepthOf, hall, hoff, JsDepth.toLevels]
    · simp [maxRecursiveDepthOf, hall, hoff, hnan, JsDepth.toLevels]

theorem onmessage_readable (tree : Entries) (s currentPath : String)
    (hread : tree.readable = true) :
    onmessage ⟨some tree, s, currentPath⟩ =
      expectedFound (maxRecursiveDepthOf s).toLevels (tree.filesWithLevel 0 currentPath) ++
        [WorkerMsg.scanComplete] := by
  have h0 : withinDepth (maxRecursiveDepthOf s).toLevels 0 = true := by
    cases (maxRecursiveDepthOf s).toLevels <;> simp [withinDepth]
  have h := scanLoop_readable (maxRecursiveDepthOf s) _ (depthAgrees_toLevels _) tree 0
    currentPath hread h0
  simp [onmessage, scanDirectory, h, catchDirError]

/-- C1: in a tree in which no read fails, for a configured depth `d` (`off` is
0, `all` is unbounded, a string of decimal digits is its value, an unparsable
string is 0) the worker posts, in iteration order, one `fileFound` for each
file that `detectFileType` recognises and that lies at most `d` levels below
the root, then `scanComplete`, and nothing else; and for every depth setting
whatsoever each recognised file of the root itself is reported. -/
theorem scan_reports_exactly_files_within_depth (tree : Entries) (s currentPath : String)
    (d : Option Nat) (hread : tree.readable = true) (hd : ConfiguredDepth s d) :
    onmessage ⟨some tree, s, currentPath⟩ =
        expectedFound d (tree.filesWithLevel 0 currentPath) ++ [WorkerMsg.scanComplete] ∧
      ∀ (anySetting : String) (x : Nat × String × JsFile) (m : WorkerMsg),
        x ∈ tree.filesWithLevel 0 currentPath → x.1 = 0 → foundMessage x.2.1 x.2.2 = some m →
        m ∈ onmessage ⟨some tree, anySetting, currentPath⟩ := by
  constructor
  · rw [onmessage_readable tree s currentPath hread, configuredDepth_toLevels s d hd]
  · intro anySetting x m hx hlevel hm
    rw [onmessage_readable tree anySetting currentPath hread]
    apply List.mem_append_left
    simp only [expectedFound, List.mem_filterMap]
    refine ⟨x, hx, ?_⟩
    have h0 : withinDepth (maxRecursiveDepthOf anySetting).toLevels x.1 = true := by
      rw [hlevel]
      cases (maxRecursiveDepthOf anySetting).toLevels <;> simp [withinDepth]
    simp [h0, hm]

/-- C1 at the sample tree with depth `1`: `a.fbx` (level 0) and `sub/b.PNG`
(level 1) are reported, `sub/deep/c.jpg` (level 2) and `notes.xyz` are not. -/
theorem scan_reports_exactly_files_within_depth_witness :
    sampleTree.readable = true ∧ ConfiguredDepth "1" (some 1) ∧
      onmessage ⟨some sampleTree, "1", "root/"⟩ =
        [ WorkerMsg.fileFound ⟨"a.fbx", ⟨"a.fbx", 1, 0⟩, "3d", "fbx", "root/a.fbx"⟩,
          WorkerMsg.fileFound ⟨"b.PNG", ⟨"b.PNG", 1, 0⟩, "image", "png", "root/sub/b.PNG"⟩,
          WorkerMsg.scanComplete ] :=
  ⟨by decide, ConfiguredDepth.decimal ['1'] (by decide) (by decide),
    (scan_reports_exactly_files_within_depth sampleTree "1" "root/" (some 1) (by decide)
      (ConfiguredDepth.decimal ['1'] (by decide) (by decide))).1.trans (by decide)⟩

/-- C2 on the code: when the subdirectory `sub` cannot be read, the worker
posts a `scanError` for `root/sub/` and another one for its ancestor `root/`,
and no `fileFound` for `a.fbx`, which is iterated after `sub`. -/
theorem unreadable_subdir_aborts_siblings :
    onmessage ⟨some unreadableSubdirTree, "all", "root/"⟩ =
      [ WorkerMsg.scanError "Error scanning directory root/sub/: NotReadableError",
        WorkerMsg.scanError "Error scanning directory root/: NotReadableError" ] := by
  decide

/-- C3 on the code: when a directory cannot be read, the worker posts no
`scanComplete`; its last message is the `scanError` of the root. -/
theorem unreadable_subdir_no_scanComplete :
    (onmessage ⟨some lateUnreadableTree, "1", "root/"⟩).count WorkerMsg.scanComplete = 0 ∧
      onmessage ⟨some lateUnreadableTree, "1", "root/"⟩ =
        [ WorkerMsg.fileFound ⟨"a.fbx", ⟨"a.fbx", 1, 0⟩, "3d", "fbx", "root/a.fbx"⟩,
          WorkerMsg.scanError "Error scanning directory root/sub/: NotReadableError",
          WorkerMsg.scanError "Error scanning directory root/: NotReadableError" ] := by
  decide

/-! ## The folder pick consumer -/

theorem pickRun_found_or_error (localeCompare : String → String → Int) (events : List PickEvent) :
    ∀ s : PickState, (∀ ev ∈ events, ev.isFoundOrError = true) →
      (pickRun localeCompare s events).modelFiles = s.modelFiles := by
  induction events with
  | nil => intro s _; rfl
  | cons ev rest ih =>
    intro s h
    have hev := h ev (List.mem_cons_self _ _)
    have hrest := ih (pickStep localeCompare s ev) (fun e he => h e (List.mem_cons_of_mem _ he))
    simp only [pickRun, List.foldl_cons] at hrest ⊢
    rw [hrest]
    cases ev with
    | handleFolderPick c => simp [PickEvent.isFoundOrError] at hev
    | error i => simp [PickEvent.isFoundOrError] at hev
    | message i data =>
      cases data with
      | scanComplete => simp [PickEvent.isFoundOrError] at hev
      | fileFound e =>
        simp only [pickStep, workerOnmessage]
        split
        · rfl
        · split <;> rfl
      | scanError e =>
        simp only [pickStep, workerOnmessage]
        split
        · rfl
        · split <;> rfl

/-- C4 as stated fails: the `scanComplete` of the first scan, delivered after
the second call of `handleFolderPick`, changes `modelFiles` from the empty
list to the files of the first scan. -/
theorem superseded_scanComplete_changes_modelFiles :
    (pickRun constantCompare ⟨[], []⟩ (supersededScanEvents.take 3)).modelFiles = [] ∧
      (pickRun constantCompare ⟨[], []⟩ supersededScanEvents).modelFiles = [entryA] := by
  decide

/-- C4, amended: whatever scans are under way, no sequence of `fileFound` and
`scanError` messages (of superseded workers or of the newest one) changes
`modelFiles`; a `scanComplete` of any worker that is not terminated, the
newest or a superseded one, replaces `modelFiles` by the files that worker has
reported, sorted by name. -/
theorem modelFiles_changes_only_on_scanComplete (localeCompare : String → String → Int)
    (s : PickState) (i : Nat) (wk : ScanWorker) (events : List PickEvent)
    (hwk : s.workers[i]? = some wk) (hlive : wk.terminated = false)
    (hevents : ∀ ev ∈ events, ev.isFoundOrError = true) :
    (pickRun localeCompare s events).modelFiles = s.modelFiles ∧
      (workerOnmessage localeCompare s i .scanComplete).modelFiles =
        sortByName localeCompare wk.newModelFiles := by
  refine ⟨pickRun_found_or_error localeCompare events s hevents, ?_⟩
  simp [workerOnmessage, hwk, hlive]

/-- C4, amended, at two picks: the superseded worker 0 has reported `a.fbx`;
its `fileFound` messages leave `modelFiles` empty, its `scanComplete`
installs `a.fbx`. -/
theorem modelFiles_changes_only_on_scanComplete_witness :
    (pickRun constantCompare (pickRun constantCompare ⟨[], []⟩ (supersededScanEvents.take 3))
        [.message 0 (.fileFound entryA), .message 1 (.fileFound entryA)]).modelFiles = [] ∧
      (workerOnmessage constantCompare
        (pickRun constantCompare ⟨[], []⟩ (supersededScanEvents.take 3)) 0
        .scanComplete).modelFiles = [entryA] :=
  (modelFiles_changes_only_on_scanComplete constantCompare
      (pickRun constantCompare ⟨[], []⟩ (supersededScanEvents.take 3)) 0
      ⟨[entryA], false, false⟩
      [.message 0 (.fileFound entryA), .message 1 (.fileFound entryA)]
      (by decide) (by decide) (by decide))

/-! ## The tile observer -/

@[simp] theorem update_same {α : Type} (f : Nat → α) (i : Nat) (x : α) : update f i x i = x := by
  simp [update]

theorem update_of_ne {α : Type} (f : Nat → α) (i j : Nat) (x : α) (h : j ≠ i) :
    update f i x j = f j := by
  simp [update, h]

theorem cancelPendingCleanup_frame (w : World) (t : Nat) :
    (cancelPendingCleanup w t).tileLoadingStates = w.tileLoadingStates ∧
      (cancelPendingCleanup w t).loads = w.loads ∧
      (cancelPendingCleanup w t).models = w.models ∧
      (cancelPendingCleanup w t).viewers = w.viewers ∧
      (cancelPendingCleanup w t).tiles = w.tiles ∧
      (cancelPendingCleanup w t).activeFbxViewers = w.activeFbxViewers ∧
      (cancelPendingCleanup w t).blobUrls = w.blobUrls ∧
      (cancelPendingCleanup w t).currentFullscreenViewer = w.currentFullscreenViewer ∧
      ((cancelPendingCleanup w t).log = w.log ∨
        ∃ handle, (cancelPendingCleanup w t).log = w.log ++ [Effect.clearTimeout handle]) := by
  unfold cancelPendingCleanup
  split
  · split
    · simp [clearTimeout, World.emit, World.deleteCleanupTimeout]
    · simp
  · simp

theorem observeEnter_of_loading_or_loaded (w : World) (t : Nat) (env : LoadEnv)
    (h : w.tileLoadingStates t = some LoadingState.loading ∨
      w.tileLoadingStates t = some LoadingState.loaded) :
    observeEnter w t env = cancelPendingCleanup w t := by
  unfold observeEnter
  rw [(cancelPendingCleanup_frame w t).1]
  rcases h with h | h <;> rw [h]

/-- C5: for a tile whose recorded state is `'loading'` or `'loaded'`, the
enter branch of the observer leaves every loading state, every pending load,
every asset record, every viewer, every tile field and the memory manager's
sets as they are, and its only possible effect is the `clearTimeout` of the
tile's pending timer: `loadTileContent` is not called and no object URL or
viewer is created, revoked or disposed. -/
theorem enter_on_loading_or_loaded_is_noop (w : World) (t : Nat) (env : LoadEnv)
    (h : w.tileLoadingStates t = some LoadingState.loading ∨
      w.tileLoadingStates t = some LoadingState.loaded) :
    (observeEnter w t env).tileLoadingStates = w.tileLoadingStates ∧
      (observeEnter w t env).loads = w.loads ∧
      (observeEnter w t env).models = w.models ∧
      (observeEnter w t env).viewers = w.viewers ∧
      (observeEnter w t env).tiles = w.tiles ∧
      (observeEnter w t env).activeFbxViewers = w.activeFbxViewers ∧
      (observeEnter w t env).blobUrls = w.blobUrls ∧
      (observeEnter w t env).currentFullscreenViewer = w.currentFullscreenViewer ∧
      ((observeEnter w t env).log = w.log ∨
        ∃ handle, (observeEnter w t env).log = w.log ++ [Effect.clearTimeout handle]) := by
  rw [observeEnter_of_loading_or_loaded w t env h]
  exact cancelPendingCleanup_frame w t

/-- C5 at the sample page: the image tile 1 is loading when a second enter
event arrives. -/
theorem enter_on_loading_or_loaded_is_noop_witness :
    (loadingPage.tileLoadingStates 1 = some LoadingState.loading ∨
        loadingPage.tileLoadingStates 1 = some LoadingState.loaded) ∧
      ((observeEnter loadingPage 1 (envOk "blob:2")).tileLoadingStates =
          loadingPage.tileLoadingStates ∧
        (observeEnter loadingPage 1 (envOk "blob:2")).loads = loadingPage.loads ∧
        (observeEnter loadingPage 1 (envOk "blob:2")).models = loadingPage.models ∧
        (observeEnter loadingPage 1 (envOk "blob:2")).viewers = loadingPage.viewers ∧
        (observeEnter loadingPage 1 (envOk "blob:2")).tiles = loadingPage.tiles ∧
        (observeEnter loadingPage 1 (envOk "blob:2")).activeFbxViewers =
          loadingPage.activeFbxViewers ∧
        (observeEnter loadingPage 1 (envOk "blob:2")).blobUrls = loadingPage.blobUrls ∧
        (observeEnter loadingPage 1 (envOk "blob:2")).currentFullscreenViewer =
          loadingPage.currentFullscreenViewer ∧
        ((observeEnter loadingPage 1 (envOk "blob:2")).log = loadingPage.log ∨
          ∃ handle, (observeEnter loadingPage 1 (envOk "blob:2")).log =
            loadingPage.log ++ [Effect.clearTimeout handle])) :=
  ⟨Or.inl (by decide),
    enter_on_loading_or_loaded_is_noop loadingPage 1 (envOk "blob:2") (Or.inl (by decide))⟩

/-! ## No timer activity outside the observer -/

theorem Quiet.refl (w : World) : Quiet w w := ⟨rfl, rfl, rfl, fun _ => rfl⟩

theorem Quiet.trans {a b c : World} (h1 : Quiet a b) (h2 : Quiet b c) : Quiet a c :=
  ⟨h2.1.trans h1.1, h2.2.1.trans h1.2.1, h2.2.2.1.trans h1.2.2.1,
    fun h => (h2.2.2.2 h).trans (h1.2.2.2 h)⟩

theorem quiet_of_eq {w w' : World} (ht : w'.timers = w.timers) (hl : w'.lastTimer = w.lastTimer)
    (hc : w'.tileCleanupTimeouts = w.tileCleanupTimeouts) (hlog : w'.log = w.log) :
    Quiet w w' :=
  ⟨ht, hl, hc, fun _ => by rw [hlog]⟩

theorem count_emit (w : World) (e x : Effect) :
    (w.emit e).log.count x = w.log.count x + if e = x then 1 else 0 := by
  by_cases h : e = x
  · simp [World.emit, List.count_append, h]
  · have hne : ¬ (e == x) = true := by simpa using h
    simp [World.emit, List.count_append, List.count_cons, h, hne]

theorem emit_quiet (w : World) (e : Effect) (he : ∀ h, e ≠ Effect.teardownRan h) :
    Quiet w (w.emit e) := by
  refine ⟨rfl, rfl, rfl, fun h => ?_⟩
  rw [count_emit]
  simp [he h]

theorem fbxViewerDispose_quiet (w : World) (v : Nat) : Quiet w (fbxViewerDispose w v) := by
  unfold fbxViewerDispose
  split
  · exact Quiet.refl w
  · split
    · exact emit_quiet w _ (by simp)
    · exact (emit_quiet w _ (by simp)).trans
        ((emit_quiet _ (Effect.disposeRan v) (by simp)).trans (quiet_of_eq rfl rfl rfl rfl))

theorem fbxViewerLoadModel_quiet (w : World) (v : Nat) : Quiet w (fbxViewerLoadModel w v) := by
  unfold fbxViewerLoadModel
  split
  · exact Quiet.refl w
  · split
    · exact Quiet.refl w
    · exact quiet_of_eq rfl rfl rfl rfl

theorem newFbxViewer_quiet (w : World) (o : Option Nat) : Quiet w (newFbxViewer w o) := by
  unfold newFbxViewer
  exact (emit_quiet w _ (by simp)).trans (quiet_of_eq rfl rfl rfl rfl)

theorem registerFbxViewer_quiet (w : World) (v : Nat) : Quiet w (registerFbxViewer w v) := by
  unfold registerFbxViewer
  split
  · exact Quiet.refl w
  · exact quiet_of_eq rfl rfl rfl rfl

theorem disposeFbxViewer_quiet (w : World) (v : Nat) : Quiet w (disposeFbxViewer w v) := by
  unfold disposeFbxViewer
  split
  · exact (fbxViewerDispose_quiet w v).trans (quiet_of_eq rfl rfl rfl rfl)
  · exact Quiet.refl w

theorem foldl_quiet {α : Type} (f : World → α → World) (hf : ∀ w a, Quiet w (f w a))
    (l : List α) : ∀ w, Quiet w (l.foldl f w) := by
  induction l with
  | nil => intro w; exact Quiet.refl w
  | cons a rest ih => intro w; exact (hf w a).trans (ih (f w a))

theorem disposeAllFbxViewers_quiet (w : World) : Quiet w (disposeAllFbxViewers w) :=
  foldl_quiet disposeFbxViewer disposeFbxViewer_quiet _ w

theorem revokeBlobUrl_quiet (w : World) (modelId : String) : Quiet w (revokeBlobUrl w modelId) := by
  unfold revokeBlobUrl
  split
  · split
    · exact (emit_quiet w _ (by simp)).trans (quiet_of_eq rfl rfl rfl rfl)
    · exact Quiet.refl w
  · exact Quiet.refl w

theorem cleanupModelBlob_quiet (w : World) (m : Nat) : Quiet w (cleanupModelBlob w m) := by
  unfold cleanupModelBlob
  split
  · exact (revokeBlobUrl_quiet w _).trans (quiet_of_eq rfl rfl rfl rfl)
  · exact Quiet.refl w

theorem clearThumbnail_quiet (w : World) (m : Nat) : Quiet w (clearThumbnail w m) := by
  unfold clearThumbnail
  split
  · exact quiet_of_eq rfl rfl rfl rfl
  · exact Quiet.refl w

theorem cleanupModel_quiet (w : World) (m : Nat) : Quiet w (cleanupModel w m) :=
  (cleanupModelBlob_quiet w m).trans (clearThumbnail_quiet _ m)

theorem cleanupTileViewer_quiet (w : World) (t : Nat) : Quiet w (cleanupTileViewer w t) := by
  unfold cleanupTileViewer
  split
  · exact (disposeFbxViewer_quiet w _).trans (quiet_of_eq rfl rfl rfl rfl)
  · exact Quiet.refl w

theorem cleanupTileModel_quiet (w : World) (t : Nat) : Quiet w (cleanupTileModel w t) := by
  unfold cleanupTileModel
  split
  · exact (cleanupModel_quiet w _).trans (quiet_of_eq rfl rfl rfl rfl)
  · exact Quiet.refl w

theorem cleanupTile_quiet (w : World) (t : Nat) : Quiet w (cleanupTile w t) :=
  (cleanupTileViewer_quiet w t).trans (cleanupTileModel_quiet _ t)

theorem disposePreviousViewer_quiet (w : World) (t : Nat) :
    Quiet w (disposePreviousViewer w t) := by
  unfold disposePreviousViewer
  split
  · exact (fbxViewerDispose_quiet w _).trans
      ((disposeFbxViewer_quiet _ _).trans (quiet_of_eq rfl rfl rfl rfl))
  · exact Quiet.refl w

theorem startTileFbxViewer_quiet (w : World) (t : Nat) : Quiet w (startTileFbxViewer w t) := by
  unfold startTileFbxViewer
  exact (newFbxViewer_quiet w (some t)).trans
    ((quiet_of_eq rfl rfl rfl rfl :
        Quiet (newFbxViewer w (some t))
          ((newFbxViewer w (some t)).setTileViewer t (some w.nextViewer))).trans
      ((registerFbxViewer_quiet _ _).trans (fbxViewerLoadModel_quiet _ _)))

theorem loadByType_quiet (w : World) (t m : Nat) (d : Bool) : Quiet w (loadByType w t m d).1 := by
  unfold loadByType
  split
  · exact Quiet.refl w
  · split
    · exact startTileFbxViewer_quiet w t
    · split
      · exact Quiet.refl w
      · split
        · exact Quiet.refl w
        · split
          · exact Quiet.refl w
          · split <;> exact Quiet.refl w

theorem loadTileContent_quiet (w : World) (t : Nat) (env : LoadEnv) :
    Quiet w (loadTileContent w t env).1 := by
  unfold loadTileContent
  split
  · exact emit_quiet w _ (by simp)
  · split
    · exact (emit_quiet w _ (by simp)).trans
        ((disposePreviousViewer_quiet _ t).trans (emit_quiet _ _ (by simp)))
    · exact (emit_quiet w _ (by simp)).trans
        ((disposePreviousViewer_quiet _ t).trans
          ((emit_quiet _ _ (by simp)).trans (loadByType_quiet _ _ _ _)))

theorem loadTileContentResume_quiet (w : World) (p : PendingLoad) (a : Except String String) :
    Quiet w (loadTileContentResume w p a).1 := by
  unfold loadTileContentResume
  split
  · exact Quiet.refl w
  · exact Quiet.refl w
  · split
    · exact quiet_of_eq rfl rfl rfl rfl
    · exact Quiet.refl w
  · exact Quiet.refl w

theorem loadSettled_quiet (w : World) (t : Nat) (a : Except String String) :
    Quiet w (loadSettled w t a) := by
  unfold loadSettled
  split
  · exact Quiet.refl w
  · exact (loadTileContentResume_quiet w _ a).trans (quiet_of_eq rfl rfl rfl rfl)

theorem startLoad_quiet (w : World) (t : Nat) (env : LoadEnv) : Quiet w (startLoad w t env) := by
  unfold startLoad
  exact (quiet_of_eq rfl rfl rfl rfl : Quiet w (w.setLoadingState t _)).trans
    ((loadTileContent_quiet _ t env).trans (quiet_of_eq rfl rfl rfl rfl))

theorem teardownBlob_quiet (w : World) (m : Nat) : Quiet w (teardownBlob w m) := by
  unfold teardownBlob
  split
  · split
    · exact (emit_quiet w _ (by simp)).trans (quiet_of_eq rfl rfl rfl rfl)
    · exact Quiet.refl w
  · exact Quiet.refl w

theorem teardownViewer_quiet (w : World) (t : Nat) : Quiet w (teardownViewer w t) := by
  unfold teardownViewer
  split
  · split
    · split
      · exact (fbxViewerDispose_quiet w _).trans
          ((disposeFbxViewer_quiet _ _).trans (quiet_of_eq rfl rfl rfl rfl))
      · exact Quiet.refl w
    · exact Quiet.refl w
  · exact Quiet.refl w

theorem teardown_quiet (w : World) (tm : PendingTimer) :
    Quiet (w.emit (Effect.teardownRan tm.handle)) (teardown w tm) := by
  unfold teardown
  exact (teardownBlob_quiet _ _).trans
    ((teardownViewer_quiet _ _).trans
      ((clearThumbnail_quiet _ _).trans (quiet_of_eq rfl rfl rfl rfl)))

theorem onErrorCleanup_quiet (w : World) (t : Nat) : Quiet w (onErrorCleanup w t) := by
  unfold onErrorCleanup
  split
  · exact (disposeFbxViewer_quiet w _).trans (quiet_of_eq rfl rfl rfl rfl)
  · exact Quiet.refl w

theorem tileViewerOnError_quiet (w : World) (t : Nat) : Quiet w (tileViewerOnError w t) := by
  unfold tileViewerOnError
  exact (emit_quiet w _ (by simp)).trans
    ((onErrorCleanup_quiet _ t).trans (quiet_of_eq rfl rfl rfl rfl))

theorem callOnError_quiet (w : World) (o : Option Nat) : Quiet w (callOnError w o) := by
  unfold callOnError
  split
  · exact tileViewerOnError_quiet w _
  · exact Quiet.refl w

theorem fbxLoadFinished_quiet (w : World) (v : Nat) (failed : Bool) :
    Quiet w (fbxLoadFinished w v failed) := by
  unfold fbxLoadFinished
  split
  · exact Quiet.refl w
  · split
    · exact Quiet.refl w
    · split
      · exact (quiet_of_eq rfl rfl rfl rfl : Quiet w (w.setViewer v _)).trans (callOnError_quiet _ _)
      · exact quiet_of_eq rfl rfl rfl rfl

theorem cleanupRenderedTile_quiet (w : World) (t : Nat) : Quiet w (cleanupRenderedTile w t) :=
  (cleanupTile_quiet w t).trans (quiet_of_eq rfl rfl rfl rfl)

theorem appendTile_quiet (w : World) (m : Nat) : Quiet w (appendTile w m) :=
  quiet_of_eq rfl rfl rfl rfl

theorem renderPage_quiet (w : World) (pageItems : List Nat) : Quiet w (renderPage w pageItems) := by
  unfold renderPage
  exact (foldl_quiet cleanupRenderedTile cleanupRenderedTile_quiet _ w).trans
    ((quiet_of_eq rfl rfl rfl rfl : Quiet _ (World.clearContainer _)).trans
      (foldl_quiet appendTile appendTile_quiet _ _))

theorem folderPickStart_quiet (w : World) : Quiet w (folderPickStart w) :=
  (disposeAllFbxViewers_quiet w).trans (quiet_of_eq rfl rfl rfl rfl)

theorem startFullscreenFbxViewer_quiet (w : World) : Quiet w (startFullscreenFbxViewer w) :=
  (newFbxViewer_quiet w none).trans
    ((registerFbxViewer_quiet _ _).trans (fbxViewerLoadModel_quiet _ _))

theorem showByType_quiet (w : World) (m : Nat) (u : String) (f : Bool) :
    Quiet w (showByType w m u f) := by
  unfold showByType
  split
  · exact quiet_of_eq rfl rfl rfl rfl
  · split
    · exact (startFullscreenFbxViewer_quiet w).trans (quiet_of_eq rfl rfl rfl rfl)
    · split
      · exact quiet_of_eq rfl rfl rfl rfl
      · split
        · exact quiet_of_eq rfl rfl rfl rfl
        · split
          · exact quiet_of_eq rfl rfl rfl rfl
          · split
            · split
              · exact quiet_of_eq rfl rfl rfl rfl
              · exact Quiet.refl _
            · exact Quiet.refl _

theorem showFullscreen_quiet (w : World) (m : Nat) (env : FullscreenEnv) :
    Quiet w (showFullscreen w m env) := by
  unfold showFullscreen
  split
  · exact Quiet.refl w
  · exact (emit_quiet w _ (by simp)).trans (showByType_quiet _ _ _ _)

theorem revokeIfSet_quiet (w : World) (u : String) : Quiet w (revokeIfSet w u) := by
  unfold revokeIfSet
  split
  · exact emit_quiet w _ (by simp)
  · exact Quiet.refl w

theorem runCleanup_quiet (w : World) (c : Cleanup) : Quiet w (runCleanup w c) := by
  cases c with
  | revokeUrl u => exact revokeIfSet_quiet w u
  | fbx v u => exact (disposeFbxViewer_quiet w v).trans (revokeIfSet_quiet _ u)
  | audio u => exact revokeIfSet_quiet w u
  | font u => exact revokeIfSet_quiet w u

theorem exitFullscreen_quiet (w : World) (d : Option FullscreenViewer) :
    Quiet w (exitFullscreen w d) := by
  unfold exitFullscreen
  split
  · exact Quiet.refl w
  · split
    · exact Quiet.refl w
    · split
      · exact (emit_quiet w _ (by simp)).trans (runCleanup_quiet _ _)
      · exact Quiet.refl w

/-! ## A cancelled timer never fires -/

theorem cancelled_of_quiet {h : Nat} {w w' : World} (hc : Cancelled h w) (hq : Quiet w w') :
    Cancelled h w' ∧
      w'.log.count (Effect.teardownRan h) = w.log.count (Effect.teardownRan h) := by
  refine ⟨⟨?_, ?_⟩, hq.2.2.2 h⟩
  · rw [hq.1]; exact hc.1
  · rw [hq.2.1]; exact hc.2

theorem cancelPendingCleanup_cancelled (h : Nat) (w : World) (t : Nat) (hc : Cancelled h w) :
    Cancelled h (cancelPendingCleanup w t) ∧
      (cancelPendingCleanup w t).log.count (Effect.teardownRan h) =
        w.log.count (Effect.teardownRan h) := by
  unfold cancelPendingCleanup
  split
  · split
    · refine ⟨⟨?_, hc.2⟩, ?_⟩
      · intro tm htm
        simp only [World.deleteCleanupTimeout, clearTimeout, List.mem_filter] at htm
        exact hc.1 tm htm.1
      · simp only [World.deleteCleanupTimeout, clearTimeout]
        rw [count_emit]
        simp
    · exact ⟨hc, rfl⟩
  · exact ⟨hc, rfl⟩

theorem observeEnter_cancelled (h : Nat) (w : World) (t : Nat) (env : LoadEnv)
    (hc : Cancelled h w) :
    Cancelled h (observeEnter w t env) ∧
      (observeEnter w t env).log.count (Effect.teardownRan h) =
        w.log.count (Effect.teardownRan h) := by
  have h1 := cancelPendingCleanup_cancelled h w t hc
  have h2 := cancelled_of_quiet h1.1 (startLoad_quiet (cancelPendingCleanup w t) t env)
  unfold observeEnter
  split
  · exact ⟨h2.1, h2.2.trans h1.2⟩
  · exact ⟨h2.1, h2.2.trans h1.2⟩
  · exact h1
  · exact h1
  · exact h1

theorem observeExit_cancelled (h : Nat) (w : World) (t : Nat) (hc : Cancelled h w) :
    Cancelled h (observeExit w t) ∧
      (observeExit w t).log.count (Effect.teardownRan h) =
        w.log.count (Effect.teardownRan h) := by
  unfold observeExit
  split
  · refine ⟨⟨?_, ?_⟩, ?_⟩
    · intro tm htm
      simp only [List.mem_append, List.mem_singleton] at htm
      rcases htm with htm | htm
      · exact hc.1 tm htm
      · subst htm
        have := hc.2
        simp only
        omega
    · have := hc.2
      simp only
      omega
    · simp only
      rw [count_emit]
      simp
  · exact ⟨hc, rfl⟩

theorem timerFired_cancelled (h : Nat) (w : World) (handle : Nat) (hc : Cancelled h w) :
    Cancelled h (timerFired w handle) ∧
      (timerFired w handle).log.count (Effect.teardownRan h) =
        w.log.count (Effect.teardownRan h) := by
  unfold timerFired
  split
  · rename_i tm hfind
    have hmem : tm ∈ w.timers := List.mem_of_find?_eq_some hfind
    have hne : tm.handle ≠ h := hc.1 tm hmem
    have hdrop : Cancelled h ((w.dropTimer handle).emit (Effect.teardownRan tm.handle)) := by
      refine ⟨?_, hc.2⟩
      intro x hx
      simp only [World.emit, World.dropTimer, List.mem_filter] at hx
      exact hc.1 x hx.1
    have h2 := cancelled_of_quiet hdrop (teardown_quiet (w.dropTimer handle) tm)
    refine ⟨h2.1, h2.2.trans ?_⟩
    rw [count_emit]
    simp [World.dropTimer, hne]
  · exact ⟨hc, rfl⟩

theorem step_cancelled (h : Nat) (w : World) (e : Event) (hc : Cancelled h w) :
    Cancelled h (step w e) ∧
      (step w e).log.count (Effect.teardownRan h) = w.log.count (Effect.teardownRan h) := by
  cases e with
  | enter t env => exact observeEnter_cancelled h w t env hc
  | exit t => exact observeExit_cancelled h w t hc
  | timerFired handle => exact timerFired_cancelled h w handle hc
  | loadSettled t a => exact cancelled_of_quiet hc (loadSettled_quiet w t a)
  | fbxLoadFinished v f => exact cancelled_of_quiet hc (fbxLoadFinished_quiet w v f)
  | renderPage items => exact cancelled_of_quiet hc (renderPage_quiet w items)
  | folderPickStart => exact cancelled_of_quiet hc (folderPickStart_quiet w)
  | showFullscreen m env => exact cancelled_of_quiet hc (showFullscreen_quiet w m env)
  | exitFullscreen => exact cancelled_of_quiet hc (exitFullscreen_quiet w _)

theorem run_cancelled (h : Nat) (events : List Event) :
    ∀ w : World, Cancelled h w →
      Cancelled h (run w events) ∧
        (run w events).log.count (Effect.teardownRan h) =
          w.log.count (Effect.teardownRan h) := by
  induction events with
  | nil => intro w hc; exact ⟨hc, rfl⟩
  | cons e rest ih =>
    intro w hc
    have h1 := step_cancelled h w e hc
    have h2 := ih (step w e) h1.1
    simp only [run, List.foldl_cons] at h2 ⊢
    exact ⟨h2.1, h2.2.trans h1.2⟩

theorem observeExit_of_loaded (w : World) (t m : Nat)
    (hstate : w.tileLoadingStates t = some LoadingState.loaded)
    (hmodel : (w.tiles t).model = some m) :
    observeExit w t =
      { w.emit (.setTimeout (w.lastTimer + 1)) with
        timers := w.timers ++ [{ handle := w.lastTimer + 1, tile := t, model := m }],
        lastTimer := w.lastTimer + 1,
        tileCleanupTimeouts := update w.tileCleanupTimeouts t (some (w.lastTimer + 1)) } := by
  unfold observeExit
  rw [hmodel, hstate]

theorem cancellable_of_quiet {h t : Nat} {w w' : World} (hc : Cancellable h t w)
    (hq : Quiet w w') :
    Cancellable h t w' ∧
      w'.log.count (Effect.teardownRan h) = w.log.count (Effect.teardownRan h) := by
  refine ⟨⟨hc.1, ?_, ?_⟩, hq.2.2.2 h⟩
  · rw [hq.2.1]; exact hc.2.1
  · rw [hq.1, hq.2.2.1]; exact hc.2.2

theorem cancelPendingCleanup_cancellable (h t : Nat) (w : World) (t' : Nat)
    (hc : Cancellable h t w) :
    Cancellable h t (cancelPendingCleanup w t') ∧
      (t' = t → Cancelled h (cancelPendingCleanup w t')) ∧
      (cancelPendingCleanup w t').log.count (Effect.teardownRan h) =
        w.log.count (Effect.teardownRan h) := by
  unfold cancelPendingCleanup
  split
  · rename_i c hstored
    split
    · rename_i hc0
      have hfilter : ∀ tm ∈ w.timers.filter (fun tm => tm.handle != c),
          (∀ x ∈ w.timers, x.handle ≠ h) → tm.handle ≠ h := by
        intro tm htm hall
        exact hall tm (List.mem_filter.1 htm).1
      refine ⟨⟨hc.1, hc.2.1, ?_⟩, ?_, ?_⟩
      · rcases hc.2.2 with hnp | hst
        · left
          intro tm htm
          exact hfilter tm htm hnp
        · by_cases htt : t' = t
          · subst htt
            rw [hstored] at hst
            injection hst with hst
            subst hst
            left
            intro tm htm
            simp only [World.deleteCleanupTimeout, clearTimeout, List.mem_filter,
              bne_iff_ne] at htm
            exact htm.2
          · right
            have : t ≠ t' := fun e => htt e.symm
            simp only [World.deleteCleanupTimeout, clearTimeout, World.emit, update, this,
              if_false]
            exact hst
      · intro htt
        subst htt
        refine ⟨?_, hc.2.1⟩
        rcases hc.2.2 with hnp | hst
        · intro tm htm
          exact hfilter tm htm hnp
        · rw [hstored] at hst
          injection hst with hst
          subst hst
          intro tm htm
          simp only [World.deleteCleanupTimeout, clearTimeout, List.mem_filter,
            bne_iff_ne] at htm
          exact htm.2
      · simp only [World.deleteCleanupTimeout, clearTimeout]
        rw [count_emit]
        simp
    · rename_i hc0
      have hc0' : c = 0 := by simpa using hc0
      refine ⟨hc, ?_, rfl⟩
      intro htt
      subst htt
      refine ⟨?_, hc.2.1⟩
      rcases hc.2.2 with hnp | hst
      · exact hnp
      · rw [hstored] at hst
        injection hst with hst
        exact absurd (hst.symm.trans hc0') hc.1
  · rename_i hnone
    refine ⟨hc, ?_, rfl⟩
    intro htt
    subst htt
    refine ⟨?_, hc.2.1⟩
    rcases hc.2.2 with hnp | hst
    · exact hnp
    · rw [hnone] at hst
      exact absurd hst (by simp)

theorem observeEnter_cancellable (h t : Nat) (w : World) (t' : Nat) (env : LoadEnv)
    (hc : Cancellable h t w) :
    Cancellable h t (observeEnter w t' env) ∧
      (t' = t → Cancelled h (observeEnter w t' env)) ∧
      (observeEnter w t' env).log.count (Effect.teardownRan h) =
        w.log.count (Effect.teardownRan h) := by
  have h1 := cancelPendingCleanup_cancellable h t w t' hc
  have hq := startLoad_quiet (cancelPendingCleanup w t') t' env
  have h2 := cancellable_of_quiet h1.1 hq
  have h3 : t' = t → Cancelled h (startLoad (cancelPendingCleanup w t') t' env) :=
    fun htt => (cancelled_of_quiet (h1.2.1 htt) hq).1
  unfold observeEnter
  split
  · exact ⟨h2.1, h3, h2.2.trans h1.2.2⟩
  · exact ⟨h2.1, h3, h2.2.trans h1.2.2⟩
  · exact h1
  · exact h1
  · exact h1

theorem observeExit_cancellable (h t : Nat) (w : World) (t' : Nat) (ht : t' ≠ t)
    (hc : Cancellable h t w) :
    Cancellable h t (observeExit w t') ∧
      (observeExit w t').log.count (Effect.teardownRan h) =
        w.log.count (Effect.teardownRan h) := by
  unfold observeExit
  split
  · refine ⟨⟨hc.1, ?_, ?_⟩, ?_⟩
    · have := hc.2.1
      simp only
      omega
    · rcases hc.2.2 with hnp | hst
      · left
        intro tm htm
        simp only [List.mem_append, List.mem_singleton] at htm
        rcases htm with htm | htm
        · exact hnp tm htm
        · subst htm
          have := hc.2.1
          simp only
          omega
      · right
        have : t ≠ t' := fun e => ht e.symm
        simp only [update, this, if_false]
        exact hst
    · simp only
      rw [count_emit]
      simp
  · exact ⟨hc, rfl⟩

theorem timerFired_cancellable (h t : Nat) (w : World) (handle : Nat) (hh : handle ≠ h)
    (hc : Cancellable h t w) :
    Cancellable h t (timerFired w handle) ∧
      (timerFired w handle).log.count (Effect.teardownRan h) =
        w.log.count (Effect.teardownRan h) := by
  unfold timerFired
  split
  · rename_i tm hfind
    have hpred := List.find?_some hfind
    have hhandle : tm.handle = handle := by simpa using hpred
    have hne : tm.handle ≠ h := by rw [hhandle]; exact hh
    have hdrop : Cancellable h t ((w.dropTimer handle).emit (Effect.teardownRan tm.handle)) := by
      refine ⟨hc.1, hc.2.1, ?_⟩
      rcases hc.2.2 with hnp | hst
      · left
        intro x hx
        simp only [World.emit, World.dropTimer, List.mem_filter] at hx
        exact hnp x hx.1
      · right
        exact hst
    have h2 := cancellable_of_quiet hdrop (teardown_quiet (w.dropTimer handle) tm)
    refine ⟨h2.1, h2.2.trans ?_⟩
    rw [count_emit]
    simp [World.dropTimer, hne]
  · exact ⟨hc, rfl⟩

theorem step_cancellable (h t : Nat) (w : World) (e : Event) (he : e.keepsTimer t h = true)
    (hc : Cancellable h t w) :
    Cancellable h t (step w e) ∧
      (step w e).log.count (Effect.teardownRan h) = w.log.count (Effect.teardownRan h) := by
  cases e with
  | enter t' env =>
    have := observeEnter_cancellable h t w t' env hc
    exact ⟨this.1, this.2.2⟩
  | exit t' =>
    have ht : t' ≠ t := by simpa [Event.keepsTimer] using he
    exact observeExit_cancellable h t w t' ht hc
  | timerFired handle =>
    have hh : handle ≠ h := by simpa [Event.keepsTimer] using he
    exact timerFired_cancellable h t w handle hh hc
  | loadSettled t' a => exact cancellable_of_quiet hc (loadSettled_quiet w t' a)
  | fbxLoadFinished v f => exact cancellable_of_quiet hc (fbxLoadFinished_quiet w v f)
  | renderPage items => exact cancellable_of_quiet hc (renderPage_quiet w items)
  | folderPickStart => exact cancellable_of_quiet hc (folderPickStart_quiet w)
  | showFullscreen m env => exact cancellable_of_quiet hc (showFullscreen_quiet w m env)
  | exitFullscreen => exact cancellable_of_quiet hc (exitFullscreen_quiet w _)

theorem run_cancellable (h t : Nat) (events : List Event) :
    ∀ w : World, (∀ e ∈ events, e.keepsTimer t h = true) → Cancellable h t w →
      Cancellable h t (run w events) ∧
        (run w events).log.count (Effect.teardownRan h) =
          w.log.count (Effect.teardownRan h) := by
  induction events with
  | nil => intro w _ hc; exact ⟨hc, rfl⟩
  | cons e rest ih =>
    intro w he hc
    have h1 := step_cancellable h t w e (he e (List.mem_cons_self _ _)) hc
    have h2 := ih (step w e) (fun x hx => he x (List.mem_cons_of_mem _ hx)) h1.1
    simp only [run, List.foldl_cons] at h2 ⊢
    exact ⟨h2.1, h2.2.trans h1.2⟩

/-- Re-entry after one exit: for a tile in state `'loaded'` (with its model),
an exit event sets a timer for the teardown and stores its handle for the
tile. When the enter event is handled next, the timer is cleared: the tile's state is still
`'loaded'`, no asset record (so no `thumbnailDataUrl`), viewer or tile field
has changed, and the only effects are the `setTimeout` and the `clearTimeout`
of that timer. More generally, whatever callbacks run between the exit and the
enter event, other than a further exit event of the same tile and the firing
of that timer, and whatever callbacks run after the enter event, the teardown
callback of that timer never runs. -/
theorem reenter_before_timer_cancels_teardown (w : World) (t m : Nat) (env : LoadEnv)
    (between events : List Event)
    (hstate : w.tileLoadingStates t = some LoadingState.loaded)
    (hmodel : (w.tiles t).model = some m)
    (hbetween : ∀ e ∈ between, e.keepsTimer t (w.lastTimer + 1) = true) :
    (⟨w.lastTimer + 1, t, m⟩ ∈ (observeExit w t).timers ∧
        (observeExit w t).tileCleanupTimeouts t = some (w.lastTimer + 1)) ∧
      (observeEnter (observeExit w t) t env).tileLoadingStates t = some LoadingState.loaded ∧
      (observeEnter (observeExit w t) t env).models = w.models ∧
      (observeEnter (observeExit w t) t env).viewers = w.viewers ∧
      (observeEnter (observeExit w t) t env).tiles = w.tiles ∧
      (observeEnter (observeExit w t) t env).activeFbxViewers = w.activeFbxViewers ∧
      (observeEnter (observeExit w t) t env).log =
        w.log ++ [Effect.setTimeout (w.lastTimer + 1), Effect.clearTimeout (w.lastTimer + 1)] ∧
      (∀ tm ∈ (observeEnter (run (observeExit w t) between) t env).timers,
        tm.handle ≠ w.lastTimer + 1) ∧
      (run (observeEnter (run (observeExit w t) between) t env) events).log.count
          (Effect.teardownRan (w.lastTimer + 1)) =
        w.log.count (Effect.teardownRan (w.lastTimer + 1)) := by
  have hexit := observeExit_of_loaded w t m hstate hmodel
  have hstate' : (observeExit w t).tileLoadingStates t = some LoadingState.loaded := by
    rw [hexit]; exact hstate
  have henter : observeEnter (observeExit w t) t env = cancelPendingCleanup (observeExit w t) t :=
    observeEnter_of_loading_or_loaded _ t env (Or.inr hstate')
  have hcpc : cancelPendingCleanup (observeExit w t) t =
      ((clearTimeout (observeExit w t) (w.lastTimer + 1)).deleteCleanupTimeout t) := by
    unfold cancelPendingCleanup
    have : (observeExit w t).tileCleanupTimeouts t = some (w.lastTimer + 1) := by
      rw [hexit]; simp
    rw [this]
    simp
  have hstart : Cancellable (w.lastTimer + 1) t (observeExit w t) ∧
      (observeExit w t).log.count (Effect.teardownRan (w.lastTimer + 1)) =
        w.log.count (Effect.teardownRan (w.lastTimer + 1)) := by
    rw [hexit]
    refine ⟨⟨by omega, Nat.le_refl _, Or.inr (by simp)⟩, ?_⟩
    simp only
    rw [count_emit]
    simp
  have hmid := run_cancellable (w.lastTimer + 1) t between (observeExit w t) hbetween hstart.1
  have hback := observeEnter_cancellable (w.lastTimer + 1) t (run (observeExit w t) between) t
    env hmid.1
  have hcancelled := hback.2.1 rfl
  have hrun := run_cancelled (w.lastTimer + 1) events _ hcancelled
  refine ⟨⟨?_, ?_⟩, ?_, ?_, ?_, ?_, ?_, ?_, hcancelled.1, ?_⟩
  · rw [hexit]; simp
  · rw [hexit]; simp
  · rw [henter, hcpc]; simp [World.deleteCleanupTimeout, clearTimeout, World.emit, hexit, hstate]
  · rw [henter, hcpc]; simp [World.deleteCleanupTimeout, clearTimeout, World.emit, hexit]
  · rw [henter, hcpc]; simp [World.deleteCleanupTimeout, clearTimeout, World.emit, hexit]
  · rw [henter, hcpc]; simp [World.deleteCleanupTimeout, clearTimeout, World.emit, hexit]
  · rw [henter, hcpc]; simp [World.deleteCleanupTimeout, clearTimeout, World.emit, hexit]
  · rw [henter, hcpc]; simp [World.deleteCleanupTimeout, clearTimeout, World.emit, hexit]
  · rw [hrun.2, hback.2.2, hmid.2, hstart.2]

/-- Re-entry after one exit at the sample page: tile 1 is loaded and leaves
the viewport; tile 0 enters and an unrelated timer handle fires before tile 1
comes back; firing the handle of tile 1's timer afterwards runs no
teardown. -/
theorem reenter_before_timer_cancels_teardown_witness :
    loadedPage.tileLoadingStates 1 = some LoadingState.loaded ∧
      (loadedPage.tiles 1).model = some 1 ∧
      (observeEnter (observeExit loadedPage 1) 1 (envOk "blob:2")).tileLoadingStates 1 =
        some LoadingState.loaded ∧
      (run
          (observeEnter
            (run (observeExit loadedPage 1) [.enter 0 (envOk "blob:3"), .timerFired 7]) 1
            (envOk "blob:2"))
          [.timerFired 1]).log.count (Effect.teardownRan 1) = 0 :=
  ⟨by decide, by decide,
    (reenter_before_timer_cancels_teardown loadedPage 1 1 (envOk "blob:2")
      [.enter 0 (envOk "blob:3"), .timerFired 7] [.timerFired 1]
      (by decide) (by decide) (by decide)).2.1,
    (reenter_before_timer_cancels_teardown loadedPage 1 1 (envOk "blob:2")
      [.enter 0 (envOk "blob:3"), .timerFired 7] [.timerFired 1]
      (by decide) (by decide) (by decide)).2.2.2.2.2.2.2.2.trans (by decide)⟩

/-- C7 on the code: two exit events without an enter between them leave two
timers pending for the tile; the enter event that follows clears only the
second one, and the first one fires after it: its teardown callback runs,
clears the thumbnail and sets the state to `'unloaded'`. -/
theorem double_exit_leaves_uncancelled_timer :
    (run loadedPage [.exit 1, .exit 1]).timers =
        [⟨1, 1, 1⟩, ⟨2, 1, 1⟩] ∧
      (run loadedPage [.exit 1, .exit 1, .enter 1 (envOk "blob:2")]).timers = [⟨1, 1, 1⟩] ∧
      (run loadedPage
          [.exit 1, .exit 1, .enter 1 (envOk "blob:2"), .timerFired 1]).log.count
        (Effect.teardownRan 1) = 1 ∧
      (run loadedPage
          [.exit 1, .exit 1, .enter 1 (envOk "blob:2"), .timerFired 1]).tileLoadingStates 1 =
        some LoadingState.unloaded ∧
      ((run loadedPage
          [.exit 1, .exit 1, .enter 1 (envOk "blob:2"), .timerFired 1]).models
        1).thumbnailDataUrl = none := by
  decide

/-- C10 on the code: the font tile 2 is `'loading'`; whether `loadFont`
rejects or `URL.createObjectURL` throws, the error is caught inside
`loadTileContent`, its promise is fulfilled, and the recorded state becomes
`'loaded'`. -/
theorem failed_load_is_recorded_as_loaded :
    (run samplePage [.enter 2 (envOk "blob:1")]).tileLoadingStates 2 =
        some LoadingState.loading ∧
      (run samplePage
          [.enter 2 (envOk "blob:1"), .loadSettled 2 (.error "NetworkError")]).tileLoadingStates
        2 = some LoadingState.loaded ∧
      (run samplePage [.enter 2 envThrows]).tileLoadingStates 2 = some LoadingState.loading ∧
      (run samplePage [.enter 2 envThrows, .loadSettled 2 (.ok "")]).tileLoadingStates 2 =
        some LoadingState.loaded := by
  decide

/-! ## Disposal of FBX viewers -/

theorem emit_consistent (w : World) (e : Effect) (he : ∀ v, e ≠ Effect.disposeRan v)
    (h : DisposalConsistent w) : DisposalConsistent (w.emit e) := by
  refine ⟨h.1, fun v => ?_⟩
  rw [count_emit]
  simp only [he v, if_false, Nat.add_zero]
  exact h.2 v

theorem setViewer_consistent (w : World) (v : Nat) (old new : FbxViewer)
    (hold : w.viewers v = some old) (hflag : new.isDisposed = old.isDisposed)
    (h : DisposalConsistent w) : DisposalConsistent (w.setViewer v new) := by
  refine ⟨fun x hx => ?_, fun x => ?_⟩
  · by_cases hxv : x = v
    · subst hxv
      have := h.1 x hx
      rw [hold] at this
      exact absurd this (by simp)
    · simp only [World.setViewer, update, hxv, if_false]
      exact h.1 x hx
  · by_cases hxv : x = v
    · subst hxv
      have := h.2 x
      rw [hold] at this
      simp only [World.setViewer, update, if_true, disposedCount, hflag]
      simpa [disposedCount] using this
    · simp only [World.setViewer, update, hxv, if_false]
      exact h.2 x

theorem fbxViewerDispose_consistent (w : World) (v : Nat) (h : DisposalConsistent w) :
    DisposalConsistent (fbxViewerDispose w v) := by
  unfold fbxViewerDispose
  split
  · exact h
  · rename_i viewer hv
    split
    · exact emit_consistent w _ (by simp) h
    · rename_i hnd
      refine ⟨fun x hx => ?_, fun x => ?_⟩
      · by_cases hxv : x = v
        · subst hxv
          have := h.1 x hx
          rw [hv] at this
          exact absurd this (by simp)
        · simp only [World.setViewer, World.emit, update, hxv, if_false]
          exact h.1 x hx
      · have hold := h.2 x
        by_cases hxv : x = v
        · subst hxv
          rw [hv] at hold
          simp only [disposedCount, hnd] at hold
          simp only [World.setViewer, update, if_true, disposedCount]
          rw [count_emit, count_emit]
          simp [hold]
        · have hne : Effect.disposeRan v ≠ Effect.disposeRan x := by
            intro hc; injection hc with hc; exact hxv hc.symm
          simp only [World.setViewer, update, hxv, if_false]
          rw [count_emit, count_emit]
          simp [hne, hold, World.emit]

theorem fbxViewerLoadModel_consistent (w : World) (v : Nat) (h : DisposalConsistent w) :
    DisposalConsistent (fbxViewerLoadModel w v) := by
  unfold fbxViewerLoadModel
  split
  · exact h
  · rename_i viewer hv
    split
    · exact h
    · exact setViewer_consistent w v viewer _ hv rfl h

theorem newFbxViewer_consistent (w : World) (o : Option Nat) (h : DisposalConsistent w) :
    DisposalConsistent (newFbxViewer w o) := by
  unfold newFbxViewer
  refine ⟨fun x hx => ?_, fun x => ?_⟩
  · have hne : x ≠ w.nextViewer := by
      simp only at hx
      omega
    simp only [World.setViewer, World.emit, update, hne, if_false]
    apply h.1
    simp only at hx
    omega
  · have hold := h.2 x
    simp only [World.setViewer]
    rw [count_emit]
    by_cases hxv : x = w.nextViewer
    · subst hxv
      have hnone := h.1 w.nextViewer (Nat.le_refl _)
      rw [hnone] at hold
      simp [update, disposedCount, hold]
    · simp [update, hxv, hold, World.emit]

theorem registerFbxViewer_consistent (w : World) (v : Nat) (h : DisposalConsistent w) :
    DisposalConsistent (registerFbxViewer w v) := by
  unfold registerFbxViewer
  split <;> exact h

theorem disposeFbxViewer_consistent (w : World) (v : Nat) (h : DisposalConsistent w) :
    DisposalConsistent (disposeFbxViewer w v) := by
  unfold disposeFbxViewer
  split
  · exact fbxViewerDispose_consistent w v h
  · exact h

theorem foldl_consistent {α : Type} (f : World → α → World)
    (hf : ∀ w a, DisposalConsistent w → DisposalConsistent (f w a)) (l : List α) :
    ∀ w, DisposalConsistent w → DisposalConsistent (l.foldl f w) := by
  induction l with
  | nil => intro w h; exact h
  | cons a rest ih => intro w h; exact ih (f w a) (hf w a h)

theorem disposeAllFbxViewers_consistent (w : World) (h : DisposalConsistent w) :
    DisposalConsistent (disposeAllFbxViewers w) :=
  foldl_consistent disposeFbxViewer disposeFbxViewer_consistent _ w h

theorem revokeBlobUrl_consistent (w : World) (modelId : String) (h : DisposalConsistent w) :
    DisposalConsistent (revokeBlobUrl w modelId) := by
  unfold revokeBlobUrl
  split
  · split
    · exact emit_consistent w _ (by simp) h
    · exact h
  · exact h

theorem cleanupModel_consistent (w : World) (m : Nat) (h : DisposalConsistent w) :
    DisposalConsistent (cleanupModel w m) := by
  have h1 : DisposalConsistent (cleanupModelBlob w m) := by
    unfold cleanupModelBlob
    split
    · exact revokeBlobUrl_consistent w _ h
    · exact h
  unfold cleanupModel clearThumbnail
  split <;> exact h1

theorem cleanupTile_consistent (w : World) (t : Nat) (h : DisposalConsistent w) :
    DisposalConsistent (cleanupTile w t) := by
  have h1 : DisposalConsistent (cleanupTileViewer w t) := by
    unfold cleanupTileViewer
    split
    · exact disposeFbxViewer_consistent w _ h
    · exact h
  unfold cleanupTile cleanupTileModel
  split
  · exact cleanupModel_consistent _ _ h1
  · exact h1

theorem disposePreviousViewer_consistent (w : World) (t : Nat) (h : DisposalConsistent w) :
    DisposalConsistent (disposePreviousViewer w t) := by
  unfold disposePreviousViewer
  split
  · exact disposeFbxViewer_consistent _ _ (fbxViewerDispose_consistent w _ h)
  · exact h

theorem startTileFbxViewer_consistent (w : World) (t : Nat) (h : DisposalConsistent w) :
    DisposalConsistent (startTileFbxViewer w t) := by
  unfold startTileFbxViewer
  apply fbxViewerLoadModel_consistent
  apply registerFbxViewer_consistent
  exact newFbxViewer_consistent w (some t) h

theorem loadByType_consistent (w : World) (t m : Nat) (d : Bool) (h : DisposalConsistent w) :
    DisposalConsistent (loadByType w t m d).1 := by
  unfold loadByType
  split
  · exact h
  · split
    · exact startTileFbxViewer_consistent w t h
    · split
      · exact h
      · split
        · exact h
        · split
          · exact h
          · split <;> exact h

theorem loadTileContent_consistent (w : World) (t : Nat) (env : LoadEnv)
    (h : DisposalConsistent w) : DisposalConsistent (loadTileContent w t env).1 := by
  have h0 : DisposalConsistent (disposePreviousViewer (w.emit (Effect.loadTileContent t)) t) :=
    disposePreviousViewer_consistent _ t (emit_consistent w _ (by simp) h)
  unfold loadTileContent
  split
  · exact emit_consistent w _ (by simp) h
  · split
    · exact emit_consistent _ _ (by simp) h0
    · exact loadByType_consistent _ _ _ _ (emit_consistent _ _ (by simp) h0)

theorem loadSettled_consistent (w : World) (t : Nat) (a : Except String String)
    (h : DisposalConsistent w) : DisposalConsistent (loadSettled w t a) := by
  unfold loadSettled
  split
  · exact h
  · rename_i p hp
    have : DisposalConsistent (loadTileContentResume w p a).1 := by
      unfold loadTileContentResume
      split
      · exact h
      · exact h
      · split <;> exact h
      · exact h
    exact this

theorem observeEnter_consistent (w : World) (t : Nat) (env : LoadEnv)
    (h : DisposalConsistent w) : DisposalConsistent (observeEnter w t env) := by
  have h1 : DisposalConsistent (cancelPendingCleanup w t) := by
    unfold cancelPendingCleanup
    split
    · split
      · exact emit_consistent w _ (by simp) h
      · exact h
    · exact h
  have h2 : DisposalConsistent (startLoad (cancelPendingCleanup w t) t env) := by
    unfold startLoad
    exact loadTileContent_consistent ((cancelPendingCleanup w t).setLoadingState t _) t env h1
  unfold observeEnter
  split
  · exact h2
  · exact h2
  · exact h1
  · exact h1
  · exact h1

theorem observeExit_consistent (w : World) (t : Nat) (h : DisposalConsistent w) :
    DisposalConsistent (observeExit w t) := by
  unfold observeExit
  split
  · exact emit_consistent w _ (by simp) h
  · exact h

theorem teardown_consistent (w : World) (tm : PendingTimer) (h : DisposalConsistent w) :
    DisposalConsistent (teardown w tm) := by
  have h0 : DisposalConsistent (w.emit (Effect.teardownRan tm.handle)) :=
    emit_consistent w _ (by simp) h
  have h1 : DisposalConsistent (teardownBlob (w.emit (Effect.teardownRan tm.handle)) tm.model) := by
    unfold teardownBlob
    split
    · split
      · exact emit_consistent _ _ (by simp) h0
      · exact h0
    · exact h0
  have h2 : DisposalConsistent
      (teardownViewer (teardownBlob (w.emit (Effect.teardownRan tm.handle)) tm.model)
        tm.tile) := by
    unfold teardownViewer
    split
    · split
      · split
        · exact disposeFbxViewer_consistent _ _ (fbxViewerDispose_consistent _ _ h1)
        · exact h1
      · exact h1
    · exact h1
  unfold teardown clearThumbnail
  split <;> exact h2

theorem timerFired_consistent (w : World) (handle : Nat) (h : DisposalConsistent w) :
    DisposalConsistent (timerFired w handle) := by
  unfold timerFired
  split
  · exact teardown_consistent (w.dropTimer handle) _ h
  · exact h

theorem tileViewerOnError_consistent (w : World) (t : Nat) (h : DisposalConsistent w) :
    DisposalConsistent (tileViewerOnError w t) := by
  have h0 : DisposalConsistent (w.emit (Effect.reportAssetError (tileModelName w t))) :=
    emit_consistent w _ (by simp) h
  unfold tileViewerOnError onErrorCleanup
  split
  · exact disposeFbxViewer_consistent _ _ h0
  · exact h0

theorem fbxLoadFinished_consistent (w : World) (v : Nat) (failed : Bool)
    (h : DisposalConsistent w) : DisposalConsistent (fbxLoadFinished w v failed) := by
  unfold fbxLoadFinished
  split
  · exact h
  · rename_i viewer hv
    have h1 : DisposalConsistent (w.setViewer v { viewer with isLoading := false }) :=
      setViewer_consistent w v viewer _ hv rfl h
    split
    · exact h
    · split
      · unfold callOnError
        split
        · exact tileViewerOnError_consistent _ _ h1
        · exact h1
      · exact h1

theorem renderPage_consistent (w : World) (pageItems : List Nat) (h : DisposalConsistent w) :
    DisposalConsistent (renderPage w pageItems) := by
  unfold renderPage
  apply foldl_consistent appendTile (fun w _ hw => hw)
  exact foldl_consistent cleanupRenderedTile (fun w t hw => cleanupTile_consistent w t hw) _ w h

theorem folderPickStart_consistent (w : World) (h : DisposalConsistent w) :
    DisposalConsistent (folderPickStart w) :=
  disposeAllFbxViewers_consistent w h

theorem showFullscreen_consistent (w : World) (m : Nat) (env : FullscreenEnv)
    (h : DisposalConsistent w) : DisposalConsistent (showFullscreen w m env) := by
  unfold showFullscreen
  split
  · exact h
  · rename_i fileUrl _
    have h0 : DisposalConsistent (w.emit (Effect.createObjectURL fileUrl)) :=
      emit_consistent w _ (by simp) h
    unfold showByType
    split
    · exact h0
    · split
      · unfold startFullscreenFbxViewer
        apply fbxViewerLoadModel_consistent
        apply registerFbxViewer_consistent
        exact newFbxViewer_consistent _ none h0
      · split
        · exact h0
        · split
          · exact h0
          · split
            · exact h0
            · split
              · split <;> exact h0
              · exact h0

theorem revokeIfSet_consistent (w : World) (u : String) (h : DisposalConsistent w) :
    DisposalConsistent (revokeIfSet w u) := by
  unfold revokeIfSet
  split
  · exact emit_consistent w _ (by simp) h
  · exact h

theorem exitFullscreen_consistent (w : World) (d : Option FullscreenViewer)
    (h : DisposalConsistent w) : DisposalConsistent (exitFullscreen w d) := by
  unfold exitFullscreen
  split
  · exact h
  · rename_i d
    split
    · exact h
    · split
      · rename_i c _
        have h0 := emit_consistent w (Effect.cleanupCalled d.fileName) (by simp) h
        cases c with
        | revokeUrl u => exact revokeIfSet_consistent _ u h0
        | fbx v u => exact revokeIfSet_consistent _ u (disposeFbxViewer_consistent _ v h0)
        | audio u => exact revokeIfSet_consistent _ u h0
        | font u => exact revokeIfSet_consistent _ u h0
      · exact h

theorem step_consistent (w : World) (e : Event) (h : DisposalConsistent w) :
    DisposalConsistent (step w e) := by
  cases e with
  | enter t env => exact observeEnter_consistent w t env h
  | exit t => exact observeExit_consistent w t h
  | timerFired handle => exact timerFired_consistent w handle h
  | loadSettled t a => exact loadSettled_consistent w t a h
  | fbxLoadFinished v f => exact fbxLoadFinished_consistent w v f h
  | renderPage items => exact renderPage_consistent w items h
  | folderPickStart => exact folderPickStart_consistent w h
  | showFullscreen m env => exact showFullscreen_consistent w m env h
  | exitFullscreen => exact exitFullscreen_consistent w _ h

theorem run_consistent (events : List Event) :
    ∀ w : World, DisposalConsistent w → DisposalConsistent (run w events) := by
  induction events with
  | nil => intro w h; exact h
  | cons e rest ih => intro w h; exact ih (step w e) (step_consistent w e h)

theorem initial_consistent (models : Nat → Model) : DisposalConsistent (World.initial models) :=
  ⟨fun _ _ => rfl, fun _ => rfl⟩

theorem disposedCount_le_one (o : Option FbxViewer) : disposedCount o ≤ 1 := by
  cases o with
  | none => simp [disposedCount]
  | some viewer => simp only [disposedCount]; split <;> simp

/-- C8 as stated fails: when the teardown timer of a loaded FBX tile fires,
`dispose()` is invoked on the tile's viewer twice, once directly and once
through `memoryManager.disposeFbxViewer`. -/
theorem teardown_invokes_dispose_twice :
    (run samplePage fbxTeardownEvents).log =
        [ Effect.loadTileContent 0, Effect.createObjectURL "blob:1", Effect.newFbxViewer 0,
          Effect.setTimeout 1, Effect.teardownRan 1, Effect.disposeCalled 0,
          Effect.disposeRan 0, Effect.disposeCalled 0 ] ∧
      (run samplePage fbxTeardownEvents).log.count (Effect.disposeCalled 0) = 2 := by
  decide

/-- C8, amended: from the freshly loaded page, after every sequence of enter,
exit, timer, load, loader, re-render, folder-pick and full-view callbacks, the
body of `dispose()` behind its `isDisposed` guard has run at most once for
every FBX viewer: exactly once for a viewer that is disposed and never for any
other. -/
theorem dispose_body_runs_at_most_once (models : Nat → Model) (events : List Event) (v : Nat) :
    (run (World.initial models) events).log.count (Effect.disposeRan v) ≤ 1 ∧
      (run (World.initial models) events).log.count (Effect.disposeRan v) =
        disposedCount ((run (World.initial models) events).viewers v) := by
  have h := run_consistent events (World.initial models) (initial_consistent models)
  refine ⟨?_, h.2 v⟩
  rw [h.2 v]
  exact disposedCount_le_one _

/-! ## The full view -/

theorem LogAppends.same (p : Effect → Bool) (w : World) : LogAppends p w w :=
  ⟨[], by simp, by simp⟩

theorem LogAppends.chain {p : Effect → Bool} {a b c : World} (h1 : LogAppends p a b)
    (h2 : LogAppends p b c) : LogAppends p a c := by
  obtain ⟨s1, hs1, hp1⟩ := h1
  obtain ⟨s2, hs2, hp2⟩ := h2
  refine ⟨s1 ++ s2, by rw [hs2, hs1, List.append_assoc], ?_⟩
  intro e he
  rcases List.mem_append.1 he with he | he
  · exact hp1 e he
  · exact hp2 e he

theorem logAppends_of_eq (p : Effect → Bool) {w w' : World} (h : w'.log = w.log) :
    LogAppends p w w' :=
  ⟨[], by simp [h], by simp⟩

theorem emit_logAppends (p : Effect → Bool) (w : World) (e : Effect) (he : p e = true) :
    LogAppends p w (w.emit e) :=
  ⟨[e], rfl, by simpa using he⟩

theorem fbxViewerLoadModel_log (w : World) (v : Nat) : (fbxViewerLoadModel w v).log = w.log := by
  unfold fbxViewerLoadModel
  split
  · rfl
  · split <;> rfl

theorem registerFbxViewer_log (w : World) (v : Nat) : (registerFbxViewer w v).log = w.log := by
  unfold registerFbxViewer
  split <;> rfl

theorem startFullscreenFbxViewer_creates (w : World) :
    LogAppends Effect.isCreation w (startFullscreenFbxViewer w) := by
  refine ⟨[Effect.newFbxViewer w.nextViewer], ?_, by simp [Effect.isCreation]⟩
  unfold startFullscreenFbxViewer
  rw [fbxViewerLoadModel_log, registerFbxViewer_log]
  rfl

theorem showByType_creates (w : World) (m : Nat) (u : String) (f : Bool) :
    LogAppends Effect.isCreation w (showByType w m u f) := by
  unfold showByType
  split
  · exact logAppends_of_eq _ rfl
  · split
    · exact (startFullscreenFbxViewer_creates w).chain (logAppends_of_eq _ rfl)
    · split
      · exact logAppends_of_eq _ rfl
      · split
        · exact logAppends_of_eq _ rfl
        · split
          · exact logAppends_of_eq _ rfl
          · split
            · split
              · exact logAppends_of_eq _ rfl
              · exact LogAppends.same _ _
            · exact LogAppends.same _ _

theorem showFullscreen_creates (w : World) (m : Nat) (env : FullscreenEnv) :
    LogAppends Effect.isCreation w (showFullscreen w m env) := by
  unfold showFullscreen
  split
  · exact LogAppends.same _ _
  · exact (emit_logAppends _ w _ rfl).chain (showByType_creates _ _ _ _)

theorem fbxViewerDispose_releases (w : World) (v : Nat) :
    LogAppends (fun e => !e.isCreation) w (fbxViewerDispose w v) := by
  unfold fbxViewerDispose
  split
  · exact LogAppends.same _ _
  · split
    · exact emit_logAppends _ w _ rfl
    · exact (emit_logAppends _ w _ rfl).chain
        ((emit_logAppends _ _ (Effect.disposeRan v) rfl).chain (logAppends_of_eq _ rfl))

theorem disposeFbxViewer_releases (w : World) (v : Nat) :
    LogAppends (fun e => !e.isCreation) w (disposeFbxViewer w v) := by
  unfold disposeFbxViewer
  split
  · exact (fbxViewerDispose_releases w v).chain (logAppends_of_eq _ rfl)
  · exact LogAppends.same _ _

theorem revokeIfSet_releases (w : World) (u : String) :
    LogAppends (fun e => !e.isCreation) w (revokeIfSet w u) := by
  unfold revokeIfSet
  split
  · exact emit_logAppends _ w _ rfl
  · exact LogAppends.same _ _

theorem runCleanup_releases (w : World) (c : Cleanup) :
    LogAppends (fun e => !e.isCreation) w (runCleanup w c) := by
  cases c with
  | revokeUrl u => exact revokeIfSet_releases w u
  | fbx v u => exact (disposeFbxViewer_releases w v).chain (revokeIfSet_releases _ u)
  | audio u => exact revokeIfSet_releases w u
  | font u => exact revokeIfSet_releases w u

/-- C9 as stated fails: opening the full view of the image while the full
view of the FBX model is open invokes no cleanup; the FBX viewer of the first
view is still registered and not disposed, its object URL is not revoked, and
only the second view's descriptor is left in `currentFullscreenViewer`. -/
theorem second_full_view_leaves_first_alive :
    (run (World.initial sampleModels) twoFullViews).log =
        [ Effect.createObjectURL "blob:a", Effect.newFbxViewer 0,
          Effect.createObjectURL "blob:b" ] ∧
      (run (World.initial sampleModels) twoFullViews).activeFbxViewers = [0] ∧
      (run (World.initial sampleModels) twoFullViews).viewers 0 =
        some { isLoading := true, isDisposed := false, onErrorTile := none } ∧
      (run (World.initial sampleModels) twoFullViews).currentFullscreenViewer =
        some { type := none, fileName := "b.png", cleanup := some (.revokeUrl "blob:b") } := by
  decide

/-- C9, amended: `showFullscreen(b)` after `showFullscreen(a)` appends only
creations of object URLs and FBX viewers to the effects: it invokes no cleanup,
revokes no URL and disposes no viewer of `a`'s view. When `a`'s view (not a
video, with a `cleanup`) is first dismissed with
`exitFullscreen(currentFullscreenViewer)`, as `navigateFullscreen` does, its
`cleanup` is called and everything it releases comes before anything that
`showFullscreen(b)` creates. -/
theorem full_view_cleanup_only_on_dismissal (w : World) (a b : Nat)
    (envA envB : FullscreenEnv) (d : FullscreenViewer) (c : Cleanup)
    (hd : (showFullscreen w a envA).currentFullscreenViewer = some d)
    (hvideo : d.type ≠ some "video") (hc : d.cleanup = some c) :
    LogAppends Effect.isCreation w (showFullscreen (showFullscreen w a envA) b envB) ∧
      ∃ released created,
        (showFullscreen (step (showFullscreen w a envA) Event.exitFullscreen) b envB).log =
          (showFullscreen w a envA).log ++ [Effect.cleanupCalled d.fileName] ++ released ++
            created ∧
        (∀ e ∈ released, e.isCreation = false) ∧ ∀ e ∈ created, e.isCreation = true := by
  refine ⟨(showFullscreen_creates w a envA).chain (showFullscreen_creates _ b envB), ?_⟩
  have hexit : step (showFullscreen w a envA) Event.exitFullscreen =
      runCleanup ((showFullscreen w a envA).emit (Effect.cleanupCalled d.fileName)) c := by
    simp [step, hd, exitFullscreen, hvideo, hc]
  obtain ⟨released, hrel, hrelp⟩ :=
    runCleanup_releases ((showFullscreen w a envA).emit (Effect.cleanupCalled d.fileName)) c
  obtain ⟨created, hcr, hcrp⟩ :=
    showFullscreen_creates (step (showFullscreen w a envA) Event.exitFullscreen) b envB
  refine ⟨released, created, ?_, ?_, hcrp⟩
  · rw [hcr, hexit, hrel]
    simp [World.emit]
  · intro e he
    simpa using hrelp e he

/-- C9, amended, at the sample assets: the full view of the FBX model 0 is
open when the image 1 is opened. -/
theorem full_view_cleanup_only_on_dismissal_witness :
    (showFullscreen (World.initial sampleModels) 0
        (fullscreenEnvOk "blob:a")).currentFullscreenViewer =
        some ⟨none, "a.fbx", some (.fbx 0 "blob:a")⟩ ∧
      LogAppends Effect.isCreation (World.initial sampleModels)
        (showFullscreen
          (showFullscreen (World.initial sampleModels) 0 (fullscreenEnvOk "blob:a")) 1
          (fullscreenEnvOk "blob:b")) :=
  ⟨by decide,
    (full_view_cleanup_only_on_dismissal (World.initial sampleModels) 0 1
      (fullscreenEnvOk "blob:a") (fullscreenEnvOk "blob:b")
      ⟨none, "a.fbx", some (.fbx 0 "blob:a")⟩ (.fbx 0 "blob:a")
      (by decide) (by decide) rfl).1⟩

/-! ## The tile observer: states `'error'` and not `'loaded'` -/

/-- C11 on the code: the FBX tile 0 is in state `'error'`; the enter event
leaves the state `'error'`, calls no `loadTileContent` and records no pending
load: its effects and its loading states are those of the page before. -/
theorem enter_on_error_does_not_retry :
    errorPage.tileLoadingStates 0 = some LoadingState.error ∧
      (observeEnter errorPage 0 (envOk "blob:2")).tileLoadingStates 0 =
        some LoadingState.error ∧
      (observeEnter errorPage 0 (envOk "blob:2")).loads 0 = none ∧
      (observeEnter errorPage 0 (envOk "blob:2")).log = errorPage.log ∧
      (observeEnter errorPage 0 (envOk "blob:2")).log.count (Effect.loadTileContent 0) = 1 := by
  decide

/-- C12: for a tile whose recorded state is not `'loaded'` (no state,
`'unloaded'`, `'loading'` or `'error'`), the exit branch of the observer
changes nothing at all: the page afterwards is the page before, so no timer is
set and neither the tile's state nor any field of its model changes. -/
theorem exit_on_not_loaded_is_noop (w : World) (t : Nat)
    (h : w.tileLoadingStates t ≠ some LoadingState.loaded) : observeExit w t = w := by
  unfold observeExit
  split
  · rename_i hstate
    exact absurd hstate h
  · rfl

/-- C12 at the sample page: tile 1 is `'loading'` when it leaves the
viewport. -/
theorem exit_on_not_loaded_is_noop_witness :
    loadingPage.tileLoadingStates 1 = some LoadingState.loading ∧
      observeExit loadingPage 1 = loadingPage :=
  ⟨by decide, exit_on_not_loaded_is_noop loadingPage 1 (by decide)⟩

/-! ## The asset handler registry -/

theorem getHandlerLoop_eq_none (t : String) (l : List Handler) :
    getHandlerLoop t l = none ↔ ∀ h ∈ l, h.canHandle t = false := by
  induction l with
  | nil => simp [getHandlerLoop]
  | cons a rest ih =>
    simp only [getHandlerLoop, List.mem_cons, forall_eq_or_imp]
    by_cases ha : a.canHandle t = true
    · simp [ha]
    · simp only [ha, Bool.false_eq_true, if_false, ih]
      simp [ha]

theorem getHandlerLoop_eq_some (t : String) (l : List Handler) (h : Handler) :
    getHandlerLoop t l = some h ↔
      ∃ before after, l = before ++ h :: after ∧ h.canHandle t = true ∧
        ∀ x ∈ before, x.canHandle t = false := by
  induction l with
  | nil => simp [getHandlerLoop]
  | cons a rest ih =>
    simp only [getHandlerLoop]
    by_cases ha : a.canHandle t = true
    · simp only [ha, if_true, Option.some.injEq]
      constructor
      · intro hah
        subst hah
        exact ⟨[], rest, rfl, ha, by simp⟩
      · rintro ⟨before, after, hl, hh, hbefore⟩
        cases before with
        | nil =>
          simp only [List.nil_append, List.cons.injEq] at hl
          exact hl.1
        | cons b bs =>
          simp only [List.cons_append, List.cons.injEq] at hl
          have := hbefore b (List.mem_cons_self _ _)
          rw [← hl.1, ha] at this
          exact absurd this (by simp)
    · simp only [ha, Bool.false_eq_true, if_false, ih]
      constructor
      · rintro ⟨before, after, hl, hh, hbefore⟩
        refine ⟨a :: before, after, by simp [hl], hh, ?_⟩
        intro x hx
        rcases List.mem_cons.1 hx with hx | hx
        · subst hx; simpa using ha
        · exact hbefore x hx
      · rintro ⟨before, after, hl, hh, hbefore⟩
        cases before with
        | nil =>
          simp only [List.nil_append, List.cons.injEq] at hl
          rw [hl.1] at ha
          exact absurd hh ha
        | cons b bs =>
          simp only [List.cons_append, List.cons.injEq] at hl
          exact ⟨bs, after, hl.2, hh, fun x hx => hbefore x (List.mem_cons_of_mem _ hx)⟩

/-- C13: the handler list is `[Model3D, Image, Document, Video, Audio, Font]`;
for every file type `t`, `getHandler(t)` is the handler `h` exactly when `h`
is the first handler of that list with `canHandle(t)` true (every handler
before it answers false), it is `null` exactly when no handler of the list
answers true, and `isSupported(t)` is true exactly when `getHandler(t)` is
not `null`. -/
theorem getHandler_is_first_match (t : String) :
    AssetHandlerFactory.handlers =
        [ Handler.Model3DHandler, Handler.ImageHandler, Handler.DocumentHandler,
          Handler.VideoHandler, Handler.AudioHandler, Handler.FontHandler ] ∧
      (∀ h, AssetHandlerFactory.getHandler t = some h ↔
        ∃ before after, AssetHandlerFactory.handlers = before ++ h :: after ∧
          h.canHandle t = true ∧ ∀ x ∈ before, x.canHandle t = false) ∧
      (AssetHandlerFactory.getHandler t = none ↔
        ∀ h ∈ AssetHandlerFactory.handlers, h.canHandle t = false) ∧
      (AssetHandlerFactory.isSupported t = true ↔ AssetHandlerFactory.getHandler t ≠ none) := by
  refine ⟨rfl, fun h => getHandlerLoop_eq_some t _ h, getHandlerLoop_eq_none t _, ?_⟩
  unfold AssetHandlerFactory.isSupported
  cases AssetHandlerFactory.getHandler t <;> simp

theorem supportedTypes_disjoint (a b : Handler) (hab : a ≠ b) (x : String)
    (ha : x ∈ a.supportedTypes) : x ∉ b.supportedTypes := by
  cases a <;> cases b <;> first
    | exact absurd rfl hab
    | (simp only [Handler.supportedTypes, List.mem_cons, List.mem_singleton,
        List.not_mem_nil, or_false] at ha ⊢
       rcases ha with h | h | h | h | h | h | h | h | h <;> subst h <;> decide)
    | (simp only [Handler.supportedTypes, List.mem_cons, List.mem_singleton,
        List.not_mem_nil, or_false] at ha ⊢
       rcases ha with h | h | h | h | h | h | h | h <;> subst h <;> decide)
    | (simp only [Handler.supportedTypes, List.mem_cons, List.mem_singleton,
        List.not_mem_nil, or_false] at ha ⊢
       rcases ha with h | h | h | h | h | h <;> subst h <;> decide)
    | (simp only [Handler.supportedTypes, List.mem_cons, List.mem_singleton,
        List.not_mem_nil, or_false] at ha ⊢
       rcases ha with h | h | h | h <;> subst h <;> decide)
    | (simp only [Handler.supportedTypes, List.mem_cons, List.mem_singleton,
        List.not_mem_nil, or_false] at ha ⊢
       subst ha; decide)

theorem canHandle_unique (t : String) (h1 h2 : Handler) (c1 : h1.canHandle t = true)
    (c2 : h2.canHandle t = true) : h1 = h2 := by
  by_contra hne
  have m1 : t ∈ h1.supportedTypes := by simpa [Handler.canHandle] using c1
  have m2 : t ∈ h2.supportedTypes := by simpa [Handler.canHandle] using c2
  exact supportedTypes_disjoint h1 h2 hne t m1 m2

theorem getHandlerLoop_of_mem (t : String) (h : Handler) (c : h.canHandle t = true) :
    ∀ l : List Handler, h ∈ l → getHandlerLoop t l = some h := by
  intro l
  induction l with
  | nil => intro hm; simp at hm
  | cons a rest ih =>
    intro hm
    simp only [getHandlerLoop]
    by_cases ha : a.canHandle t = true
    · simp only [ha, if_true]
      rw [canHandle_unique t a h ha c]
    · simp only [ha, Bool.false_eq_true, if_false]
      rcases List.mem_cons.1 hm with hm | hm
      · subst hm; exact absurd c ha
      · exact ih hm

/-- C14: for every file type `t`, two handlers that both answer
`canHandle(t) = true` are the same handler; the `supportedTypes` lists of two
different handlers have no element in common; and the handler found for `t`
is the same for every order of the six handlers. -/
theorem at_most_one_handler_claims_type (t : String) (h1 h2 : Handler)
    (c1 : h1.canHandle t = true) (c2 : h2.canHandle t = true) :
    h1 = h2 ∧
      (∀ a b : Handler, a ≠ b → ∀ x ∈ a.supportedTypes, x ∉ b.supportedTypes) ∧
      ∀ order : List Handler, order.Perm AssetHandlerFactory.handlers →
        getHandlerLoop t order = AssetHandlerFactory.getHandler t := by
  refine ⟨canHandle_unique t h1 h2 c1 c2, supportedTypes_disjoint, ?_⟩
  intro order hperm
  have hall : ∀ h : Handler, h ∈ AssetHandlerFactory.handlers := by
    intro h; cases h <;> decide
  rw [getHandlerLoop_of_mem t h1 c1 order ((hperm.mem_iff).2 (hall h1))]
  exact (getHandlerLoop_of_mem t h1 c1 _ (hall h1)).symm

/-- C14 at the type `fbx`, which only `Model3DHandler` claims: the reversed
handler list finds the same handler. -/
theorem at_most_one_handler_claims_type_witness :
    Handler.Model3DHandler.canHandle "fbx" = true ∧
      getHandlerLoop "fbx" AssetHandlerFactory.handlers.reverse =
        AssetHandlerFactory.getHandler "fbx" :=
  ⟨by decide,
    (at_most_one_handler_claims_type "fbx" Handler.Model3DHandler Handler.Model3DHandler
      (by decide) (by decide)).2.2 AssetHandlerFactory.handlers.reverse
      (List.reverse_perm _)⟩

/-- C15 as stated fails: for an asset whose type no handler claims, and for an
asset whose handler's load rejects, the promises of `loadThumbnail` and
`loadFullscreen` are rejected. -/
theorem factory_load_rejects :
    AssetHandlerFactory.loadThumbnail handlersSucceed unclaimedModel =
        Settled.rejected "No handler found for type: xyz" ∧
      AssetHandlerFactory.loadFullscreen handlersSucceed unclaimedModel =
        Settled.rejected "No handler found for type: xyz" ∧
      AssetHandlerFactory.loadThumbnail handlersFail (sampleModels 0) =
        Settled.rejected "TypeError" ∧
      AssetHandlerFactory.loadFullscreen handlersFail (sampleModels 0) =
        Settled.rejected "TypeError" := by
  decide

/-- C15, amended: the promise of `loadThumbnail` (and of `loadFullscreen`) is
fulfilled exactly when a handler claims `model.subtype || model.type` and that
handler's own promise is fulfilled, and then with the handler's value; when no
handler claims the type it is rejected with `No handler found for type: ...`,
and when the handler's promise is rejected it is rejected with the same error.
No failure is turned into a fulfilled outcome. -/
theorem factory_load_settles_as_handler (thumbLoad : Handler → Model → Settled Unit)
    (fullLoad : Handler → Model → Settled FullscreenViewer) (model : Model) :
    (∀ v, AssetHandlerFactory.loadThumbnail thumbLoad model = Settled.fulfilled v ↔
        ∃ h, AssetHandlerFactory.getHandler model.fileType = some h ∧
          thumbLoad h model = Settled.fulfilled v) ∧
      (∀ v, AssetHandlerFactory.loadFullscreen fullLoad model = Settled.fulfilled v ↔
        ∃ h, AssetHandlerFactory.getHandler model.fileType = some h ∧
          fullLoad h model = Settled.fulfilled v) ∧
      (AssetHandlerFactory.getHandler model.fileType = none →
        AssetHandlerFactory.loadThumbnail thumbLoad model =
            Settled.rejected ("No handler found for type: " ++ model.fileType) ∧
          AssetHandlerFactory.loadFullscreen fullLoad model =
            Settled.rejected ("No handler found for type: " ++ model.fileType)) ∧
      (∀ h message, AssetHandlerFactory.getHandler model.fileType = some h →
        (thumbLoad h model = Settled.rejected message →
          AssetHandlerFactory.loadThumbnail thumbLoad model = Settled.rejected message) ∧
        (fullLoad h model = Settled.rejected message →
          AssetHandlerFactory.loadFullscreen fullLoad model = Settled.rejected message)) := by
  unfold AssetHandlerFactory.loadThumbnail AssetHandlerFactory.loadFullscreen
  cases hg : AssetHandlerFactory.getHandler model.fileType with
  | none => simp
  | some h =>
    refine ⟨?_, ?_, by simp, ?_⟩
    · intro v
      cases ht : thumbLoad h model <;> simp [ht]
    · intro v
      cases hf : fullLoad h model <;> simp [hf]
    · intro h' message hh'
      injection hh' with hh'
      subst hh'
      constructor
      · intro ht; simp [ht]
      · intro hf; simp [hf]

/-! ## The memory manager: blob URLs -/

theorem lookup_mapDelete_self (map : List (String × String)) (key : String) :
    (mapDelete map key).lookup key = none := by
  induction map with
  | nil => rfl
  | cons p rest ih =>
    obtain ⟨k, v⟩ := p
    by_cases hk : k = key
    · subst hk
      simpa [mapDelete] using ih
    · have hk' : ¬ (key == k) = true := by
        simp only [beq_iff_eq]
        exact fun e => hk e.symm
      simp only [mapDelete, List.filter_cons, bne_iff_ne, ne_eq, hk, not_false_eq_true,
        decide_True, if_true, List.lookup_cons, hk']
      simpa [mapDelete] using ih

theorem filter_key_mapDelete (map : List (String × String)) (key : String) :
    (mapDelete map key).filter (fun p => p.1 == key) = [] := by
  simp only [mapDelete, List.filter_filter, List.filter_eq_nil_iff]
  intro p _
  by_cases h : p.1 = key <;> simp [h]

theorem lookup_mapSet_self (map : List (String × String)) (key value : String) :
    (mapSet map key value).lookup key = some value := by
  unfold mapSet
  split
  · rename_i hsome
    induction map with
    | nil => simp at hsome
    | cons p rest ih =>
      obtain ⟨k, v⟩ := p
      by_cases hk : k = key
      · subst hk
        simp
      · have hk' : ¬ (key == k) = true := by
          simp only [beq_iff_eq]
          exact fun e => hk e.symm
        have hk'' : ¬ (k == key) = true := by simpa using hk
        simp only [List.lookup_cons, hk'] at hsome
        simp only [List.map_cons, hk'', Bool.false_eq_true, if_false, List.lookup_cons, hk']
        exact ih hsome
  · rename_i hnone
    have hn : map.lookup key = none := by
      cases h : map.lookup key with
      | none => rfl
      | some v => simp [h] at hnone
    rw [List.lookup_append, hn]
    simp

theorem revokeBlobUrl_of_tracked (m : MemoryManager) (id url : String)
    (h : m.blobUrls.lookup id = some url) (hurl : url ≠ "") :
    m.revokeBlobUrl id =
      { manager := { m with blobUrls := mapDelete m.blobUrls id },
        calls := [ManagerCall.revokeObjectURL url], threw := false } := by
  simp [MemoryManager.revokeBlobUrl, h, hurl]

theorem registerBlobUrl_lookup (m : MemoryManager) (id url : String) :
    (m.registerBlobUrl id url).manager.blobUrls.lookup id = some url ∧
      (m.registerBlobUrl id url).threw = false := by
  unfold MemoryManager.registerBlobUrl
  have hrev : (m.revokeBlobUrl id).threw = false := by
    unfold MemoryManager.revokeBlobUrl
    split
    · split <;> rfl
    · rfl
  split
  · simp [Ran.andThen, hrev, Ran.skip, lookup_mapSet_self]
  · simp [Ran.andThen, Ran.skip, lookup_mapSet_self]

theorem registerBlobUrl_untracked (m : MemoryManager) (id url : String)
    (h : m.blobUrls.lookup id = none) : (m.registerBlobUrl id url).calls = [] := by
  simp [MemoryManager.registerBlobUrl, h, Ran.andThen, Ran.skip]

/-- C16: for every manager, every model id and every two URLs `u1` and `u2`
(`u1` a non-empty string, different from `u2`), `registerBlobUrl(id, u2)`
after `registerBlobUrl(id, u1)` revokes `u1` once and nothing else; when the
id was not tracked before the first call, over both calls `u1` is revoked
exactly once and `u2` is not revoked; afterwards the map holds exactly one
entry for the id, and it maps the id to `u2`. -/
theorem registerBlobUrl_replaces_and_revokes (m : MemoryManager) (id u1 u2 : String)
    (h1 : u1 ≠ "") (h12 : u1 ≠ u2) :
    ((m.registerBlobUrl id u1).manager.registerBlobUrl id u2).calls =
        [ManagerCall.revokeObjectURL u1] ∧
      ((m.registerBlobUrl id u1).manager.registerBlobUrl id u2).threw = false ∧
      (m.blobUrls.lookup id = none →
        ((m.registerBlobUrl id u1).calls ++
            ((m.registerBlobUrl id u1).manager.registerBlobUrl id u2).calls).count
          (ManagerCall.revokeObjectURL u1) = 1 ∧
        ((m.registerBlobUrl id u1).calls ++
            ((m.registerBlobUrl id u1).manager.registerBlobUrl id u2).calls).count
          (ManagerCall.revokeObjectURL u2) = 0) ∧
      ((m.registerBlobUrl id u1).manager.registerBlobUrl id u2).manager.blobUrls.filter
          (fun p => p.1 == id) = [(id, u2)] ∧
      ((m.registerBlobUrl id u1).manager.registerBlobUrl id u2).manager.blobUrls.lookup id =
        some u2 := by
  have hl := (registerBlobUrl_lookup m id u1).1
  have hsecond : (m.registerBlobUrl id u1).manager.registerBlobUrl id u2 =
      { manager :=
          { (m.registerBlobUrl id u1).manager with
            blobUrls := mapDelete (m.registerBlobUrl id u1).manager.blobUrls id ++ [(id, u2)] },
        calls := [ManagerCall.revokeObjectURL u1], threw := false } := by
    generalize (m.registerBlobUrl id u1).manager = m1 at hl ⊢
    unfold MemoryManager.registerBlobUrl
    rw [hl, revokeBlobUrl_of_tracked m1 id u1 hl h1]
    simp [Ran.andThen, Ran.skip, mapSet, lookup_mapDelete_self]
  have hne : ManagerCall.revokeObjectURL u1 ≠ ManagerCall.revokeObjectURL u2 := by
    intro h; injection h with h; exact h12 h
  rw [hsecond]
  refine ⟨rfl, rfl, ?_, ?_, ?_⟩
  · intro hfresh
    rw [registerBlobUrl_untracked m id u1 hfresh]
    have hne' : ¬ (ManagerCall.revokeObjectURL u1 == ManagerCall.revokeObjectURL u2) = true := by
      simpa using hne
    simp [List.count_cons, hne']
  · simp [List.filter_append, filter_key_mapDelete]
  · simp [List.lookup_append, lookup_mapDelete_self]

/-- C16 at a fresh manager, the model `a` and the URLs `blob:1`, `blob:2`. -/
theorem registerBlobUrl_replaces_and_revokes_witness :
    ((MemoryManager.registerBlobUrl ⟨[], [], [], []⟩ "a" "blob:1").manager.registerBlobUrl "a"
        "blob:2").calls = [ManagerCall.revokeObjectURL "blob:1"] ∧
      ((MemoryManager.registerBlobUrl ⟨[], [], [], []⟩ "a" "blob:1").manager.registerBlobUrl "a"
        "blob:2").manager.blobUrls = [("a", "blob:2")] :=
  ⟨(registerBlobUrl_replaces_and_revokes ⟨[], [], [], []⟩ "a" "blob:1" "blob:2" (by decide)
      (by decide)).1, by decide⟩

/-! ## The memory manager: the sweep of the disposal queue -/

theorem andThen_of_ok (r : Ran) (next : MemoryManager → Ran) (h : r.threw = false) :
    r.andThen next =
      { manager := (next r.manager).manager, calls := r.calls ++ (next r.manager).calls,
        threw := (next r.manager).threw } := by
  simp [Ran.andThen, h]

theorem andThen_of_threw (r : Ran) (next : MemoryManager → Ran) (h : r.threw = true) :
    r.andThen next = r := by
  simp [Ran.andThen, h]

theorem andThen_threw_false (r : Ran) (next : MemoryManager → Ran)
    (h : (r.andThen next).threw = false) :
    r.threw = false ∧ (next r.manager).threw = false := by
  cases hr : r.threw with
  | true => rw [andThen_of_threw r next hr] at h; rw [hr] at h; exact absurd h (by simp)
  | false => rw [andThen_of_ok r next hr] at h; exact ⟨rfl, h⟩

theorem revokeBlobUrl_sweep (m : MemoryManager) (id : String) :
    (m.revokeBlobUrl id).threw = false ∧
      (m.revokeBlobUrl id).manager.disposalQueue = m.disposalQueue ∧
      (m.revokeBlobUrl id).calls.filter ManagerCall.isDisposeOp = [] := by
  unfold MemoryManager.revokeBlobUrl
  split
  · split
    · exact ⟨rfl, rfl, rfl⟩
    · exact ⟨rfl, rfl, rfl⟩
  · exact ⟨rfl, rfl, rfl⟩

theorem disposeFbxViewer_sweep (throws : ManagerCall → Bool) (m : MemoryManager) (v : Nat) :
    (m.disposeFbxViewer throws v).manager.disposalQueue = m.disposalQueue ∧
      (m.disposeFbxViewer throws v).calls.filter ManagerCall.isDisposeOp = [] := by
  unfold MemoryManager.disposeFbxViewer
  split
  · cases ht : throws (ManagerCall.viewerDispose v) <;>
      simp [Ran.andThen, platformCall, ht, Ran.skip, ManagerCall.isDisposeOp]
  · exact ⟨rfl, rfl⟩

theorem disposeModelViewer_sweep (throws : ManagerCall → Bool) (m : MemoryManager) (e : Nat) :
    (m.disposeModelViewer throws e).manager.disposalQueue = m.disposalQueue ∧
      (m.disposeModelViewer throws e).calls.filter ManagerCall.isDisposeOp = [] := by
  unfold MemoryManager.disposeModelViewer
  split
  · cases ht : throws (ManagerCall.elementRemove e) <;>
      simp [Ran.andThen, platformCall, ht, Ran.skip, ManagerCall.isDisposeOp]
  · exact ⟨rfl, rfl⟩

theorem disposeFbxViewer_neverThrows (m : MemoryManager) (v : Nat) :
    (m.disposeFbxViewer neverThrows v).threw = false := by
  unfold MemoryManager.disposeFbxViewer
  split
  · simp [Ran.andThen, platformCall, neverThrows, Ran.skip]
  · rfl

theorem disposeModelViewer_neverThrows (m : MemoryManager) (e : Nat) :
    (m.disposeModelViewer neverThrows e).threw = false := by
  unfold MemoryManager.disposeModelViewer
  split
  · simp [Ran.andThen, platformCall, neverThrows, Ran.skip]
  · rfl

theorem disposeEntry_sweep (throws : ManagerCall → Bool) (m : MemoryManager)
    (entry : QueueEntry) :
    (disposeEntry throws m entry).manager.disposalQueue = m.disposalQueue ∧
      (disposeEntry throws m entry).calls.filter ManagerCall.isDisposeOp =
        entry.disposeOp.toList := by
  unfold disposeEntry QueueEntry.disposeOp
  split
  · rw [andThen_of_ok _ _ rfl]
    cases entry.item with
    | modelId id =>
      have h := revokeBlobUrl_sweep m id
      simp [Ran.call, ManagerCall.isDisposeOp, h.2.1, h.2.2]
    | viewer v => simp [Ran.call, Ran.skip, ManagerCall.isDisposeOp]
    | element e => simp [Ran.call, Ran.skip, ManagerCall.isDisposeOp]
  · split
    · rw [andThen_of_ok _ _ rfl]
      cases entry.item with
      | modelId id => simp [Ran.call, Ran.skip, ManagerCall.isDisposeOp]
      | viewer v =>
        have h := disposeFbxViewer_sweep throws m v
        simp [Ran.call, ManagerCall.isDisposeOp, h.1, h.2]
      | element e => simp [Ran.call, Ran.skip, ManagerCall.isDisposeOp]
    · split
      · rw [andThen_of_ok _ _ rfl]
        cases entry.item with
        | modelId id => simp [Ran.call, Ran.skip, ManagerCall.isDisposeOp]
        | viewer v => simp [Ran.call, Ran.skip, ManagerCall.isDisposeOp]
        | element e =>
          have h := disposeModelViewer_sweep throws m e
          simp [Ran.call, ManagerCall.isDisposeOp, h.1, h.2]
      · exact ⟨rfl, rfl⟩

theorem disposeEntry_neverThrows (m : MemoryManager) (entry : QueueEntry) :
    (disposeEntry neverThrows m entry).threw = false := by
  unfold disposeEntry
  split
  · rw [andThen_of_ok _ _ rfl]
    cases entry.item with
    | modelId id => exact (revokeBlobUrl_sweep m id).1
    | viewer v => rfl
    | element e => rfl
  · split
    · rw [andThen_of_ok _ _ rfl]
      cases entry.item with
      | modelId id => rfl
      | viewer v => exact disposeFbxViewer_neverThrows m v
      | element e => rfl
    · split
      · rw [andThen_of_ok _ _ rfl]
        cases entry.item with
        | modelId id => rfl
        | viewer v => rfl
        | element e => exact disposeModelViewer_neverThrows m e
      · rfl

theorem processQueueLoop_of_ok (throws : ManagerCall → Bool) (now : Int) :
    ∀ (l : List QueueEntry) (m : MemoryManager),
      (processQueueLoop throws now m l).threw = false →
      (processQueueLoop throws now m l).manager.disposalQueue =
          m.disposalQueue ++ l.filter (fun e => !e.due now) ∧
        (processQueueLoop throws now m l).calls.filter ManagerCall.isDisposeOp =
          (l.filter (fun e => e.due now)).filterMap QueueEntry.disposeOp := by
  intro l
  induction l with
  | nil => intro m _; simp [processQueueLoop, Ran.skip]
  | cons entry rest ih =>
    intro m hok
    simp only [processQueueLoop] at hok ⊢
    have h1 := andThen_threw_false _ _ hok
    rw [andThen_of_ok _ _ h1.1]
    have h2 := ih _ h1.2
    by_cases hdue : entry.due now = true
    · have hs := disposeEntry_sweep throws m entry
      simp only [hdue, if_true] at h2 ⊢
      simp only [h2.1, hs.1, List.filter_append, hs.2, h2.2, List.filter_cons, hdue,
        Bool.not_true, Bool.false_eq_true, if_false, if_true, List.filterMap_cons]
      cases hop : entry.disposeOp <;> simp
    · simp only [hdue, Bool.false_eq_true, if_false] at h2 ⊢
      have hdue' : entry.due now = false := by simpa using hdue
      simp only [Ran.skip, MemoryManager.requeue] at h2 ⊢
      rw [h2.1, List.nil_append, h2.2]
      simp [hdue']

theorem processQueueLoop_neverThrows (now : Int) :
    ∀ (l : List QueueEntry) (m : MemoryManager),
      (processQueueLoop neverThrows now m l).threw = false := by
  intro l
  induction l with
  | nil => intro m; rfl
  | cons entry rest ih =>
    intro m
    simp only [processQueueLoop]
    have h1 : (if entry.due now = true then disposeEntry neverThrows m entry
        else Ran.skip (m.requeue entry)).threw = false := by
      split
      · exact disposeEntry_neverThrows m entry
      · rfl
    rw [andThen_of_ok _ _ h1]
    exact ih _

/-- C17: a sweep in which no disposal throws leaves in the queue exactly the
previous entries that are not yet due (`now - timestamp <= 10000`), in their
previous order, and the dispose methods it calls are, in order and once each,
the dispose method of the type of every previous entry that is due
(`blobUrl`, `fbxViewer` or `modelViewer`; a due entry of any other type has no
dispose method and is dropped). -/
theorem processDisposalQueue_keeps_not_due_disposes_due (m : MemoryManager) (now : Int) :
    (m.processDisposalQueue neverThrows now).threw = false ∧
      (m.processDisposalQueue neverThrows now).manager.disposalQueue =
        m.disposalQueue.filter (fun e => decide (now - e.timestamp ≤ 10000)) ∧
      (m.processDisposalQueue neverThrows now).calls.filter ManagerCall.isDisposeOp =
        (m.disposalQueue.filter (fun e => decide (now - e.timestamp > 10000))).filterMap
          QueueEntry.disposeOp := by
  have hok := processQueueLoop_neverThrows now m.disposalQueue { m with disposalQueue := [] }
  have h := processQueueLoop_of_ok neverThrows now m.disposalQueue
    { m with disposalQueue := [] } hok
  refine ⟨hok, ?_, ?_⟩
  · unfold MemoryManager.processDisposalQueue
    rw [h.1]
    simp only [List.nil_append]
    apply List.filter_congr
    intro e _
    simp only [QueueEntry.due]
    by_cases hd : now - e.timestamp > 10000
    · have : ¬ now - e.timestamp ≤ 10000 := by omega
      simp [hd, this]
    · have : now - e.timestamp ≤ 10000 := by omega
      simp [hd, this]
  · unfold MemoryManager.processDisposalQueue
    rw [h.2]
    rfl

/-! ## The memory manager: a disposal that throws -/

theorem andThen_assoc (r : Ran) (f g : MemoryManager → Ran) :
    (r.andThen f).andThen g = r.andThen fun m => (f m).andThen g := by
  cases hr : r.threw with
  | true => rw [andThen_of_threw r f hr, andThen_of_threw r g hr, andThen_of_threw r _ hr]
  | false =>
    rw [andThen_of_ok r f hr, andThen_of_ok r _ hr]
    cases hf : (f r.manager).threw with
    | true => simp [Ran.andThen, hf]
    | false => simp [Ran.andThen, hf, List.append_assoc]

theorem processQueueLoop_append (throws : ManagerCall → Bool) (now : Int) :
    ∀ (l1 l2 : List QueueEntry) (m : MemoryManager),
      processQueueLoop throws now m (l1 ++ l2) =
        (processQueueLoop throws now m l1).andThen fun m1 => processQueueLoop throws now m1 l2 := by
  intro l1
  induction l1 with
  | nil => intro l2 m; simp [processQueueLoop, Ran.skip, Ran.andThen]
  | cons entry rest ih =>
    intro l2 m
    simp only [List.cons_append, processQueueLoop, andThen_assoc]
    congr 1
    funext m1
    exact ih l2 m1

theorem disposeViewersLoop_append (throws : ManagerCall → Bool) :
    ∀ (l1 l2 : List Nat) (m : MemoryManager),
      disposeViewersLoop throws m (l1 ++ l2) =
        (disposeViewersLoop throws m l1).andThen fun m1 => disposeViewersLoop throws m1 l2 := by
  intro l1
  induction l1 with
  | nil => intro l2 m; simp [disposeViewersLoop, Ran.skip, Ran.andThen]
  | cons v rest ih =>
    intro l2 m
    simp only [List.cons_append, disposeViewersLoop, andThen_assoc]
    congr 1
    funext m1
    exact ih l2 m1

theorem disposeFbxViewer_of_ok (throws : ManagerCall → Bool) (m : MemoryManager) (v : Nat)
    (hmem : v ∈ m.activeFbxViewers) (hok : throws (.viewerDispose v) = false) :
    m.disposeFbxViewer throws v =
      { manager := { m with activeFbxViewers := m.activeFbxViewers.filter (fun x => x != v) },
        calls := [.viewerDispose v], threw := false } := by
  simp [MemoryManager.disposeFbxViewer, hmem, Ran.andThen, platformCall, hok, Ran.skip]

theorem disposeFbxViewer_of_throws (throws : ManagerCall → Bool) (m : MemoryManager) (v : Nat)
    (hmem : v ∈ m.activeFbxViewers) (hthrows : throws (.viewerDispose v) = true) :
    m.disposeFbxViewer throws v =
      { manager := m, calls := [.viewerDispose v], threw := true } := by
  simp [MemoryManager.disposeFbxViewer, hmem, Ran.andThen, platformCall, hthrows]

theorem disposeViewersLoop_of_ok (throws : ManagerCall → Bool) :
    ∀ (l : List Nat) (m : MemoryManager), l.Nodup → (∀ v ∈ l, v ∈ m.activeFbxViewers) →
      (∀ v ∈ l, throws (.viewerDispose v) = false) →
      disposeViewersLoop throws m l =
        { manager :=
            { m with activeFbxViewers := m.activeFbxViewers.filter (fun x => decide (x ∉ l)) },
          calls := l.map ManagerCall.viewerDispose, threw := false } := by
  intro l
  induction l with
  | nil => intro m _ _ _; simp [disposeViewersLoop, Ran.skip]
  | cons v rest ih =>
    intro m hnd hmem hok
    have hv : v ∉ rest := (List.nodup_cons.mp hnd).1
    simp only [disposeViewersLoop]
    rw [disposeFbxViewer_of_ok throws m v (hmem v (List.mem_cons_self _ _))
      (hok v (List.mem_cons_self _ _)), andThen_of_ok _ _ rfl]
    rw [ih _ (List.nodup_cons.mp hnd).2 ?_ (fun x hx => hok x (List.mem_cons_of_mem _ hx))]
    · simp only [List.filter_filter, List.map_cons, List.singleton_append, Ran.mk.injEq,
        and_true, MemoryManager.mk.injEq, true_and]
      apply List.filter_congr
      intro x _
      simp only [List.mem_cons, not_or, bne_iff_ne, ne_eq, Bool.decide_and, Bool.and_comm,
        decide_not, Bool.and_eq_true, Bool.not_eq_true', decide_eq_false_iff_not]
      by_cases hxv : x = v <;> by_cases hxr : x ∈ rest <;> simp [hxv, hxr]
    · intro x hx
      simp only [List.mem_filter, bne_iff_ne, ne_eq]
      exact ⟨hmem x (List.mem_cons_of_mem _ hx), fun h => hv (h ▸ hx)⟩

theorem filter_not_mem_prefix (l1 l2 : List Nat) (hnd : (l1 ++ l2).Nodup) :
    (l1 ++ l2).filter (fun x => decide (x ∉ l1)) = l2 := by
  rw [List.filter_append]
  have h1 : l1.filter (fun x => decide (x ∉ l1)) = [] := by
    rw [List.filter_eq_nil_iff]
    intro x hx
    simp [hx]
  have h2 : l2.filter (fun x => decide (x ∉ l1)) = l2 := by
    rw [List.filter_eq_self]
    intro x hx
    have := (List.nodup_append.mp hnd).2.2
    simp only [decide_eq_true_eq]
    intro hx1
    exact this hx1 hx
  rw [h1, h2, List.nil_append]

/-- C18, counterexample: with the viewers 1 and 2 due in the queue and the
model `a` not yet due, a `dispose()` of viewer 1 that throws leaves
`processDisposalQueue` by the exception: viewer 2 is never passed to
`disposeFbxViewer` and stays registered, and the entry of `a` is no longer in
the queue. `disposeAllFbxViewers` stops in the same way before viewer 2. -/
theorem throwing_dispose_aborts_sweep :
    (sampleManager.processDisposalQueue viewerOneThrows 20001).threw = true ∧
      ManagerCall.disposeFbxViewer (.viewer 2) ∉
        (sampleManager.processDisposalQueue viewerOneThrows 20001).calls ∧
      (sampleManager.processDisposalQueue viewerOneThrows 20001).manager.activeFbxViewers =
        [1, 2] ∧
      (sampleManager.processDisposalQueue viewerOneThrows 20001).manager.disposalQueue = [] ∧
      (sampleManager.disposeAllFbxViewers viewerOneThrows).threw = true ∧
      (sampleManager.disposeAllFbxViewers viewerOneThrows).calls = [.viewerDispose 1] ∧
      (sampleManager.disposeAllFbxViewers viewerOneThrows).manager.activeFbxViewers = [1, 2] := by
  decide

/-- C18, as the code has it: no method of the manager catches an exception.
When the sweep of the entries `before` does not throw and disposing the due
entry `bad` after them throws, `processDisposalQueue` is left by the exception;
the queue then holds only the entries of `before` that are not yet due, and the
dispose methods called are those of the due entries of `before` and of `bad`:
no entry of `after` is disposed or kept. When the `dispose()` of the registered
viewer `vbad` throws and those of the viewers `vbefore` registered before it do
not, `disposeAllFbxViewers` is left by the exception after calling `dispose()`
on `vbefore` and `vbad` only, and `vbad` and the viewers `vafter` stay
registered. -/
theorem throwing_dispose_skips_the_rest (throws : ManagerCall → Bool) (m : MemoryManager)
    (now : Int) (before after : List QueueEntry) (bad : QueueEntry)
    (vbefore vafter : List Nat) (vbad : Nat)
    (hq : m.disposalQueue = before ++ bad :: after)
    (hbefore : (processQueueLoop throws now { m with disposalQueue := [] } before).threw = false)
    (hdue : bad.due now = true)
    (hbad : (disposeEntry throws
      (processQueueLoop throws now { m with disposalQueue := [] } before).manager bad).threw = true)
    (hv : m.activeFbxViewers = vbefore ++ vbad :: vafter)
    (hnodup : m.activeFbxViewers.Nodup)
    (hvbefore : ∀ v ∈ vbefore, throws (.viewerDispose v) = false)
    (hvbad : throws (.viewerDispose vbad) = true) :
    ((m.processDisposalQueue throws now).threw = true ∧
      (m.processDisposalQueue throws now).manager.disposalQueue =
        before.filter (fun e => !e.due now) ∧
      (m.processDisposalQueue throws now).calls.filter ManagerCall.isDisposeOp =
        ((before ++ [bad]).filter (fun e => e.due now)).filterMap QueueEntry.disposeOp) ∧
    ((m.disposeAllFbxViewers throws).threw = true ∧
      (m.disposeAllFbxViewers throws).calls = (vbefore ++ [vbad]).map ManagerCall.viewerDispose ∧
      (m.disposeAllFbxViewers throws).manager.activeFbxViewers = vbad :: vafter) := by
  constructor
  · have hb := processQueueLoop_of_ok throws now before { m with disposalQueue := [] } hbefore
    have hs := disposeEntry_sweep throws
      (processQueueLoop throws now { m with disposalQueue := [] } before).manager bad
    have hrun : m.processDisposalQueue throws now =
        { manager := (disposeEntry throws
            (processQueueLoop throws now { m with disposalQueue := [] } before).manager
            bad).manager,
          calls := (processQueueLoop throws now { m with disposalQueue := [] } before).calls ++
            (disposeEntry throws
              (processQueueLoop throws now { m with disposalQueue := [] } before).manager
              bad).calls,
          threw := true } := by
      unfold MemoryManager.processDisposalQueue
      rw [hq, processQueueLoop_append, andThen_of_ok _ _ hbefore]
      simp only [processQueueLoop, hdue, if_true]
      rw [andThen_of_threw _ _ hbad, hbad]
    rw [hrun]
    refine ⟨rfl, ?_, ?_⟩
    · simp only [hs.1, hb.1, List.nil_append]
    · simp only [List.filter_append, hb.2, hs.2, List.filter_cons, hdue, if_true,
        List.filter_nil, List.filterMap_append, List.filterMap_cons, List.filterMap_nil]
      cases bad.disposeOp <;> rfl
  · have hnd : (vbefore ++ vbad :: vafter).Nodup := hv ▸ hnodup
    have hloop := disposeViewersLoop_of_ok throws vbefore m (List.nodup_append.mp hnd).1
      (fun v hv1 => by rw [hv]; exact List.mem_append_left _ hv1) hvbefore
    have hact : m.activeFbxViewers.filter (fun x => decide (x ∉ vbefore)) = vbad :: vafter := by
      rw [hv]; exact filter_not_mem_prefix vbefore (vbad :: vafter) hnd
    have hrun : m.disposeAllFbxViewers throws =
        { manager := { m with activeFbxViewers := vbad :: vafter },
          calls := vbefore.map ManagerCall.viewerDispose ++ [.viewerDispose vbad],
          threw := true } := by
      unfold MemoryManager.disposeAllFbxViewers
      rw [hv, disposeViewersLoop_append, hloop, andThen_of_ok _ _ rfl]
      simp only [disposeViewersLoop]
      rw [hact]
      rw [disposeFbxViewer_of_throws throws _ vbad (List.mem_cons_self _ _) hvbad,
        andThen_of_threw _ _ rfl]
    rw [hrun]
    exact ⟨rfl, by simp, rfl⟩

/-- The amended C18 at the sample manager, whose first queue entry and first
registered viewer is the viewer 1 whose `dispose()` throws. -/
theorem throwing_dispose_skips_the_rest_witness :
    ((sampleManager.processDisposalQueue viewerOneThrows 20001).threw = true ∧
      (sampleManager.processDisposalQueue viewerOneThrows 20001).manager.disposalQueue =
        ([] : List QueueEntry).filter (fun e => !e.due 20001) ∧
      (sampleManager.processDisposalQueue viewerOneThrows 20001).calls.filter
          ManagerCall.isDisposeOp =
        (([⟨.viewer 1, "fbxViewer", 0⟩] : List QueueEntry).filter
          (fun e => e.due 20001)).filterMap QueueEntry.disposeOp) ∧
    ((sampleManager.disposeAllFbxViewers viewerOneThrows).threw = true ∧
      (sampleManager.disposeAllFbxViewers viewerOneThrows).calls =
        [1].map ManagerCall.viewerDispose ∧
      (sampleManager.disposeAllFbxViewers viewerOneThrows).manager.activeFbxViewers = 1 :: [2]) :=
  throwing_dispose_skips_the_rest viewerOneThrows sampleManager 20001 []
    [⟨.viewer 2, "fbxViewer", 0⟩, ⟨.modelId "a", "blobUrl", 20000⟩] ⟨.viewer 1, "fbxViewer", 0⟩
    [] [2] 1 rfl (by decide) (by decide) (by decide) rfl (by decide) (by simp)
    (by decide)

/-! ## The memory manager: `destroy` -/

theorem removeElementsLoop_of_ok (throws : ManagerCall → Bool) :
    ∀ (l : List Nat) (m : MemoryManager), (∀ e ∈ l, throws (.elementRemove e) = false) →
      removeElementsLoop throws m l =
        { manager := m, calls := l.map ManagerCall.elementRemove, threw := false } := by
  intro l
  induction l with
  | nil => intro m _; rfl
  | cons e rest ih =>
    intro m hok
    simp only [removeElementsLoop]
    have h1 : (platformCall throws m (.elementRemove e)).threw = false :=
      hok e (List.mem_cons_self _ _)
    rw [andThen_of_ok _ _ h1, ih _ (fun x hx => hok x (List.mem_cons_of_mem _ hx))]
    simp [platformCall]

theorem disposeAllFbxViewers_of_ok (throws : ManagerCall → Bool) (m : MemoryManager)
    (hnd : m.activeFbxViewers.Nodup)
    (hok : ∀ v ∈ m.activeFbxViewers, throws (.viewerDispose v) = false) :
    m.disposeAllFbxViewers throws =
      { manager := { m with activeFbxViewers := [] },
        calls := m.activeFbxViewers.map ManagerCall.viewerDispose, threw := false } := by
  unfold MemoryManager.disposeAllFbxViewers
  rw [disposeViewersLoop_of_ok throws m.activeFbxViewers m hnd (fun _ h => h) hok]
  have h : m.activeFbxViewers.filter (fun x => decide (x ∉ m.activeFbxViewers)) = [] := by
    rw [List.filter_eq_nil_iff]
    intro x hx
    simp [hx]
  rw [h]

theorem count_map_other (c : ManagerCall) (f : Nat → ManagerCall) (l : List Nat)
    (h : ∀ x, f x ≠ c) : (l.map f).count c = 0 := by
  rw [List.count_eq_zero]
  intro hmem
  obtain ⟨x, _, hx⟩ := List.mem_map.mp hmem
  exact h x hx

theorem count_revoke_map (u : String) (l : List (String × String)) :
    (l.map (fun p => ManagerCall.revokeObjectURL p.2)).count (.revokeObjectURL u) =
      (l.map Prod.snd).count u := by
  induction l with
  | nil => rfl
  | cons p rest ih =>
    simp only [List.map_cons, List.count_cons, ih]
    by_cases h : p.2 = u <;> simp [h]

theorem count_map_urls_other (c : ManagerCall) (l : List (String × String))
    (h : ∀ u, ManagerCall.revokeObjectURL u ≠ c) :
    (l.map (fun p => ManagerCall.revokeObjectURL p.2)).count c = 0 := by
  rw [List.count_eq_zero]
  intro hmem
  obtain ⟨x, _, hx⟩ := List.mem_map.mp hmem
  exact h x.2 hx

/-- C19: when none of the `dispose()` and `remove()` calls throws, `destroy()`
runs to its end and calls, in this order, `clearInterval`, `dispose()` on each
registered FBX viewer, `URL.revokeObjectURL` on the URL of each entry of
`blobUrls`, and `remove()` on each registered `model-viewer` element: once for
every viewer, once for every entry of `blobUrls`, once for every element.
Afterwards `blobUrls`, `activeFbxViewers`, `activeModelViewers` and the
disposal queue are empty. The two `Set`s hold no element twice. -/
theorem destroy_releases_everything_once (throws : ManagerCall → Bool) (m : MemoryManager)
    (hviewers : m.activeFbxViewers.Nodup) (helements : m.activeModelViewers.Nodup)
    (hdispose : ∀ v ∈ m.activeFbxViewers, throws (.viewerDispose v) = false)
    (hremove : ∀ e ∈ m.activeModelViewers, throws (.elementRemove e) = false) :
    (m.destroy throws).threw = false ∧
      (m.destroy throws).calls =
        ManagerCall.clearInterval ::
          (m.activeFbxViewers.map ManagerCall.viewerDispose ++
            m.blobUrls.map (fun p => ManagerCall.revokeObjectURL p.2) ++
            m.activeModelViewers.map ManagerCall.elementRemove) ∧
      (m.destroy throws).manager =
        { blobUrls := [], activeFbxViewers := [], activeModelViewers := [],
          disposalQueue := [] } ∧
      (∀ v ∈ m.activeFbxViewers, (m.destroy throws).calls.count (.viewerDispose v) = 1) ∧
      (∀ u, (m.destroy throws).calls.count (.revokeObjectURL u) =
        (m.blobUrls.map Prod.snd).count u) ∧
      (∀ e ∈ m.activeModelViewers, (m.destroy throws).calls.count (.elementRemove e) = 1) := by
  have hrun : m.destroy throws =
      { manager :=
          { blobUrls := [], activeFbxViewers := [], activeModelViewers := [],
            disposalQueue := [] },
        calls := ManagerCall.clearInterval ::
          (m.activeFbxViewers.map ManagerCall.viewerDispose ++
            m.blobUrls.map (fun p => ManagerCall.revokeObjectURL p.2) ++
            m.activeModelViewers.map ManagerCall.elementRemove),
        threw := false } := by
    unfold MemoryManager.destroy
    rw [andThen_of_ok _ _ rfl]
    simp only [Ran.call]
    rw [disposeAllFbxViewers_of_ok throws m hviewers hdispose, andThen_of_ok _ _ rfl]
    simp only [MemoryManager.revokeAllBlobUrls]
    rw [andThen_of_ok _ _ rfl]
    simp only []
    rw [removeElementsLoop_of_ok throws m.activeModelViewers _ hremove, andThen_of_ok _ _ rfl]
    simp [Ran.skip, MemoryManager.clearRest]
  rw [hrun]
  refine ⟨rfl, rfl, rfl, ?_, ?_, ?_⟩
  · intro v hv
    simp only [List.count_cons, List.count_append]
    rw [List.count_map_of_injective _ _ (fun a b h => by injection h),
      count_map_urls_other _ _ (fun u => by simp),
      count_map_other _ _ _ (fun x => by simp), List.count_eq_one_of_mem hviewers hv]
    simp
  · intro u
    simp only [List.count_cons, List.count_append]
    rw [count_map_other _ _ _ (fun x => by simp), count_revoke_map,
      count_map_other _ _ _ (fun x => by simp)]
    simp
  · intro e he
    simp only [List.count_cons, List.count_append]
    rw [count_map_other _ _ _ (fun x => by simp), count_map_urls_other _ _ (fun u => by simp),
      List.count_map_of_injective _ _ (fun a b h => by injection h),
      List.count_eq_one_of_mem helements he]
    simp

/-- C19 at the sample manager, when no call throws. -/
theorem destroy_releases_everything_once_witness :
    (sampleManager.destroy neverThrows).threw = false ∧
      (sampleManager.destroy neverThrows).calls =
        [.clearInterval, .viewerDispose 1, .viewerDispose 2, .revokeObjectURL "blob:a",
          .elementRemove 7] ∧
      (sampleManager.destroy neverThrows).manager =
        { blobUrls := [], activeFbxViewers := [], activeModelViewers := [],
          disposalQueue := [] } :=
  have h := destroy_releases_everything_once neverThrows sampleManager (by decide) (by decide)
    (fun _ _ => rfl) (fun _ _ => rfl)
  ⟨h.1, h.2.1, h.2.2.1⟩

/-! ## The full view: how often `cleanup` is called -/

/-- C20, failing inputs. The descriptor of a video view carries a `cleanup`,
and dismissing the view never calls it: the URL of the video is not revoked.
And `exitFullscreen` does not reset `currentFullscreenViewer`: after the view
of an image has been dismissed by a navigation that opens no view, the next
dismissal calls the image's `cleanup` a second time and revokes its URL a
second time. -/
theorem exitFullscreen_cleanup_not_exactly_once :
    ((run (World.initial videoModels) videoViewDismissed).currentFullscreenViewer =
        some ⟨some "video", "v.mp4", some (.revokeUrl "blob:v")⟩ ∧
      (run (World.initial videoModels) videoViewDismissed).log.count
        (.cleanupCalled "v.mp4") = 0 ∧
      (run (World.initial videoModels) videoViewDismissed).log.count
        (.revokeObjectURL "blob:v") = 0) ∧
    ((run (World.initial sampleModels) dismissedTwice).log.count (.cleanupCalled "b.png") = 2 ∧
      (run (World.initial sampleModels) dismissedTwice).log.count
        (.revokeObjectURL "blob:b") = 2 ∧
      (run (World.initial sampleModels) dismissedTwice).log.count
        (.createObjectURL "blob:b") = 1) := by
  decide

/-! ## The folder pick consumer: a scan that fails fatally -/

/-- C21 as stated fails: with `a.fbx` loaded before the pick, `modelFiles` is
empty after `new Worker` throws, and empty after `worker.onerror` fires. -/
theorem fatal_scan_failure_loses_prior_list :
    (handleFolderPick { modelFiles := [entryA], workers := [] } false).modelFiles = [] ∧
      (pickRun constantCompare { modelFiles := [entryA], workers := [] }
        [.handleFolderPick true, .error 0]).modelFiles = [] := by
  decide

/-- C21, amended: `handleFolderPick` empties `modelFiles` before it creates
the worker, so after a fatal failure the list is empty whatever it held
before: when `new Worker` throws, and when `worker.onerror` fires after the
worker has been created and only `fileFound` and `scanError` messages have
arrived since. -/
theorem fatal_scan_failure_leaves_empty_list (localeCompare : String → String → Int)
    (s : PickState) (events : List PickEvent) (i : Nat)
    (h : ∀ ev ∈ events, ev.isFoundOrError = true) :
    (handleFolderPick s false).modelFiles = [] ∧
      (pickRun localeCompare (handleFolderPick s true) (events ++ [.error i])).modelFiles =
        [] := by
  refine ⟨rfl, ?_⟩
  have h1 := pickRun_found_or_error localeCompare events (handleFolderPick s true) h
  unfold pickRun at h1 ⊢
  rw [List.foldl_append, List.foldl_cons, List.foldl_nil]
  have h2 : ∀ st : PickState, (pickStep localeCompare st (.error i)).modelFiles =
      st.modelFiles := by
    intro st
    simp only [pickStep, workerOnerror]
    split <;> rfl
  rw [h2, h1]
  simp [handleFolderPick]

/-- The amended C21 for a pick made while `a.fbx` is loaded: the worker
reports `a.fbx` again and then fails. -/
theorem fatal_scan_failure_leaves_empty_list_witness :
    (handleFolderPick { modelFiles := [entryA], workers := [] } false).modelFiles = [] ∧
      (pickRun constantCompare (handleFolderPick { modelFiles := [entryA], workers := [] } true)
        ([.message 0 (.fileFound entryA)] ++ [.error 0])).modelFiles = [] :=
  fatal_scan_failure_leaves_empty_list constantCompare { modelFiles := [entryA], workers := [] }
    [.message 0 (.fileFound entryA)] 0 (by decide)

/-! ## File type detection -/

theorem lastIndexOf_eq_none (c : Char) (l : List Char) : lastIndexOf c l = none ↔ c ∉ l := by
  induction l with
  | nil => simp [lastIndexOf]
  | cons x xs ih =>
    simp only [lastIndexOf, List.mem_cons, not_or]
    cases hrest : lastIndexOf c xs with
    | some i =>
      have : ¬ (c ∉ xs) := fun h => by rw [ih.mpr h] at hrest; exact absurd hrest (by simp)
      simp [this]
    | none =>
      have hnot : c ∉ xs := ih.mp hrest
      by_cases hx : x = c
      · simp [hx]
      · have hx' : ¬ c = x := fun h => hx h.symm
        simp [hx, hx', hnot]

theorem lastIndexOf_eq_some (c : Char) (l : List Char) (i : Nat) :
    lastIndexOf c l = some i ↔ ∃ pre rest, l = pre ++ c :: rest ∧ c ∉ rest ∧ pre.length = i := by
  induction l generalizing i with
  | nil => simp [lastIndexOf]
  | cons x xs ih =>
    simp only [lastIndexOf]
    cases hrest : lastIndexOf c xs with
    | some j =>
      obtain ⟨pre, rest, hxs, hc, hlen⟩ := (ih j).mp hrest
      constructor
      · intro h
        simp only [Option.some.injEq] at h
        exact ⟨x :: pre, rest, by simp [hxs], hc, by simp [hlen, h]⟩
      · rintro ⟨pre2, rest2, h2, hc2, hlen2⟩
        cases pre2 with
        | nil =>
          simp only [List.nil_append, List.cons.injEq] at h2
          have : c ∈ rest2 := by rw [← h2.2, hxs]; simp
          exact absurd this hc2
        | cons y ys =>
          simp only [List.cons_append, List.cons.injEq] at h2
          have := (ih ys.length).mpr ⟨ys, rest2, h2.2, hc2, rfl⟩
          rw [hrest] at this
          simp only [Option.some.injEq] at this
          simp [← hlen2, this]
    | none =>
      have hnot : c ∉ xs := (lastIndexOf_eq_none c xs).mp hrest
      constructor
      · intro h
        by_cases hx : x = c
        · simp only [hx, if_true, Option.some.injEq] at h
          exact ⟨[], xs, by simp [hx], hnot, by simp [h]⟩
        · simp [hx] at h
      · rintro ⟨pre2, rest2, h2, hc2, hlen2⟩
        cases pre2 with
        | nil =>
          simp only [List.nil_append, List.cons.injEq] at h2
          simp [h2.1, ← hlen2]
        | cons y ys =>
          simp only [List.cons_append, List.cons.injEq] at h2
          have : c ∈ xs := by rw [h2.2]; simp
          exact absurd this hnot

theorem toLower_eq_dot (c : Char) : c.toLower = '.' ↔ c = '.' := by
  constructor
  · intro h
    unfold Char.toLower at h
    by_cases hc : c.toNat ≥ 65 ∧ c.toNat ≤ 90
    · simp only [hc, and_self, if_true] at h
      obtain ⟨h1, h2⟩ := hc
      exfalso
      generalize c.toNat = n at h h1 h2
      interval_cases n <;> exact absurd h (by decide)
    · simpa [hc] using h
  · intro h
    subst h
    decide

theorem dot_mem_toLowerCase (filename : String) :
    '.' ∈ (toLowerCase filename).data ↔ '.' ∈ filename.data := by
  simp [toLowerCase, List.mem_map, toLower_eq_dot]

theorem getProperty_map {α β : Type} (f : α → β) (object : List (String × α)) (key : String) :
    getProperty (object.map (fun p => (p.1, f p.2))) key = (getProperty object key).map f := by
  induction object with
  | nil => rfl
  | cons p rest ih =>
    simp only [getProperty, List.map_cons, List.find?_cons] at ih ⊢
    by_cases h : (p.1 == key) = true
    · simp [h]
    · simp only [h]
      exact ih

theorem getProperty_mem {α : Type} (object : List (String × α)) (key : String) (value : α)
    (h : getProperty object key = some value) : (key, value) ∈ object := by
  unfold getProperty at h
  cases hf : object.find? (fun p => p.1 == key) with
  | none => simp [hf] at h
  | some p =>
    simp only [hf, Option.map_some', Option.some.injEq] at h
    have hk := List.find?_some hf
    have hm := List.mem_of_find?_eq_some hf
    simp only [beq_iff_eq] at hk
    rw [← hk, ← h]
    exact hm

theorem extension_table_eq :
    fileTypeDetector.EXTENSION_TO_TYPE.map
        (fun p => (p.1, (⟨p.2.type, p.2.subtype⟩ : TypeInfo))) =
      FILE_TYPE_MAPPINGS := by
  decide

theorem extension_table_listed :
    ∀ p ∈ fileTypeDetector.EXTENSION_TO_TYPE,
      ∃ entry ∈ fileTypeDetector.FILE_TYPE_MAPPINGS, p.1 ∈ entry.2.extensions ∧ p.2 = entry.2 := by
  decide

theorem extension_table_complete :
    ∀ entry ∈ fileTypeDetector.FILE_TYPE_MAPPINGS, ∀ ext ∈ entry.2.extensions,
      getProperty fileTypeDetector.EXTENSION_TO_TYPE ext = some entry.2 := by
  decide

theorem getProperty_extension_iff (extension : String) (config : TypeConfig) :
    getProperty fileTypeDetector.EXTENSION_TO_TYPE extension = some config ↔
      ∃ entry ∈ fileTypeDetector.FILE_TYPE_MAPPINGS,
        extension ∈ entry.2.extensions ∧ config = entry.2 := by
  constructor
  · intro h
    exact extension_table_listed _ (getProperty_mem _ _ _ h)
  · rintro ⟨entry, hentry, hext, rfl⟩
    exact extension_table_complete entry hentry extension hext

theorem detectFileType_eq_some (filename : String) (r : DetectedType) :
    fileTypeDetector.detectFileType filename = some r ↔
      filename ≠ "" ∧ ∃ i config, lastIndexOf '.' (toLowerCase filename).data = some i ∧
        getProperty fileTypeDetector.EXTENSION_TO_TYPE
          (String.mk ((toLowerCase filename).data.drop i)) = some config ∧
        r = ⟨config.type, config.subtype, String.mk ((toLowerCase filename).data.drop i)⟩ := by
  unfold fileTypeDetector.detectFileType
  by_cases hempty : filename = ""
  · simp [hempty]
  · simp only [hempty, if_false, ne_eq, not_false_eq_true, true_and]
    cases hdot : lastIndexOf '.' (toLowerCase filename).data with
    | none => simp
    | some i =>
      simp only [Option.some.injEq]
      cases hget : getProperty fileTypeDetector.EXTENSION_TO_TYPE
          (String.mk ((toLowerCase filename).data.drop i)) with
      | none =>
        constructor
        · intro h; exact absurd h (by simp)
        · rintro ⟨j, config, hj, hc, _⟩
          subst hj
          rw [hget] at hc
          exact absurd hc (by simp)
      | some config =>
        constructor
        · intro h
          simp only [Option.some.injEq] at h
          exact ⟨i, config, rfl, hget, h.symm⟩
        · rintro ⟨j, config2, hj, hc, hr⟩
          subst hj
          rw [hget] at hc
          simp only [Option.some.injEq] at hc
          subst hc
          simp [hr]

/-- C27: for every filename the copy of `detectFileType` inlined in the scan
worker returns `null` exactly when `detectFileType` of `fileTypeDetector.js`
does, and otherwise the same `type` and `subtype`. -/
theorem worker_detectFileType_agrees (filename : String) :
    detectFileType filename =
      (fileTypeDetector.detectFileType filename).map
        (fun r => (⟨r.type, r.subtype⟩ : TypeInfo)) := by
  have hlookup : ∀ extension, lookupExtension extension =
      (getProperty fileTypeDetector.EXTENSION_TO_TYPE extension).map
        (fun c => (⟨c.type, c.subtype⟩ : TypeInfo)) := by
    intro extension
    rw [← getProperty_map, extension_table_eq]
    rfl
  unfold detectFileType fileTypeDetector.detectFileType
  split
  · rfl
  · simp only
    cases lastIndexOf '.' (toLowerCase filename).data with
    | none => rfl
    | some i =>
      simp only [hlookup]
      cases getProperty fileTypeDetector.EXTENSION_TO_TYPE
        (String.mk ((toLowerCase filename).data.drop i)) <;> rfl

theorem extension_table_handlers :
    ∀ p ∈ fileTypeDetector.EXTENSION_TO_TYPE, p.1 ≠ ".ogv" →
      AssetHandlerFactory.getHandler p.2.subtype = handlerOfCategory p.2.type ∧
        (handlerOfCategory p.2.type).isSome = true := by
  decide

/-- C29 on the code: `clip.ogv` is detected as a video with subtype `ogg`, and
`getHandler('ogg')` is the `AudioHandler`, not the `VideoHandler`, which does
not list `ogg`. For every recognised filename whose extension is not `.ogv`,
`getHandler(subtype)` is the handler of the category named by `type`. -/
theorem ogv_video_gets_audio_handler :
    (fileTypeDetector.detectFileType "clip.ogv" = some ⟨"video", "ogg", ".ogv"⟩ ∧
      AssetHandlerFactory.getHandler "ogg" = some Handler.AudioHandler ∧
      handlerOfCategory "video" = some Handler.VideoHandler ∧
      Handler.VideoHandler.canHandle "ogg" = false) ∧
    (∀ filename r, fileTypeDetector.detectFileType filename = some r → r.extension ≠ ".ogv" →
      AssetHandlerFactory.getHandler r.subtype = handlerOfCategory r.type ∧
        (handlerOfCategory r.type).isSome = true) := by
  refine ⟨by decide, ?_⟩
  intro filename r hr hext
  obtain ⟨_, i, config, _, hget, hrr⟩ := (detectFileType_eq_some filename r).mp hr
  subst hrr
  exact extension_table_handlers _ (getProperty_mem _ _ _ hget) hext

/-! ## The page of tiles -/

theorem slice_of_nonneg {α : Type} (array : List α) (s e : Nat) :
    slice array (s : Int) (e : Int) = (array.take e).drop s := by
  unfold slice
  have h1 : ¬ ((s : Int) < 0) := by omega
  have h2 : ¬ ((e : Int) < 0) := by omega
  simp only [h1, h2, if_false]
  have hk : (min (s : Int) (array.length : Int)).toNat = min s array.length := by omega
  have hf : (min (e : Int) (array.length : Int)).toNat = min e array.length := by omega
  rw [hk, hf]
  apply List.ext_getElem?
  intro i
  simp only [List.getElem?_drop, List.getElem?_take]
  by_cases hs : s ≤ array.length
  · rw [Nat.min_eq_left hs]
    by_cases he : e ≤ array.length
    · rw [Nat.min_eq_left he]
    · rw [Nat.min_eq_right (by omega)]
      by_cases hi : s + i < array.length
      · simp [hi, show s + i < e by omega]
      · simp [hi, List.getElem?_eq_none (show array.length ≤ s + i by omega)]
  · rw [Nat.min_eq_right (by omega)]
    have : array.length ≤ array.length + i := by omega
    have h3 : array.length ≤ s + i := by omega
    simp [List.getElem?_eq_none this, List.getElem?_eq_none h3]

theorem foldl_appendTile (pageItems : List Nat) :
    ∀ w : World,
      (pageItems.foldl appendTile w).container =
          w.container ++ List.range' w.nextTile pageItems.length ∧
        (∀ t, t < w.nextTile → (pageItems.foldl appendTile w).tiles t = w.tiles t) ∧
        (List.range' w.nextTile pageItems.length).map
            (fun t => ((pageItems.foldl appendTile w).tiles t).model) =
          pageItems.map some := by
  induction pageItems with
  | nil => intro w; simp
  | cons m rest ih =>
    intro w
    obtain ⟨h1, h2, h3⟩ := ih (appendTile w m)
    have hnext : (appendTile w m).nextTile = w.nextTile + 1 := rfl
    have hcont : (appendTile w m).container = w.container ++ [w.nextTile] := rfl
    rw [hnext] at h1 h2 h3
    simp only [List.foldl_cons, List.length_cons]
    refine ⟨?_, ?_, ?_⟩
    · rw [h1, hcont, List.range'_succ]
      simp
    · intro t ht
      rw [h2 t (by omega)]
      simp only [appendTile, update]
      rw [if_neg (by omega)]
    · rw [List.range'_succ, List.map_cons, List.map_cons, h3, h2 w.nextTile (by omega)]
      simp [appendTile, update]

theorem slice_page_eq (filteredModelFiles : List Nat) (p n : Nat) :
    (slice filteredModelFiles ((p : Int) * (n : Int)) ((p : Int) * (n : Int) + (n : Int))).map
        some =
      (List.range' (p * n) (min filteredModelFiles.length ((p + 1) * n) - p * n)).map
        (fun i => filteredModelFiles[i]?) := by
  have h : (p : Int) * (n : Int) = ((p * n : Nat) : Int) := by push_cast; rfl
  have h2 : ((p * n : Nat) : Int) + (n : Int) = ((p * n + n : Nat) : Int) := by push_cast; rfl
  rw [h, h2, slice_of_nonneg]
  have hmul : (p + 1) * n = p * n + n := by ring
  rw [hmul]
  apply List.ext_getElem?
  intro j
  simp only [List.getElem?_map, List.getElem?_drop, List.getElem?_take]
  by_cases hj : j < min filteredModelFiles.length (p * n + n) - p * n
  · have hlt : p * n + j < filteredModelFiles.length := by omega
    have hlt2 : p * n + j < p * n + n := by omega
    rw [List.getElem?_range' _ _ hj]
    simp [hlt2, List.getElem?_eq_getElem hlt]
  · rw [List.getElem?_eq_none (l := List.range' _ _) (by simpa using Nat.le_of_not_lt hj)]
    by_cases hlt2 : p * n + j < p * n + n
    · have hge : filteredModelFiles.length ≤ p * n + j := by omega
      simp [hlt2, List.getElem?_eq_none hge]
    · simp [hlt2]

/-- C23: for every filtered list, page index `p` and items-per-page value `n`,
after `renderPage(p)` the container holds distinct tiles whose models are, in
list order, exactly the elements of `filteredModelFiles` at the positions
`p*n` up to `min(length, (p+1)*n) - 1`: one tile for each, and no other tile.
So at most `n` tiles are in the container. -/
theorem renderPage_creates_one_page_of_tiles (w : World) (filteredModelFiles : List Nat)
    (p n : Nat) :
    (renderPageAt w filteredModelFiles p n).container.map
        (fun t => ((renderPageAt w filteredModelFiles p n).tiles t).model) =
      (List.range' (p * n) (min filteredModelFiles.length ((p + 1) * n) - p * n)).map
        (fun i => filteredModelFiles[i]?) ∧
    (renderPageAt w filteredModelFiles p n).container.Nodup ∧
    (renderPageAt w filteredModelFiles p n).container.length =
      min filteredModelFiles.length ((p + 1) * n) - p * n ∧
    (renderPageAt w filteredModelFiles p n).container.length ≤ n := by
  have hfold := foldl_appendTile
    (slice filteredModelFiles ((p : Int) * (n : Int)) ((p : Int) * (n : Int) + (n : Int)))
    (w.container.foldl cleanupRenderedTile w).clearContainer
  obtain ⟨h1, _, h3⟩ := hfold
  have hempty : (w.container.foldl cleanupRenderedTile w).clearContainer.container = [] := rfl
  rw [hempty, List.nil_append] at h1
  have hpage := slice_page_eq filteredModelFiles p n
  have hlen : (slice filteredModelFiles ((p : Int) * (n : Int))
      ((p : Int) * (n : Int) + (n : Int))).length =
      min filteredModelFiles.length ((p + 1) * n) - p * n := by
    have := congrArg List.length hpage
    simpa using this
  have hcont : (renderPageAt w filteredModelFiles p n).container =
      List.range' (w.container.foldl cleanupRenderedTile w).clearContainer.nextTile
        (slice filteredModelFiles ((p : Int) * (n : Int))
          ((p : Int) * (n : Int) + (n : Int))).length := h1
  refine ⟨?_, ?_, ?_, ?_⟩
  · rw [hcont, ← hpage]
    exact h3
  · rw [hcont]
    exact List.nodup_range' _ _
  · rw [hcont, List.length_range', hlen]
  · rw [hcont, List.length_range', hlen]
    have hmul : (p + 1) * n = p * n + n := by ring
    omega

/-! ## The grid: dropped files -/

set_option maxRecDepth 100000

theorem showDropped_lists (localeCompare : String → String → Int) (g : Grid) :
    (∀ e ∈ (showDropped localeCompare g).modelFiles, e ∈ g.modelFiles) ∧
      (∀ e ∈ (showDropped localeCompare g).filteredModelFiles, e ∈ g.modelFiles) := by
  have hsort : ∀ e, e ∈ sortByName localeCompare g.modelFiles → e ∈ g.modelFiles := by
    intro e he
    exact (List.perm_insertionSort _ _).mem_iff.mp he
  have hupd : ∀ g0 : Grid,
      (updateFilteredModelFiles g0).modelFiles = g0.modelFiles ∧
        ∀ e ∈ (updateFilteredModelFiles g0).filteredModelFiles, e ∈ g0.modelFiles := by
    intro g0
    unfold updateFilteredModelFiles
    simp only
    split
    · refine ⟨rfl, ?_⟩
      intro e he
      exact (List.mem_filter.mp he).1
    · refine ⟨rfl, ?_⟩
      intro e he
      exact (List.mem_filter.mp he).1
  obtain ⟨h1, h2⟩ := hupd { g with modelFiles := sortByName localeCompare g.modelFiles }
  constructor
  · intro e he
    have : (showDropped localeCompare g).modelFiles =
        (updateFilteredModelFiles
          { g with modelFiles := sortByName localeCompare g.modelFiles }).modelFiles := rfl
    rw [this, h1] at he
    exact hsort e he
  · intro e he
    have : (showDropped localeCompare g).filteredModelFiles =
        (updateFilteredModelFiles
          { g with modelFiles := sortByName localeCompare g.modelFiles }).filteredModelFiles :=
      rfl
    rw [this] at he
    exact hsort e (h2 e he)

/-- C24 on the code. With `a.fbx` loaded, a drop of the single file `test.xyz`
empties `modelFiles` and the container but leaves `a.fbx` in
`filteredModelFiles`: the branch for a drop without a supported file does not
call `updateFilteredModelFiles`. In every case `modelFiles` holds only
recognised files of the drop, and when the drop has a recognised file so does
`filteredModelFiles`. -/
theorem handleDrop_without_supported_file_keeps_filtered_list :
    ((gridOfFbx 1).filteredModelFiles =
        [⟨"a.fbx", fileOfName "a.fbx", "3d", "fbx", "a.fbx"⟩] ∧
      (handleDrop constantCompare (gridOfFbx 1) [fileOfName "test.xyz"]).modelFiles = [] ∧
      (handleDrop constantCompare (gridOfFbx 1) [fileOfName "test.xyz"]).tiles = [] ∧
      (handleDrop constantCompare (gridOfFbx 1) [fileOfName "test.xyz"]).filteredModelFiles =
        [⟨"a.fbx", fileOfName "a.fbx", "3d", "fbx", "a.fbx"⟩]) ∧
    (∀ (localeCompare : String → String → Int) (g : Grid) (droppedFiles : List JsFile),
      (∀ e ∈ (handleDrop localeCompare g droppedFiles).modelFiles,
        e ∈ droppedEntries droppedFiles) ∧
      (droppedEntries droppedFiles ≠ [] →
        ∀ e ∈ (handleDrop localeCompare g droppedFiles).filteredModelFiles,
          e ∈ droppedEntries droppedFiles)) := by
  refine ⟨by decide, ?_⟩
  intro localeCompare g droppedFiles
  have hshow := showDropped_lists localeCompare
    { g with modelFiles := droppedEntries droppedFiles, tiles := [] }
  unfold handleDrop
  simp only
  by_cases hlen : (droppedEntries droppedFiles).length > 0
  · rw [if_pos hlen]
    exact ⟨hshow.1, fun _ => hshow.2⟩
  · rw [if_neg hlen]
    refine ⟨fun e he => he, ?_⟩
    intro hne
    exact absurd (List.length_pos.mpr hne) hlen

/-! ## The grid: the page index under the navigation operations -/

theorem renderPage_fields (g : Grid) (i : Int) :
    (g.renderPage i).currentPage = g.currentPage ∧ pageCount (g.renderPage i) = pageCount g ∧
      (g.renderPage i).prevPageBtnDisabled = decide (g.currentPage = 0) ∧
      (g.renderPage i).nextPageBtnDisabled =
        decide (g.currentPage ≥ max 1 (pageCount g) - 1) :=
  ⟨rfl, rfl, rfl, rfl⟩

theorem keydown_arrowRight (g : Grid) (h : g.nextPageBtnDisabled = false)
    (h2 : g.currentPage + 2 ≤ pageCount g - 1) :
    (keydown g .ArrowRight).currentPage = g.currentPage + 2 := by
  have hnext : ¬ (g.currentPage + 1 ≥ max 1 (pageCount g) - 1) := by omega
  have hlt : g.currentPage + 1 < pageCount g - 1 := by omega
  simp only [keydown, uiKeydown, h, Bool.not_false, if_true, handleKeydown,
    navigationCallbacks.nextPage, Grid.renderPage, updatePagination, setCurrentPage,
    onNextPageClick, pageCount] at hnext hlt ⊢
  simp only [hnext, decide_False, Bool.not_false, if_true, hlt]
  ring

theorem keydown_arrowLeft (g : Grid) (h : g.prevPageBtnDisabled = false)
    (h2 : 2 ≤ g.currentPage) :
    (keydown g .ArrowLeft).currentPage = g.currentPage - 2 := by
  have hprev : ¬ (g.currentPage - 1 = 0) := by omega
  have hgt : g.currentPage - 1 > 0 := by omega
  simp only [keydown, uiKeydown, h, Bool.not_false, if_true, handleKeydown,
    navigationCallbacks.prevPage, Grid.renderPage, updatePagination, setCurrentPage,
    onPrevPageClick, pageCount] at hprev hgt ⊢
  simp only [hprev, decide_False, Bool.not_false, if_true, hgt]
  ring

theorem pageCount_nonneg (g : Grid) : 0 ≤ pageCount g := by
  unfold pageCount
  exact Int.natCast_nonneg _

theorem pageCount_of_empty (g : Grid) (h : g.filteredModelFiles = []) (hn : 0 < g.itemsPerPage) :
    pageCount g = 0 := by
  unfold pageCount
  rw [h, List.length_nil, Nat.zero_add]
  have : (g.itemsPerPage - 1) / g.itemsPerPage = 0 := Nat.div_eq_of_lt (by omega)
  rw [this]
  rfl

theorem pageCount_pos (g : Grid) (h : g.filteredModelFiles ≠ []) (hn : 0 < g.itemsPerPage) :
    1 ≤ pageCount g := by
  unfold pageCount
  have hlen : 0 < g.filteredModelFiles.length := List.length_pos.mpr h
  have : 0 < (g.filteredModelFiles.length + g.itemsPerPage - 1) / g.itemsPerPage :=
    Nat.div_pos (by omega) hn
  exact_mod_cast this

theorem renderPage_current (g : Grid) (i : Int) (hr : PageInRange g) :
    PageInRange (g.renderPage i) ∧ ButtonsCurrent (g.renderPage i) ∧
      (g.renderPage i).itemsPerPage = g.itemsPerPage :=
  ⟨hr, ⟨rfl, rfl⟩, rfl⟩

theorem updatePagination_current (g : Grid) (hr : PageInRange g) :
    PageInRange (updatePagination g (pageCount g)) ∧
      ButtonsCurrent (updatePagination g (pageCount g)) ∧
      (updatePagination g (pageCount g)).itemsPerPage = g.itemsPerPage :=
  ⟨hr, ⟨rfl, rfl⟩, rfl⟩

theorem setCurrentPage_inRange (g : Grid) (q : Int) (h0 : 0 ≤ q)
    (h1 : q ≤ max 0 (pageCount g - 1)) : PageInRange (setCurrentPage g q) :=
  ⟨h0, h1⟩

theorem zero_inRange (g : Grid) : PageInRange (setCurrentPage g 0) :=
  ⟨le_refl _, le_max_left _ _⟩

theorem updateFilteredModelFiles_inRange (g : Grid) (hr : PageInRange g) :
    PageInRange (updateFilteredModelFiles g) ∧
      (updateFilteredModelFiles g).itemsPerPage = g.itemsPerPage ∧
      (ButtonsCurrent g → ButtonsCurrent (updateFilteredModelFiles g)) := by
  unfold updateFilteredModelFiles
  simp only
  split
  · have h := renderPage_current
      (setCurrentPage { g with filteredModelFiles := g.modelFiles.filter (fun item =>
        (g.activeFilters.contains item.type || g.activeFilters.contains item.subtype) &&
          fileMatchesSearch g.searchTerm item) } 0) 0 (zero_inRange _)
    exact ⟨h.1, h.2.2, fun _ => h.2.1⟩
  · rename_i hlen
    have hlen' : g.filteredModelFiles.length = (g.modelFiles.filter (fun item =>
        (g.activeFilters.contains item.type || g.activeFilters.contains item.subtype) &&
          fileMatchesSearch g.searchTerm item)).length := by
      by_contra hne
      exact hlen hne
    have hpc : pageCount { g with filteredModelFiles := g.modelFiles.filter (fun item =>
        (g.activeFilters.contains item.type || g.activeFilters.contains item.subtype) &&
          fileMatchesSearch g.searchTerm item) } = pageCount g := by
      unfold pageCount
      simp only
      rw [← hlen']
    refine ⟨?_, rfl, ?_⟩
    · unfold PageInRange at hr ⊢
      rw [hpc]
      exact hr
    · intro hb
      unfold ButtonsCurrent at hb ⊢
      rw [hpc]
      exact hb

theorem onPrevPageClick_current (g : Grid) (hr : PageInRange g) (hb : ButtonsCurrent g) :
    PageInRange (onPrevPageClick g) ∧ ButtonsCurrent (onPrevPageClick g) ∧
      (onPrevPageClick g).itemsPerPage = g.itemsPerPage := by
  unfold onPrevPageClick
  split
  · rename_i hpos
    refine ⟨⟨?_, ?_⟩, ⟨rfl, rfl⟩, rfl⟩
    · show 0 ≤ g.currentPage - 1
      omega
    · show g.currentPage - 1 ≤ max 0 (pageCount g - 1)
      have := hr.2
      omega
  · exact ⟨hr, hb, rfl⟩

theorem onNextPageClick_current (g : Grid) (hr : PageInRange g) (hb : ButtonsCurrent g) :
    PageInRange (onNextPageClick g) ∧ ButtonsCurrent (onNextPageClick g) ∧
      (onNextPageClick g).itemsPerPage = g.itemsPerPage := by
  unfold onNextPageClick
  split
  · rename_i hlt
    refine ⟨⟨?_, ?_⟩, ⟨rfl, rfl⟩, rfl⟩
    · show 0 ≤ g.currentPage + 1
      have := hr.1
      omega
    · show g.currentPage + 1 ≤ max 0 (pageCount g - 1)
      omega
  · exact ⟨hr, hb, rfl⟩

theorem uiKeydown_current (g : Grid) (k : Key) (hr : PageInRange g) (hb : ButtonsCurrent g) :
    PageInRange (uiKeydown g k) ∧ ButtonsCurrent (uiKeydown g k) ∧
      (uiKeydown g k).itemsPerPage = g.itemsPerPage ∧
      (uiKeydown g k).filteredModelFiles = g.filteredModelFiles := by
  have hprev : g.prevPageBtnDisabled = false → 1 ≤ g.currentPage := by
    intro h
    have h1 := hb.1
    rw [h] at h1
    have h2 : ¬ g.currentPage = 0 := by simpa using h1.symm
    have := hr.1
    omega
  have hnext : g.nextPageBtnDisabled = false → g.currentPage + 1 ≤ pageCount g - 1 := by
    intro h
    have h1 := hb.2
    rw [h] at h1
    have h2 : ¬ g.currentPage ≥ max 1 (pageCount g) - 1 := by simpa using h1.symm
    have := hr.1
    omega
  have back : g.prevPageBtnDisabled = false →
      PageInRange ((setCurrentPage g (g.currentPage - 1)).renderPage
        (setCurrentPage g (g.currentPage - 1)).currentPage) := by
    intro h
    refine ⟨?_, ?_⟩
    · show 0 ≤ g.currentPage - 1
      have := hprev h
      omega
    · show g.currentPage - 1 ≤ max 0 (pageCount g - 1)
      have := hr.2
      omega
  have forward : g.nextPageBtnDisabled = false →
      PageInRange ((setCurrentPage g (g.currentPage + 1)).renderPage
        (setCurrentPage g (g.currentPage + 1)).currentPage) := by
    intro h
    refine ⟨?_, ?_⟩
    · show 0 ≤ g.currentPage + 1
      have := hr.1
      omega
    · show g.currentPage + 1 ≤ max 0 (pageCount g - 1)
      have := hnext h
      omega
  cases k with
  | ArrowLeft =>
    simp only [uiKeydown]
    cases h : g.prevPageBtnDisabled with
    | true => exact ⟨hr, hb, rfl, rfl⟩
    | false => exact ⟨back h, ⟨rfl, rfl⟩, rfl, rfl⟩
  | PageUp =>
    simp only [uiKeydown]
    cases h : g.prevPageBtnDisabled with
    | true => exact ⟨hr, hb, rfl, rfl⟩
    | false => exact ⟨back h, ⟨rfl, rfl⟩, rfl, rfl⟩
  | ArrowRight =>
    simp only [uiKeydown]
    cases h : g.nextPageBtnDisabled with
    | true => exact ⟨hr, hb, rfl, rfl⟩
    | false => exact ⟨forward h, ⟨rfl, rfl⟩, rfl, rfl⟩
  | PageDown =>
    simp only [uiKeydown]
    cases h : g.nextPageBtnDisabled with
    | true => exact ⟨hr, hb, rfl, rfl⟩
    | false => exact ⟨forward h, ⟨rfl, rfl⟩, rfl, rfl⟩
  | Home => exact ⟨hr, hb, rfl, rfl⟩
  | End => exact ⟨hr, hb, rfl, rfl⟩

theorem handleKeydown_current (g : Grid) (k : Key) (hn : 0 < g.itemsPerPage)
    (hr : PageInRange g) (hb : ButtonsCurrent g)
    (hend : k ≠ Key.End ∨ g.filteredModelFiles ≠ []) :
    PageInRange (handleKeydown g k) ∧ ButtonsCurrent (handleKeydown g k) ∧
      (handleKeydown g k).itemsPerPage = g.itemsPerPage := by
  have hnextPage : PageInRange (navigationCallbacks.nextPage g) ∧
      ButtonsCurrent (navigationCallbacks.nextPage g) ∧
      (navigationCallbacks.nextPage g).itemsPerPage = g.itemsPerPage := by
    unfold navigationCallbacks.nextPage
    split
    · exact onNextPageClick_current g hr hb
    · exact ⟨hr, hb, rfl⟩
  have hprevPage : PageInRange (navigationCallbacks.prevPage g) ∧
      ButtonsCurrent (navigationCallbacks.prevPage g) ∧
      (navigationCallbacks.prevPage g).itemsPerPage = g.itemsPerPage := by
    unfold navigationCallbacks.prevPage
    split
    · exact onPrevPageClick_current g hr hb
    · exact ⟨hr, hb, rfl⟩
  cases k with
  | ArrowLeft => exact hprevPage
  | PageUp => exact hprevPage
  | ArrowRight => exact hnextPage
  | PageDown => exact hnextPage
  | Home => exact ⟨zero_inRange g, ⟨rfl, rfl⟩, rfl⟩
  | End =>
    have hne : g.filteredModelFiles ≠ [] := by
      rcases hend with h | h
      · exact absurd rfl h
      · exact h
    have hpc := pageCount_pos g hne hn
    refine ⟨⟨?_, ?_⟩, ⟨rfl, rfl⟩, rfl⟩
    · show 0 ≤ pageCount g - 1
      omega
    · show pageCount g - 1 ≤ max 0 (pageCount g - 1)
      exact le_max_right _ _

theorem applyPageOp_current (g : Grid) (op : PageOp) (hn : 0 < g.itemsPerPage)
    (hr : PageInRange g) (hb : ButtonsCurrent g) (hpos : op.positive = true)
    (hend : op.isEnd = false ∨ g.filteredModelFiles ≠ []) :
    PageInRange (applyPageOp g op) ∧ ButtonsCurrent (applyPageOp g op) ∧
      0 < (applyPageOp g op).itemsPerPage := by
  cases op with
  | prevButton =>
    simp only [applyPageOp]
    split
    · exact ⟨hr, hb, hn⟩
    · have h := onPrevPageClick_current g hr hb
      exact ⟨h.1, h.2.1, by rw [h.2.2]; exact hn⟩
  | nextButton =>
    simp only [applyPageOp]
    split
    · exact ⟨hr, hb, hn⟩
    · have h := onNextPageClick_current g hr hb
      exact ⟨h.1, h.2.1, by rw [h.2.2]; exact hn⟩
  | key k =>
    simp only [applyPageOp, keydown]
    have h1 := uiKeydown_current g k hr hb
    have hend2 : k ≠ Key.End ∨ (uiKeydown g k).filteredModelFiles ≠ [] := by
      rcases hend with h | h
      · left
        intro hk
        subst hk
        simp [PageOp.isEnd] at h
      · right
        rw [h1.2.2.2]
        exact h
    have h2 := handleKeydown_current (uiKeydown g k) k (by rw [h1.2.2.1]; exact hn) h1.1 h1.2.1
      hend2
    exact ⟨h2.1, h2.2.1, by rw [h2.2.2, h1.2.2.1]; exact hn⟩
  | itemsPerPage value =>
    have hv : 0 < value := by simpa [PageOp.positive] using hpos
    exact ⟨zero_inRange _, ⟨rfl, rfl⟩, hv⟩
  | filter type isActive =>
    simp only [applyPageOp, onFilterOptionClick]
    have h := updateFilteredModelFiles_inRange
      { g with
        activeFilters :=
          if isActive then
            if g.activeFilters.contains type then g.activeFilters else g.activeFilters ++ [type]
          else g.activeFilters.filter (fun t => t != type) } hr
    exact ⟨h.1, h.2.2 hb, by rw [h.2.1]; exact hn⟩
  | search value =>
    simp only [applyPageOp, onSearch]
    have h := updateFilteredModelFiles_inRange
      (setCurrentPage { g with searchTerm := toLowerCase value } 0) (zero_inRange _)
    have h2 := renderPage_current _
      (updateFilteredModelFiles
        (setCurrentPage { g with searchTerm := toLowerCase value } 0)).currentPage h.1
    exact ⟨h2.1, h2.2.1, by rw [h2.2.2, h.2.1]; exact hn⟩
  | clearSearch =>
    simp only [applyPageOp, clearSearch]
    have h := updateFilteredModelFiles_inRange
      (setCurrentPage { g with searchTerm := "" } 0) (zero_inRange _)
    have h2 := renderPage_current _
      (updateFilteredModelFiles (setCurrentPage { g with searchTerm := "" } 0)).currentPage h.1
    exact ⟨h2.1, h2.2.1, by rw [h2.2.2, h.2.1]; exact hn⟩

/-- C25 on the code: with 41 assets at 20 per page (three pages) and page 0
shown, one ArrowRight press moves to page 2, and one ArrowLeft press from
there back to page 0, although each listener alone moves one page. Both
`keydown` listeners handle the key: the one of `initializeUI` changes the page
and re-renders, which enables the button again, and the shortcut manager then
clicks the button. In general a key press moves two pages whenever two pages
remain in its direction. -/
theorem arrow_key_moves_two_pages :
    (pageCount (gridOfFbx 41) = 3 ∧ (gridOfFbx 41).currentPage = 0 ∧
      (uiKeydown (gridOfFbx 41) .ArrowRight).currentPage = 1 ∧
      (handleKeydown (gridOfFbx 41) .ArrowRight).currentPage = 1 ∧
      (keydown (gridOfFbx 41) .ArrowRight).currentPage = 2 ∧
      (keydown (keydown (gridOfFbx 41) .ArrowRight) .ArrowLeft).currentPage = 0) ∧
    (∀ g : Grid, g.nextPageBtnDisabled = false → g.currentPage + 2 ≤ pageCount g - 1 →
      (keydown g .ArrowRight).currentPage = g.currentPage + 2) ∧
    (∀ g : Grid, g.prevPageBtnDisabled = false → 2 ≤ g.currentPage →
      (keydown g .ArrowLeft).currentPage = g.currentPage - 2) := by
  exact ⟨by decide, keydown_arrowRight, keydown_arrowLeft⟩

/-- C30 on the code: on the initial grid, whose filtered list is empty, the
End key calls `lastPage`, which sets the page index to
`Math.ceil(0 / 20) - 1 = -1`; so does `lastPage` on every grid with an empty
filtered list. Every other page-navigation operation, and End on a non-empty
filtered list, keeps the page index within `0 .. max(0, pageCount - 1)` (and
the button flags current) when it starts from such a state. -/
theorem end_key_on_empty_list_sets_page_minus_one :
    (Grid.initial.filteredModelFiles = [] ∧ Grid.initial.currentPage = 0 ∧
      (keydown Grid.initial .End).currentPage = -1 ∧
      (applyPageOp Grid.initial (.key .End)).currentPage = -1) ∧
    (∀ g : Grid, g.filteredModelFiles = [] → 0 < g.itemsPerPage →
      (navigationCallbacks.lastPage g).currentPage = -1 ∧
        ¬ PageInRange (navigationCallbacks.lastPage g)) ∧
    (∀ (g : Grid) (op : PageOp), 0 < g.itemsPerPage → PageInRange g → ButtonsCurrent g →
      op.positive = true → (op.isEnd = false ∨ g.filteredModelFiles ≠ []) →
      PageInRange (applyPageOp g op) ∧ ButtonsCurrent (applyPageOp g op) ∧
        0 < (applyPageOp g op).itemsPerPage) := by
  refine ⟨by decide, ?_, applyPageOp_current⟩
  intro g hempty hn
  have hpc := pageCount_of_empty g hempty hn
  have hpage : (navigationCallbacks.lastPage g).currentPage = -1 := by
    show pageCount g - 1 = -1
    rw [hpc]
    rfl
  refine ⟨hpage, ?_⟩
  intro hr
  have := hr.1
  rw [hpage] at this
  omega

/-! ## The debounced function -/

theorem callAt_of_pending {α : Type} (wait : Nat) (s : Debounced α) (h t : Nat) (a : α)
    (call : Nat × α) (htimers : s.timers = [⟨h, t + wait, a⟩]) (htimeout : s.timeout = some h)
    (hlast : s.lastHandle = h) (hinvoked : s.invoked = []) (hlt : call.1 < t + wait) :
    callAt wait false s call =
      { timeout := some (h + 1), timers := [⟨h + 1, call.1 + wait, call.2⟩],
        lastHandle := h + 1, invoked := [] } := by
  have hadv : advanceTo false s call.1 = s := by
    unfold advanceTo
    rw [htimers]
    have : ¬ (t + wait ≤ call.1) := by omega
    simp [this]
  unfold callAt
  rw [hadv]
  cases s with
  | mk timeout timers lastHandle invoked =>
    simp only at htimers htimeout hlast hinvoked
    subst htimers htimeout hlast hinvoked
    simp [executedFunction, Debounced.clearTimeout]

theorem foldl_callAt_of_pending {α : Type} (wait : Nat) :
    ∀ (calls : List (Nat × α)) (s : Debounced α) (h t : Nat) (a : α),
      s.timers = [⟨h, t + wait, a⟩] → s.timeout = some h → s.lastHandle = h →
      s.invoked = [] →
      List.Chain (fun x y : Nat × α => x.1 ≤ y.1 ∧ y.1 < x.1 + wait) (t, a) calls →
      ∃ h', calls.foldl (callAt wait false) s =
        { timeout := some h',
          timers := [⟨h', (calls.getLastD (t, a)).1 + wait, (calls.getLastD (t, a)).2⟩],
          lastHandle := h', invoked := [] } := by
  intro calls
  induction calls with
  | nil =>
    intro s h t a htimers htimeout hlast hinvoked _
    refine ⟨h, ?_⟩
    cases s with
    | mk timeout timers lastHandle invoked =>
      simp only at htimers htimeout hlast hinvoked
      subst htimers htimeout hlast hinvoked
      rfl
  | cons call rest ih =>
    intro s h t a htimers htimeout hlast hinvoked hchain
    obtain ⟨hrel, hrest⟩ := List.chain_cons.mp hchain
    have hstep := callAt_of_pending wait s h t a call htimers htimeout hlast hinvoked hrel.2
    obtain ⟨h', hfold⟩ := ih (callAt wait false s call) (h + 1) call.1 call.2
      (by rw [hstep]) (by rw [hstep]) (by rw [hstep]) (by rw [hstep]) hrest
    have hl : (call :: rest).getLastD (t, a) = rest.getLastD (call.1, call.2) := by
      cases rest <;> rfl
    refine ⟨h', ?_⟩
    rw [List.foldl_cons, hfold, hl]

/-- C26: for every wait and every non-empty sequence of calls of the debounced
function (`immediate = false`) in which each call comes less than `wait`
milliseconds after the previous one, `func` has been invoked exactly once by
any time from `wait` milliseconds after the last call on, at that time and
with the arguments of the last call, and has not been invoked at any earlier
time. -/
theorem debounce_invokes_once_after_last_call {α : Type} (wait : Nat)
    (calls : List (Nat × α)) (finish : Nat) (hne : calls ≠ [])
    (hchain : List.Chain' (fun x y : Nat × α => x.1 ≤ y.1 ∧ y.1 < x.1 + wait) calls) :
    (debounceRun wait false calls finish).invoked =
      if (calls.getLast hne).1 + wait ≤ finish then
        [((calls.getLast hne).1 + wait, (calls.getLast hne).2)]
      else [] := by
  cases calls with
  | nil => exact absurd rfl hne
  | cons call rest =>
    have hfirst : callAt wait false (debounce α) call =
        { timeout := some 1, timers := [⟨1, call.1 + wait, call.2⟩], lastHandle := 1,
          invoked := [] } := by
      simp [callAt, advanceTo, debounce, executedFunction, Debounced.clearTimeout]
    obtain ⟨h', hfold⟩ := foldl_callAt_of_pending wait rest (callAt wait false (debounce α) call)
      1 call.1 call.2 (by rw [hfirst]) (by rw [hfirst]) (by rw [hfirst]) (by rw [hfirst])
      hchain
    have hlast : (call :: rest).getLast hne = rest.getLastD call :=
      List.getLast_eq_getLastD call rest hne
    have hfold2 : rest.foldl (callAt wait false) (callAt wait false (debounce α) call) =
        { timeout := some h',
          timers := [⟨h', (rest.getLastD call).1 + wait, (rest.getLastD call).2⟩],
          lastHandle := h', invoked := [] } := hfold
    unfold debounceRun
    rw [List.foldl_cons, hfold2, hlast]
    generalize rest.getLastD call = last
    unfold advanceTo
    by_cases hdue : last.1 + wait ≤ finish
    · simp [hdue, later]
    · simp [hdue]

/-- C26 for three calls at the times 0, 100 and 250 with a wait of 300 ms:
`func` is invoked once, at the time 550 with the arguments of the third call,
as observed at the time 1000. -/
theorem debounce_invokes_once_after_last_call_witness :
    (debounceRun 300 false [(0, "f"), (100, "fb"), (250, "fbx")] 1000).invoked =
      [(550, "fbx")] :=
  debounce_invokes_once_after_last_call 300 [(0, "f"), (100, "fb"), (250, "fbx")] 1000
    (by decide) (by simp)

/-! ## Navigation in the full view -/

theorem findIndex_of_distinct {α : Type} (key : α → String) (target : String) :
    ∀ (list : List α) (i : Nat) (x : α), (list.map key).Nodup → list[i]? = some x →
      key x = target → findIndex (fun y => decide (some (key y) = some target)) list = some i := by
  intro list
  induction list with
  | nil => intro i x _ h; simp at h
  | cons y ys ih =>
    intro i x hnd hget hkey
    simp only [List.map_cons, List.nodup_cons] at hnd
    cases i with
    | zero =>
      simp only [List.getElem?_cons_zero, Option.some.injEq] at hget
      subst hget
      simp [findIndex, hkey]
    | succ j =>
      simp only [List.getElem?_cons_succ] at hget
      have hmem : key x ∈ ys.map key :=
        List.mem_map.mpr ⟨x, List.mem_iff_getElem?.mpr ⟨j, hget⟩, rfl⟩
      have hne : ¬ key y = target := by
        intro h
        rw [← hkey] at h
        exact hnd.1 (h ▸ hmem)
      have hrest := ih j x hnd.2 hget hkey
      simp only [findIndex, Option.some.injEq, hne, decide_False, Bool.false_eq_true, if_false]
      simp only [Option.some.injEq] at hrest
      rw [hrest]
      rfl

/-- C28 on the code. The filtered list `[0, 1, 2]` holds `x/a.png`, `b.png`
and `y/a.png`, and the full view shows `y/a.png`, at position 2. The current
asset is looked up by file name, which finds position 0: `next` dismisses the
view and opens `b.png` at position 1, where the claim has it do nothing, and
`prev` does nothing, where the claim has it open position 1. When the file
names of the filtered list are distinct, the lookup finds the position `i` of
the asset shown: `next` dismisses the view and opens position `i + 1` when
there is one and does nothing otherwise, and `prev` likewise with `i - 1`. -/
theorem navigateFullscreen_finds_first_of_same_name :
    (secondDuplicateShown.currentFullscreenViewer =
        some ⟨none, "a.png", some (.revokeUrl "blob:2")⟩ ∧
      (navigateFullscreen secondDuplicateShown [0, 1, 2] .next
          (fullscreenEnvOk "blob:n")).currentFullscreenViewer =
        some ⟨none, "b.png", some (.revokeUrl "blob:n")⟩ ∧
      (navigateFullscreen secondDuplicateShown [0, 1, 2] .next (fullscreenEnvOk "blob:n")).log =
        secondDuplicateShown.log ++
          [.cleanupCalled "a.png", .revokeObjectURL "blob:2", .createObjectURL "blob:n"] ∧
      (navigateFullscreen secondDuplicateShown [0, 1, 2] .prev (fullscreenEnvOk "blob:n")).log =
        secondDuplicateShown.log ∧
      (navigateFullscreen secondDuplicateShown [0, 1, 2] .prev
          (fullscreenEnvOk "blob:n")).currentFullscreenViewer =
        secondDuplicateShown.currentFullscreenViewer) ∧
    (∀ (w : World) (filteredModelFiles : List Nat) (i current : Nat) (viewer : FullscreenViewer)
        (env : FullscreenEnv),
      (filteredModelFiles.map (fun file => (w.models file).name)).Nodup →
      filteredModelFiles[i]? = some current → w.currentFullscreenViewer = some viewer →
      viewer.fileName = (w.models current).name →
      (navigateFullscreen w filteredModelFiles .next env =
          match filteredModelFiles[i + 1]? with
          | some nextFile => showFullscreen (exitFullscreen w (some viewer)) nextFile env
          | none => w) ∧
        (navigateFullscreen w filteredModelFiles .prev env =
          if 1 ≤ i then
            match filteredModelFiles[i - 1]? with
            | some nextFile => showFullscreen (exitFullscreen w (some viewer)) nextFile env
            | none => w
          else w)) := by
  refine ⟨by decide, ?_⟩
  intro w filteredModelFiles i current viewer env hnd hget hviewer hname
  have hfind : findIndex
      (fun file => decide (some (w.models file).name =
        w.currentFullscreenViewer.map (fun viewer => viewer.fileName)))
      filteredModelFiles = some i := by
    rw [hviewer]
    exact findIndex_of_distinct (fun file => (w.models file).name) viewer.fileName
      filteredModelFiles i current hnd hget hname.symm
  have hi : i < filteredModelFiles.length := by
    by_contra hge
    rw [List.getElem?_eq_none (by omega)] at hget
    exact absurd hget (by simp)
  constructor
  · unfold navigateFullscreen
    rw [hfind]
    simp only [hviewer, if_neg (show ¬ Direction.next = Direction.prev by decide)]
    by_cases hnext : i + 1 < filteredModelFiles.length
    · have hcond : ((i : Int) + 1 ≥ 0 ∧ (i : Int) + 1 < filteredModelFiles.length) := by
        constructor <;> omega
      have hnat : ((i : Int) + 1).toNat = i + 1 := by omega
      rw [if_pos hcond, hnat]
      try rfl
    · have hcond : ¬ ((i : Int) + 1 ≥ 0 ∧ (i : Int) + 1 < filteredModelFiles.length) := by
        intro h
        omega
      rw [if_neg hcond, List.getElem?_eq_none (by omega)]
      try rfl
  · unfold navigateFullscreen
    rw [hfind]
    simp only [hviewer, if_true]
    by_cases hprev : 1 ≤ i
    · have hcond : ((i : Int) - 1 ≥ 0 ∧ (i : Int) - 1 < filteredModelFiles.length) := by
        constructor <;> omega
      have hnat : ((i : Int) - 1).toNat = i - 1 := by omega
      rw [if_pos hcond, hnat, if_pos hprev]
      try rfl
    · have hcond : ¬ ((i : Int) - 1 ≥ 0 ∧ (i : Int) - 1 < filteredModelFiles.length) := by
        intro h
        omega
      rw [if_neg hcond, if_neg hprev]
      try rfl

/-! ## File type detection with the platform's lower-casing -/

theorem toLower_of_not_upper (c : Char) (h : ¬ (65 ≤ c.toNat ∧ c.toNat ≤ 90)) :
    c.toLower = c := by
  unfold Char.toLower
  simp only [ge_iff_le]
  rw [if_neg h]

theorem toLower_cases (c : Char) :
    c.toLower = c ∨ (65 ≤ c.toNat ∧ c.toNat ≤ 90 ∧ c.toLower.toNat = c.toNat + 32) := by
  by_cases hc : c.toNat ≥ 65 ∧ c.toNat ≤ 90
  · refine Or.inr ⟨hc.1, hc.2, ?_⟩
    unfold Char.toLower
    simp only [hc, and_self, if_true]
    obtain ⟨h1, h2⟩ := hc
    generalize c.toNat = n at h1 h2
    interval_cases n <;> decide
  · exact Or.inl (toLower_of_not_upper c hc)

theorem sampleLowerChar_toLower (c : Char) : sampleLowerChar c.toLower = sampleLowerChar c := by
  rcases toLower_cases c with h | ⟨h1, h2, h3⟩
  · rw [h]
  · have hk : (Char.ofNat 0x212A).toNat = 8490 := by decide
    have he : (Char.ofNat 0xC9).toNat = 201 := by decide
    have n1 : c ≠ Char.ofNat 0x212A := fun h => by rw [h, hk] at h2; omega
    have n2 : c ≠ Char.ofNat 0xC9 := fun h => by rw [h, he] at h2; omega
    have n3 : c.toLower ≠ Char.ofNat 0x212A := fun h => by rw [h, hk] at h3; omega
    have n4 : c.toLower ≠ Char.ofNat 0xC9 := fun h => by rw [h, he] at h3; omega
    have hidem : c.toLower.toLower = c.toLower :=
      toLower_of_not_upper _ (by rw [h3]; omega)
    simp only [sampleLowerChar, n1, n2, n3, n4, if_false, hidem]

theorem sampleLowerChar_of_ascii (c : Char) (h : c.toNat < 128) :
    sampleLowerChar c = c.toLower := by
  have hk : (Char.ofNat 0x212A).toNat = 8490 := by decide
  have he : (Char.ofNat 0xC9).toNat = 201 := by decide
  have n1 : c ≠ Char.ofNat 0x212A := fun h' => by rw [h', hk] at h; omega
  have n2 : c ≠ Char.ofNat 0xC9 := fun h' => by rw [h', he] at h; omega
  simp only [sampleLowerChar, n1, n2, if_false]

theorem sampleLowerChar_eq_dot (c : Char) (h : sampleLowerChar c = '.') : c = '.' := by
  unfold sampleLowerChar at h
  split at h
  · exact absurd h (by decide)
  · split at h
    · exact absurd h (by decide)
    · exact (toLower_eq_dot c).mp h

theorem sampleToLowerCase_lowerCases : LowerCases sampleToLowerCase := by
  refine ⟨?_, ?_, ?_⟩
  · intro s hs
    unfold sampleToLowerCase toLowerCase
    congr 1
    apply List.map_congr_left
    intro c hc
    exact sampleLowerChar_of_ascii c (hs c hc)
  · intro s
    unfold sampleToLowerCase toLowerCase
    simp only [List.map_map]
    congr 1
    apply List.map_congr_left
    intro c _
    exact sampleLowerChar_toLower c
  · intro s h
    unfold sampleToLowerCase at h
    simp only [List.mem_map] at h
    obtain ⟨c, hc, hdot⟩ := h
    rw [← sampleLowerChar_eq_dot c hdot]
    exact hc

theorem listed_extensions_ascii_lower :
    ∀ entry ∈ fileTypeDetector.FILE_TYPE_MAPPINGS, ∀ ext ∈ entry.2.extensions,
      (∀ c ∈ ext.data, c.toNat < 128) ∧ toLowerCase ext = ext := by
  decide

theorem extensionToTypeWith_eq (lower : String → String) (h : LowerCases lower) :
    fileTypeDetector.extensionToTypeWith lower = fileTypeDetector.EXTENSION_TO_TYPE := by
  unfold fileTypeDetector.extensionToTypeWith fileTypeDetector.EXTENSION_TO_TYPE
  apply List.foldl_ext
  intro object entry hentry
  apply List.foldl_ext
  intro o ext hext
  have hlisted := listed_extensions_ascii_lower entry hentry ext hext
  rw [h.ascii ext hlisted.1]

theorem detectFileTypeWith_eq_some (lower : String → String) (h : LowerCases lower)
    (filename : String) (r : DetectedType) :
    fileTypeDetector.detectFileTypeWith lower filename = some r ↔
      filename ≠ "" ∧ ∃ i config, lastIndexOf '.' (lower filename).data = some i ∧
        getProperty fileTypeDetector.EXTENSION_TO_TYPE
          (String.mk ((lower filename).data.drop i)) = some config ∧
        r = ⟨config.type, config.subtype, String.mk ((lower filename).data.drop i)⟩ := by
  unfold fileTypeDetector.detectFileTypeWith
  rw [extensionToTypeWith_eq lower h]
  by_cases hempty : filename = ""
  · simp [hempty]
  · simp only [hempty, if_false, ne_eq, not_false_eq_true, true_and]
    cases hdot : lastIndexOf '.' (lower filename).data with
    | none => simp
    | some i =>
      simp only [Option.some.injEq]
      cases hget : getProperty fileTypeDetector.EXTENSION_TO_TYPE
          (String.mk ((lower filename).data.drop i)) with
      | none =>
        constructor
        · intro h; exact absurd h (by simp)
        · rintro ⟨j, config, hj, hc, _⟩
          subst hj
          rw [hget] at hc
          exact absurd hc (by simp)
      | some config =>
        constructor
        · intro h
          simp only [Option.some.injEq] at h
          exact ⟨i, config, rfl, hget, h.symm⟩
        · rintro ⟨j, config2, hj, hc, hr⟩
          subst hj
          rw [hget] at hc
          simp only [Option.some.injEq] at hc
          subst hc
          simp [hr]

theorem detectFileTypeWith_of_ascii (lower : String → String) (h : LowerCases lower)
    (filename : String) (hascii : ∀ c ∈ filename.data, c.toNat < 128) :
    fileTypeDetector.detectFileTypeWith lower filename =
      fileTypeDetector.detectFileType filename := by
  unfold fileTypeDetector.detectFileTypeWith fileTypeDetector.detectFileType
  rw [extensionToTypeWith_eq lower h, h.ascii filename hascii]

/-- C22: on every platform whose `toLowerCase` has the properties `LowerCases`
(as `String.prototype.toLowerCase` has), `detectFileType` of
`fileTypeDetector.js` returns an object exactly when the filename is not empty
and its lower-casing is `pre ++ ext`, where `ext` starts with the last `.` and
is listed in the `extensions` of an entry of `FILE_TYPE_MAPPINGS`; the object
then has that entry's `type` and `subtype` (and the field `extension`), and
the filename contains a `.`. Filenames that differ only in the case of ASCII
letters get the same result; a filename without `.` gets `null`, as does
`test.xyz`, and `isFileTypeSupported` says whether the result is not `null`. -/
theorem detectFileType_iff_lowercased_extension_listed (lower : String → String)
    (h : LowerCases lower) (filename : String) :
    (∀ r, fileTypeDetector.detectFileTypeWith lower filename = some r ↔
      filename ≠ "" ∧ '.' ∈ filename.data ∧
        ∃ pre rest, (lower filename).data = pre ++ '.' :: rest ∧ '.' ∉ rest ∧
          ∃ entry ∈ fileTypeDetector.FILE_TYPE_MAPPINGS,
            String.mk ('.' :: rest) ∈ entry.2.extensions ∧
            r = ⟨entry.2.type, entry.2.subtype, String.mk ('.' :: rest)⟩) ∧
      (∀ variant, toLowerCase variant = toLowerCase filename →
        fileTypeDetector.detectFileTypeWith lower variant =
          fileTypeDetector.detectFileTypeWith lower filename) ∧
      ('.' ∉ filename.data → fileTypeDetector.detectFileTypeWith lower filename = none) ∧
      (fileTypeDetector.isFileTypeSupportedWith lower filename = true ↔
        fileTypeDetector.detectFileTypeWith lower filename ≠ none) ∧
      fileTypeDetector.detectFileTypeWith lower "test.xyz" = none ∧
      fileTypeDetector.isFileTypeSupportedWith lower "test.xyz" = false := by
  have hxyz : fileTypeDetector.detectFileTypeWith lower "test.xyz" = none := by
    rw [detectFileTypeWith_of_ascii lower h "test.xyz" (by decide)]
    decide
  refine ⟨?_, ?_, ?_, ?_, hxyz, ?_⟩
  · intro r
    rw [detectFileTypeWith_eq_some lower h]
    constructor
    · rintro ⟨hne, i, config, hi, hget, hr⟩
      obtain ⟨pre, rest, hl, hrest, hlen⟩ := (lastIndexOf_eq_some _ _ _).mp hi
      have hdrop : (lower filename).data.drop i = '.' :: rest := by
        rw [hl, ← hlen]; simp
      rw [hdrop] at hget hr
      obtain ⟨entry, hentry, hext, hcfg⟩ := (getProperty_extension_iff _ _).mp hget
      have hmem : '.' ∈ filename.data := by
        apply h.dot
        rw [hl]
        simp
      exact ⟨hne, hmem, pre, rest, hl, hrest, entry, hentry, hext, by rw [hr, hcfg]⟩
    · rintro ⟨hne, _, pre, rest, hl, hrest, entry, hentry, hext, hr⟩
      have hi : lastIndexOf '.' (lower filename).data = some pre.length :=
        (lastIndexOf_eq_some _ _ _).mpr ⟨pre, rest, hl, hrest, rfl⟩
      have hdrop : (lower filename).data.drop pre.length = '.' :: rest := by
        rw [hl]; simp
      refine ⟨hne, pre.length, entry.2, hi, ?_, ?_⟩
      · rw [hdrop]; exact (getProperty_extension_iff _ _).mpr ⟨entry, hentry, hext, rfl⟩
      · rw [hdrop]; exact hr
  · intro variant hv
    have hlower : lower variant = lower filename := by
      rw [← h.caseless variant, hv, h.caseless filename]
    have hiff : variant = "" ↔ filename = "" := by
      have hlen : variant.data.length = filename.data.length := by
        have := congrArg (fun s => s.data.length) hv
        simpa [toLowerCase] using this
      constructor
      · intro hvar
        subst hvar
        have : filename.data = [] := List.length_eq_zero.mp (by simpa using hlen.symm)
        exact String.ext this
      · intro hf
        subst hf
        have : variant.data = [] := List.length_eq_zero.mp (by simpa using hlen)
        exact String.ext this
    unfold fileTypeDetector.detectFileTypeWith
    by_cases hf : filename = ""
    · rw [if_pos hf, if_pos (hiff.mpr hf)]
    · have h2 : ¬ variant = "" := fun hx => hf (hiff.mp hx)
      rw [if_neg hf, if_neg h2, hlower]
  · intro hnot
    unfold fileTypeDetector.detectFileTypeWith
    have hnone : lastIndexOf '.' (lower filename).data = none :=
      (lastIndexOf_eq_none _ _).mpr (fun hm => hnot (h.dot filename hm))
    split
    · rfl
    · simp only [hnone]
  · unfold fileTypeDetector.isFileTypeSupportedWith
    cases fileTypeDetector.detectFileTypeWith lower filename <;> simp
  · unfold fileTypeDetector.isFileTypeSupportedWith
    rw [hxyz]
    rfl

/-- C22 on a platform that lower-cases the Kelvin sign: `CLIP.M\u212AV` and
`clip.m\u212Av` differ only in the case of ASCII letters and get the same
result, the video type `mkv`. -/
theorem detectFileType_iff_lowercased_extension_listed_witness :
    fileTypeDetector.detectFileTypeWith sampleToLowerCase "CLIP.M\u212AV" =
        fileTypeDetector.detectFileTypeWith sampleToLowerCase "clip.m\u212Av" ∧
      fileTypeDetector.detectFileTypeWith sampleToLowerCase "clip.m\u212Av" =
        some ⟨"video", "mkv", ".mkv"⟩ :=
  ⟨(detectFileType_iff_lowercased_extension_listed sampleToLowerCase
      sampleToLowerCase_lowerCases "clip.m\u212Av").2.1 "CLIP.M\u212AV" (by decide),
    by decide⟩

theorem detectFileType_eq_with :
    fileTypeDetector.detectFileType = fileTypeDetector.detectFileTypeWith toLowerCase :=
  rfl

theorem toLowerCase_lowerCases : LowerCases toLowerCase := by
  refine ⟨fun _ _ => rfl, ?_, fun s h => (dot_mem_toLowerCase s).mp h⟩
  intro s
  unfold toLowerCase
  simp only [List.map_map]
  congr 1
  apply List.map_congr_left
  intro c _
  rcases toLower_cases c with h | ⟨_, _, h3⟩
  · simp [h]
  · exact toLower_of_not_upper _ (by rw [h3]; omega)

/-! ## Re-entry after more than one exit -/

/-- C6 on the code: the FBX tile 0 is `'loaded'`. Its exit event sets the
teardown timer 1; a second exit event sets timer 2 and overwrites the handle
stored for the tile; the enter event, handled while timer 1 is pending, clears
only timer 2 and leaves the state `'loaded'`. Timer 1 then fires: the teardown
callback runs, the state becomes `'unloaded'` and the tile's FBX viewer is
disposed. When no further exit event of the tile and no firing of the timer
comes between the exit and the enter event, the state stays `'loaded'`, no
asset record or viewer changes, and the teardown of that timer never runs. -/
theorem reenter_after_second_exit_is_torn_down :
    (fbxLoadedPage.tileLoadingStates 0 = some LoadingState.loaded ∧
      (fbxLoadedPage.tiles 0).fbxViewerInstance = some 0 ∧
      (run fbxLoadedPage [.exit 0]).timers = [⟨1, 0, 0⟩] ∧
      (run fbxLoadedPage [.exit 0, .exit 0, .enter 0 (envOk "blob:2")]).timers = [⟨1, 0, 0⟩] ∧
      (run fbxLoadedPage [.exit 0, .exit 0, .enter 0 (envOk "blob:2")]).tileLoadingStates 0 =
        some LoadingState.loaded ∧
      (run fbxLoadedPage
          [.exit 0, .exit 0, .enter 0 (envOk "blob:2"), .timerFired 1]).log.count
        (Effect.teardownRan 1) = 1 ∧
      (run fbxLoadedPage
          [.exit 0, .exit 0, .enter 0 (envOk "blob:2"), .timerFired 1]).tileLoadingStates 0 =
        some LoadingState.unloaded ∧
      (run fbxLoadedPage
          [.exit 0, .exit 0, .enter 0 (envOk "blob:2"), .timerFired 1]).log.count
        (Effect.disposeRan 0) = 1 ∧
      ((run fbxLoadedPage
          [.exit 0, .exit 0, .enter 0 (envOk "blob:2"), .timerFired 1]).tiles
        0).fbxViewerInstance = none) ∧
    (∀ (w : World) (t m : Nat) (env : LoadEnv) (between events : List Event),
      w.tileLoadingStates t = some LoadingState.loaded → (w.tiles t).model = some m →
      (∀ e ∈ between, e.keepsTimer t (w.lastTimer + 1) = true) →
      (observeEnter (observeExit w t) t env).tileLoadingStates t = some LoadingState.loaded ∧
        (observeEnter (observeExit w t) t env).models = w.models ∧
        (observeEnter (observeExit w t) t env).viewers = w.viewers ∧
        (run (observeEnter (run (observeExit w t) between) t env) events).log.count
            (Effect.teardownRan (w.lastTimer + 1)) =
          w.log.count (Effect.teardownRan (w.lastTimer + 1))) := by
  refine ⟨by decide, ?_⟩
  intro w t m env between events hstate hmodel hbetween
  have h := reenter_before_timer_cancels_teardown w t m env between events hstate hmodel
    hbetween
  exact ⟨h.2.1, h.2.2.1, h.2.2.2.1, h.2.2.2.2.2.2.2.2⟩

end Dave
